import Mathlib

/-!
# Boost.Geometry map projections (PROJ4 port): Albers, Stereographic / UPS,
Cylindrical Equal Area, Transverse and Oblique Cylindrical Equal Area,
Winkel II, and the series `A1` of Karney's direct geodesic formula

A shallow embedding of `srs/projections/proj/aea.hpp`,
`srs/projections/proj/stere.hpp`, `srs/projections/proj/ocea.hpp`,
`srs/projections/proj/wink2.hpp`, `extensions/gis/projections/proj/cea.hpp`,
`extensions/gis/projections/proj/tcea.hpp` and of `evaluate_series_A1` of
`formulas/karney_direct.hpp`.

The C++ code is a family of templates over a calculation type `T`
(`template <typename T>`, `CalculationType`).  The embedding keeps that shape:
every function is a computable Lean definition over an arbitrary type `T`
equipped with the operations the templates use (`CalcType`), with no law
assumed about them.  A `projection_exception(code)` is `Except.error code`.
Statements that are pure control and data flow are proved for every `T`;
statements that need arithmetic facts are proved for the instance `T = ℝ`
(`CalcType.real`), where `sin`, `cos`, ... are the real functions.  That
instance is exact arithmetic: lemmas marked "in exact real arithmetic" hold
for the formulas and are not statements about a floating-point run, in which
rounding can decide a comparison, leave a domain or produce a zero divisor.
-/

namespace Geometry

/-- The calculation type of the templates: the arithmetic operators, the
comparisons, the `<cmath>` functions and the constants of
`impl/projects.hpp` that the projection code applies to values of type `T`.
No law is assumed: a theorem about every `CalcType` holds for IEEE doubles
as well as for the reals. -/
class CalcType (T : Type) where
  /-- the literal `0.` -/
  zero : T
  /-- the literal `1.` -/
  one : T
  /-- conversion of an integer literal -/
  natCast : Nat → T
  /-- conversion of a decimal literal -/
  ofScientific : Nat → Bool → Nat → T
  add : T → T → T
  sub : T → T → T
  mul : T → T → T
  div : T → T → T
  neg : T → T
  /-- the comparison `a < b` -/
  lt : T → T → Prop
  /-- the comparison `a <= b` -/
  le : T → T → Prop
  /-- the comparison `a == b` -/
  beq : T → T → Bool
  decLt : ∀ a b : T, Decidable (lt a b)
  decLe : ∀ a b : T, Decidable (le a b)
  sin : T → T
  cos : T → T
  tan : T → T
  asin : T → T
  atan : T → T
  /-- the two-argument arctangent `atan2(y, x)` -/
  atan2 : T → T → T
  sqrt : T → T
  log : T → T
  fabs : T → T
  pow : T → T → T
  hypot : T → T → T
  /-- the `HUGE_VAL` of `<cmath>` -/
  HUGE_VAL : T
  /-- the constant `detail::HALFPI<T>()` -/
  HALFPI : T
  /-- the constant `detail::FORTPI<T>()` -/
  FORTPI : T
  /-- the constant `detail::ONEPI<T>()` -/
  ONEPI : T
  /-- the constant `detail::TWO_D_PI<T>()` -/
  TWO_D_PI : T

namespace CalcType

variable {T : Type} [CalcType T]

instance (priority := low) instZero : Zero T := ⟨CalcType.zero⟩
instance (priority := low) instOne : One T := ⟨CalcType.one⟩
instance (priority := low) instNatCast : NatCast T := ⟨CalcType.natCast⟩
instance (priority := low) instOfScientific : OfScientific T := ⟨CalcType.ofScientific⟩
instance (priority := low) instAdd : Add T := ⟨CalcType.add⟩
instance (priority := low) instSub : Sub T := ⟨CalcType.sub⟩
instance (priority := low) instMul : Mul T := ⟨CalcType.mul⟩
instance (priority := low) instDiv : Div T := ⟨CalcType.div⟩
instance (priority := low) instNeg : Neg T := ⟨CalcType.neg⟩
instance (priority := low) instLT : LT T := ⟨CalcType.lt⟩
instance (priority := low) instLE : LE T := ⟨CalcType.le⟩
instance instBEq : BEq T := ⟨CalcType.beq⟩
instance (priority := low) instDecLt (a b : T) : Decidable (a < b) := CalcType.decLt a b
instance (priority := low) instDecLe (a b : T) : Decidable (a ≤ b) := CalcType.decLe a b

end CalcType

/-- The reals as a calculation type: exact arithmetic, the real elementary
functions of Mathlib (`atan2 y x` is the argument of `x + y i`, `pow` the real
power, `hypot x y = sqrt (x * x + y * y)`), `HALFPI = π / 2`, `FORTPI = π / 4`,
`ONEPI = π`, `TWO_D_PI = 2 / π`
and a large finite number for `HUGE_VAL`.

This instance is an idealisation of the `double` that the program runs on: it
has no rounding, no infinity and no NaN, and the functions of Mathlib are
total (`x / 0 = 0`, `sqrt` of a negative number is 0, `asin` is clamped
outside `[-1, 1]`).  A statement proved for it describes the formulas of the
code.  It says nothing about a run in which rounding decides a comparison or
moves an argument out of a domain, and nothing about a quotient with divisor
0. -/
noncomputable instance CalcType.real : CalcType ℝ where
  zero := 0
  one := 1
  natCast := Nat.cast
  ofScientific := OfScientific.ofScientific
  add := (· + ·)
  sub := (· - ·)
  mul := (· * ·)
  div := (· / ·)
  neg := fun a => -a
  lt := (· < ·)
  le := (· ≤ ·)
  beq := fun a b => decide (a = b)
  decLt := fun a b => inferInstanceAs (Decidable (a < b))
  decLe := fun a b => inferInstanceAs (Decidable (a ≤ b))
  sin := Real.sin
  cos := Real.cos
  tan := Real.tan
  asin := Real.arcsin
  atan := Real.arctan
  atan2 := fun y x => Complex.arg ⟨x, y⟩
  sqrt := Real.sqrt
  log := Real.log
  fabs := fun a => |a|
  pow := fun a b => a ^ b
  hypot := fun a b => Real.sqrt (a * a + b * b)
  HUGE_VAL := 2 ^ 1024
  HALFPI := Real.pi / 2
  FORTPI := Real.pi / 4
  ONEPI := Real.pi
  TWO_D_PI := 2 / Real.pi

/-- The helpers of `srs/projections/impl/` (`pj_enfn.hpp`, `pj_msfn.hpp`,
`pj_qsfn.hpp`, `pj_tsfn.hpp`, `pj_auth.hpp`) that the projection files include
and call.  Their bodies are not part of the embedded files, so they are
parameters of the embedding: every theorem holds for every implementation. -/
class ProjImpl (T : Type) where
  /-- the coefficient table `detail::en<T>` -/
  en : Type
  /-- the coefficient table filled by `pj_authset` -/
  apa : Type
  pj_enfn : T → en
  /-- the call `pj_msfn(sinphi, cosphi, es)` -/
  pj_msfn : T → T → T → T
  /-- the call `pj_qsfn(sinphi, e, one_es)` -/
  pj_qsfn : T → T → T → T
  /-- the call `pj_tsfn(phi, sinphi, e)` -/
  pj_tsfn : T → T → T → T
  /-- the call `pj_authset(es, apa)`: `none` when it returns false -/
  pj_authset : T → Option apa
  /-- the call `pj_authlat(beta, apa)` -/
  pj_authlat : T → apa → T

/-- The named parameter set as `pj_param` reads it: `f name` is
`pj_param(params, "r<name>").f` (the value in radians, 0 when absent),
`b name` is `pj_param(params, "b<name>").i` and `t name` is
`pj_param(params, "t<name>").i` (presence). -/
structure PjParams (T : Type) where
  f : String → T
  b : String → Bool
  t : String → Bool

/-- The global projection parameters (`Parameters`) read or written by the
setups and the evaluators. -/
structure Parameters (T : Type) where
  params : PjParams T
  es : T
  e : T
  one_es : T
  phi0 : T
  lam0 : T
  k0 : T
  x0 : T
  y0 : T

open CalcType ProjImpl

namespace aea

variable {T : Type} [CalcType T]

/-- The constant `EPS10 = 1.e-10` of `detail::aea`. -/
def EPS10 : T := 1e-10
/-- The constant `TOL7 = 1.e-7`. -/
def TOL7 : T := 1e-7
/-- The constant `EPSILON = 1.0e-7`. -/
def EPSILON : T := 1e-7
/-- The constant `TOL = 1.0e-10`. -/
def TOL : T := 1e-10
/-- The constant `N_ITER = 15`. -/
def N_ITER : Nat := 15

/-- The parameter block `par_aea<T>`. -/
structure par_aea (T : Type) [ProjImpl T] where
  ec : T
  n : T
  c : T
  dd : T
  n2 : T
  rho0 : T
  phi1 : T
  phi2 : T
  en : ProjImpl.en T
  ellips : Bool

/-- The increment `dphi` computed by one pass through the body of the
`do ... while` loop of `phi1_` at the current `Phi`. -/
def phi1_dphi (qs Te Tone_es Phi : T) : T :=
  let sinpi := sin Phi
  let cospi := cos Phi
  let con := Te * sinpi
  let com := 1 - con * con
  0.5 * com * com / cospi * (qs / Tone_es - sinpi / com + 0.5 / Te * log ((1 - con) / (1 + con)))

/-- The `do ... while (fabs(dphi) > TOL && --i)` loop of `phi1_`, entered with
the counter `i = k + 1` and the current `Phi`; it returns the final `Phi`
and the final value of the counter `i`. -/
def phi1_loop (qs Te Tone_es : T) : Nat → T → T × Nat
  | k, Phi =>
    let dphi := phi1_dphi qs Te Tone_es Phi
    let Phi := Phi + dphi
    if (TOL : T) < fabs dphi then
      match k with
      | 0 => (Phi, 0)
      | k + 1 => phi1_loop qs Te Tone_es k Phi
    else (Phi, k + 1)

/-- The Newton iterates that the loop of `phi1_` runs through from a start
value: `phi1_iterate Phi k` is the value of `Phi` after `k` steps
`Phi <- Phi + dphi`, whatever the stopping test says. -/
def phi1_iterate (qs Te Tone_es : T) : T → Nat → T
  | Phi, 0 => Phi
  | Phi, k + 1 => phi1_iterate qs Te Tone_es (Phi + phi1_dphi qs Te Tone_es Phi) k

/-- The function `phi1_`: determine latitude angle phi-1. -/
def phi1_ (qs Te Tone_es : T) : T :=
  let Phi := asin (0.5 * qs)
  if Te < (EPSILON : T) then Phi
  else
    let r := phi1_loop qs Te Tone_es (N_ITER - 1) Phi
    if r.2 ≠ 0 then r.1 else HUGE_VAL

variable [ProjImpl T]

/-- The member `base_aea_ellipsoid::fwd`: forward, ellipsoid and spheroid. -/
def fwd (m_par : Parameters T) (m_proj_parm : par_aea T) (lp_lon lp_lat : T) :
    Except Int (T × T) :=
  let rho := m_proj_parm.c -
    (if m_proj_parm.ellips then m_proj_parm.n * pj_qsfn (sin lp_lat) m_par.e m_par.one_es
     else m_proj_parm.n2 * sin lp_lat)
  if rho < 0 then .error (-20)
  else
    let rho := m_proj_parm.dd * sqrt rho
    let lp_lon := lp_lon * m_proj_parm.n
    let xy_x := rho * sin lp_lon
    let xy_y := m_proj_parm.rho0 - rho * cos lp_lon
    .ok (xy_x, xy_y)

/-- The member `base_aea_ellipsoid::inv`: inverse, ellipsoid and spheroid;
the result is `(lp_lon, lp_lat)`. -/
def inv (m_par : Parameters T) (m_proj_parm : par_aea T) (xy_x xy_y : T) :
    Except Int (T × T) :=
  let xy_y := m_proj_parm.rho0 - xy_y
  let rho := hypot xy_x xy_y
  if rho != 0 then
    let neg := decide (m_proj_parm.n < 0)
    let rho := if neg then -rho else rho
    let xy_x := if neg then -xy_x else xy_x
    let xy_y := if neg then -xy_y else xy_y
    let lp_lat := rho / m_proj_parm.dd
    let lat : Except Int T :=
      if m_proj_parm.ellips then
        let lp_lat := (m_proj_parm.c - lp_lat * lp_lat) / m_proj_parm.n
        if (TOL7 : T) < fabs (m_proj_parm.ec - fabs lp_lat) then
          let lp_lat := phi1_ lp_lat m_par.e m_par.one_es
          if lp_lat == HUGE_VAL then .error (-20) else .ok lp_lat
        else .ok (if lp_lat < 0 then -HALFPI else HALFPI)
      else
        let lp_lat := (m_proj_parm.c - lp_lat * lp_lat) / m_proj_parm.n2
        if fabs lp_lat ≤ 1 then .ok (asin lp_lat)
        else .ok (if lp_lat < 0 then -HALFPI else HALFPI)
    match lat with
    | .error code => .error code
    | .ok lp_lat => .ok (atan2 xy_x xy_y / m_proj_parm.n, lp_lat)
  else
    .ok (0, if 0 < m_proj_parm.n then HALFPI else -HALFPI)

/-- The function `setup` of `detail::aea`, on a block whose `phi1` and `phi2`
have been set by the caller. -/
def setup (par : Parameters T) (proj_parm : par_aea T) : Except Int (par_aea T) :=
  if fabs (proj_parm.phi1 + proj_parm.phi2) < (EPS10 : T) then .error (-21)
  else
    let sinphi := sin proj_parm.phi1
    let proj_parm := { proj_parm with n := sinphi }
    let cosphi := cos proj_parm.phi1
    let secant := decide ((EPS10 : T) ≤ fabs (proj_parm.phi1 - proj_parm.phi2))
    let proj_parm := { proj_parm with ellips := decide ((0 : T) < par.es) }
    if proj_parm.ellips then
      let proj_parm := { proj_parm with en := pj_enfn par.es }
      let m1 := pj_msfn sinphi cosphi par.es
      let ml1 := pj_qsfn sinphi par.e par.one_es
      let secantStep : Except Int (par_aea T) :=
        if secant then
          let sinphi := sin proj_parm.phi2
          let cosphi := cos proj_parm.phi2
          let m2 := pj_msfn sinphi cosphi par.es
          let ml2 := pj_qsfn sinphi par.e par.one_es
          if ml2 == ml1 then .error 0
          else .ok { proj_parm with n := (m1 * m1 - m2 * m2) / (ml2 - ml1) }
        else .ok proj_parm
      match secantStep with
      | .error code => .error code
      | .ok proj_parm =>
        let proj_parm := { proj_parm with
          ec := 1 - 0.5 * par.one_es * log ((1 - par.e) / (1 + par.e)) / par.e }
        let proj_parm := { proj_parm with c := m1 * m1 + proj_parm.n * ml1 }
        let proj_parm := { proj_parm with dd := 1 / proj_parm.n }
        .ok { proj_parm with
          rho0 := proj_parm.dd *
            sqrt (proj_parm.c - proj_parm.n * pj_qsfn (sin par.phi0) par.e par.one_es) }
    else
      let proj_parm :=
        if secant then { proj_parm with n := 0.5 * (proj_parm.n + sin proj_parm.phi2) }
        else proj_parm
      let proj_parm := { proj_parm with n2 := proj_parm.n + proj_parm.n }
      let proj_parm := { proj_parm with c := cosphi * cosphi + proj_parm.n2 * sinphi }
      let proj_parm := { proj_parm with dd := 1 / proj_parm.n }
      .ok { proj_parm with
        rho0 := proj_parm.dd * sqrt (proj_parm.c - proj_parm.n2 * sin par.phi0) }

/-- The function `setup_aea`: Albers Equal Area. -/
def setup_aea (par : Parameters T) (proj_parm : par_aea T) : Except Int (par_aea T) :=
  let proj_parm := { proj_parm with phi1 := par.params.f "lat_1" }
  let proj_parm := { proj_parm with phi2 := par.params.f "lat_2" }
  setup par proj_parm

/-- The function `setup_leac`: Lambert Equal Area Conic. -/
def setup_leac (par : Parameters T) (proj_parm : par_aea T) : Except Int (par_aea T) :=
  let proj_parm := { proj_parm with phi2 := par.params.f "lat_1" }
  let proj_parm := { proj_parm with
    phi1 := if par.params.b "south" then -HALFPI else HALFPI }
  setup par proj_parm

end aea

namespace stere

variable {T : Type} [CalcType T]

/-- The constant `EPS10 = 1.e-10` of `detail::stere`. -/
def EPS10 : T := 1e-10
/-- The constant `TOL = 1.e-8`. -/
def TOL : T := 1e-8
/-- The constant `NITER = 8`. -/
def NITER : Nat := 8
/-- The constant `CONV = 1.e-10`. -/
def CONV : T := 1e-10

/-- The operating modes `enum Mode`. -/
inductive Mode where
  | S_POLE
  | N_POLE
  | OBLIQ
  | EQUIT
  deriving DecidableEq, Repr

open Mode

/-- The parameter block `par_stere<T>`. -/
structure par_stere (T : Type) where
  phits : T
  sinX1 : T
  cosX1 : T
  akm1 : T
  mode : Mode

/-- The function `ssfn_`. -/
def ssfn_ (phit sinphi eccen : T) : T :=
  let sinphi := sinphi * eccen
  tan (0.5 * (HALFPI + phit)) * pow ((1 - sinphi) / (1 + sinphi)) (0.5 * eccen)

/-- The member `base_stere_spheroid::fwd`: forward, spheroid. -/
def spheroid_fwd (m_proj_parm : par_stere T) (lp_lon lp_lat : T) : Except Int (T × T) :=
  let sinphi := sin lp_lat
  let cosphi := cos lp_lat
  let coslam := cos lp_lon
  let sinlam := sin lp_lon
  -- the code from the label `oblcon` to the `break`
  let oblcon (xy_y : T) : Except Int (T × T) :=
    if xy_y ≤ (EPS10 : T) then .error (-20)
    else
      let xy_y := m_proj_parm.akm1 / xy_y
      let xy_x := xy_y * cosphi * sinlam
      let xy_y := xy_y *
        (if m_proj_parm.mode = EQUIT then sinphi
         else m_proj_parm.cosX1 * sinphi - m_proj_parm.sinX1 * cosphi * coslam)
      .ok (xy_x, xy_y)
  -- the code of `case S_POLE`, which `case N_POLE` falls through to
  let pole (coslam lp_lat : T) : Except Int (T × T) :=
    if fabs (lp_lat - HALFPI) < (TOL : T) then .error (-20)
    else
      let xy_y := m_proj_parm.akm1 * tan (FORTPI + 0.5 * lp_lat)
      let xy_x := sinlam * xy_y
      let xy_y := xy_y * coslam
      .ok (xy_x, xy_y)
  match m_proj_parm.mode with
  | EQUIT => oblcon (1 + cosphi * coslam)
  | OBLIQ => oblcon (1 + m_proj_parm.sinX1 * sinphi + m_proj_parm.cosX1 * cosphi * coslam)
  | N_POLE => pole (-coslam) (-lp_lat)
  | S_POLE => pole coslam lp_lat

variable [ProjImpl T]

/-- The function `setup` of `detail::stere`: general initialization, on a
block whose `phits` has been set by the caller. -/
def setup (par : Parameters T) (proj_parm : par_stere T) : par_stere T :=
  let t := fabs par.phi0
  let proj_parm := { proj_parm with
    mode :=
      if fabs (t - HALFPI) < (EPS10 : T) then (if par.phi0 < 0 then S_POLE else N_POLE)
      else (if (EPS10 : T) < t then OBLIQ else EQUIT) }
  let proj_parm := { proj_parm with phits := fabs proj_parm.phits }
  if par.es != 0 then
    match proj_parm.mode with
    | N_POLE | S_POLE =>
      if fabs (proj_parm.phits - HALFPI) < (EPS10 : T) then
        { proj_parm with
          akm1 := 2 * par.k0 / sqrt (pow (1 + par.e) (1 + par.e) * pow (1 - par.e) (1 - par.e)) }
      else
        let t := sin proj_parm.phits
        let proj_parm := { proj_parm with
          akm1 := cos proj_parm.phits / pj_tsfn proj_parm.phits t par.e }
        let t := t * par.e
        { proj_parm with akm1 := proj_parm.akm1 / sqrt (1 - t * t) }
    | EQUIT | OBLIQ =>
      let t := sin par.phi0
      let X := 2 * atan (ssfn_ par.phi0 t par.e) - HALFPI
      let t := t * par.e
      let proj_parm := { proj_parm with akm1 := 2 * par.k0 * cos par.phi0 / sqrt (1 - t * t) }
      let proj_parm := { proj_parm with sinX1 := sin X }
      { proj_parm with cosX1 := cos X }
  else
    match proj_parm.mode with
    | OBLIQ =>
      let proj_parm := { proj_parm with sinX1 := sin par.phi0 }
      let proj_parm := { proj_parm with cosX1 := cos par.phi0 }
      { proj_parm with akm1 := 2 * par.k0 }
    | EQUIT => { proj_parm with akm1 := 2 * par.k0 }
    | S_POLE | N_POLE =>
      { proj_parm with
        akm1 :=
          if (EPS10 : T) ≤ fabs (proj_parm.phits - HALFPI) then
            cos proj_parm.phits / tan (FORTPI - 0.5 * proj_parm.phits)
          else 2 * par.k0 }

/-- The function `setup_stere`: Stereographic. -/
def setup_stere (par : Parameters T) (proj_parm : par_stere T) : par_stere T :=
  let proj_parm := { proj_parm with
    phits := if par.params.t "lat_ts" then par.params.f "lat_ts" else HALFPI }
  setup par proj_parm

/-- The function `setup_ups`: Universal Polar Stereographic.  It writes the
global parameters, so the result carries the post-setup `Parameters` with the
parameter block. -/
def setup_ups (par : Parameters T) (proj_parm : par_stere T) :
    Except Int (Parameters T × par_stere T) :=
  let par := { par with phi0 := if par.params.b "south" then -HALFPI else HALFPI }
  if par.es == 0 then .error (-34)
  else
    let par := { par with k0 := 0.994 }
    let par := { par with x0 := 2000000 }
    let par := { par with y0 := 2000000 }
    let proj_parm := { proj_parm with phits := HALFPI }
    let par := { par with lam0 := 0 }
    .ok (par, setup par proj_parm)

end stere

namespace stere

open Mode

variable {T : Type} [CalcType T]

/-- The member `base_stere_spheroid::inv`: inverse, spheroid; the result is
`(lp_lon, lp_lat)`. -/
def spheroid_inv (m_par : Parameters T) (m_proj_parm : par_stere T) (xy_x xy_y : T) :
    Except Int (T × T) :=
  let rh := hypot xy_x xy_y
  let c := 2 * atan (rh / m_proj_parm.akm1)
  let sinc := sin c
  let cosc := cos c
  -- the code of `case S_POLE`, which `case N_POLE` falls through to
  let pole (xy_y : T) : Except Int (T × T) :=
    let lp_lat :=
      if fabs rh ≤ (EPS10 : T) then m_par.phi0
      else asin (if m_proj_parm.mode = S_POLE then -cosc else cosc)
    let lp_lon := if (xy_x == 0 && xy_y == 0) then 0 else atan2 xy_x xy_y
    .ok (lp_lon, lp_lat)
  match m_proj_parm.mode with
  | EQUIT =>
    let lp_lat := if fabs rh ≤ (EPS10 : T) then 0 else asin (xy_y * sinc / rh)
    let lp_lon := if (cosc != 0 || xy_x != 0) then atan2 (xy_x * sinc) (cosc * rh) else 0
    .ok (lp_lon, lp_lat)
  | OBLIQ =>
    let lp_lat :=
      if fabs rh ≤ (EPS10 : T) then m_par.phi0
      else asin (cosc * m_proj_parm.sinX1 + xy_y * sinc * m_proj_parm.cosX1 / rh)
    let c := cosc - m_proj_parm.sinX1 * sin lp_lat
    let lp_lon :=
      if (c != 0 || xy_x != 0) then atan2 (xy_x * sinc * m_proj_parm.cosX1) (c * rh) else 0
    .ok (lp_lon, lp_lat)
  | N_POLE => pole (-xy_y)
  | S_POLE => pole xy_y

/-- One pass through the body of the `for` loop of `base_stere_ellipsoid::inv`:
the new `lp_lat` computed from the current `phi_l`. -/
def inv_step (e tp halfe halfpi phi_l : T) : T :=
  let sinphi := e * sin phi_l
  2 * atan (tp * pow ((1 + sinphi) / (1 - sinphi)) halfe) - halfpi

/-- The loop `for (i = NITER; i--; phi_l = lp_lat)` of
`base_stere_ellipsoid::inv`, entered with the counter `i` and the current
`phi_l`: `some lp_lat` when the body returns at an `lp_lat` with
`fabs(phi_l - lp_lat) < CONV`, `none` when the counter runs out. -/
def inv_loop (e tp halfe halfpi : T) : Nat → T → Option T
  | 0, _ => none
  | i + 1, phi_l =>
    let lp_lat := inv_step e tp halfe halfpi phi_l
    if fabs (phi_l - lp_lat) < (CONV : T) then some lp_lat
    else inv_loop e tp halfe halfpi i lp_lat

/-- The iterates of the refinement of `base_stere_ellipsoid::inv` from a start
value: `inv_iterate phi k` is `phi` after `k` steps, whatever the stopping
test says. -/
def inv_iterate (e tp halfe halfpi : T) : T → Nat → T
  | phi, 0 => phi
  | phi, k + 1 => inv_iterate e tp halfe halfpi (inv_step e tp halfe halfpi phi) k

/-- The values with which `base_stere_ellipsoid::inv` enters its loop. -/
structure inv_start (T : Type) where
  xy_x : T
  xy_y : T
  tp : T
  phi_l : T
  halfpi : T
  halfe : T

/-- The `switch` of `base_stere_ellipsoid::inv` that precedes the loop. -/
def ellipsoid_inv_start (m_par : Parameters T) (m_proj_parm : par_stere T) (xy_x xy_y : T) :
    inv_start T :=
  let rho := hypot xy_x xy_y
  -- the code of `case S_POLE`, which `case N_POLE` falls through to
  let pole (xy_y : T) : inv_start T :=
    let tp := (-rho) / m_proj_parm.akm1
    let phi_l := HALFPI - 2 * atan tp
    { xy_x := xy_x, xy_y := xy_y, tp := tp, phi_l := phi_l,
      halfpi := -HALFPI, halfe := (-0.5) * m_par.e }
  -- the code shared by `case OBLIQ` and `case EQUIT`
  let oblique : inv_start T :=
    let tp := 2 * atan2 (rho * m_proj_parm.cosX1) m_proj_parm.akm1
    let cosphi := cos tp
    let sinphi := sin tp
    let phi_l :=
      if rho == 0 then asin (cosphi * m_proj_parm.sinX1)
      else asin (cosphi * m_proj_parm.sinX1 + (xy_y * sinphi * m_proj_parm.cosX1 / rho))
    let tp := tan (0.5 * (HALFPI + phi_l))
    { xy_x := xy_x * sinphi
      xy_y := rho * m_proj_parm.cosX1 * cosphi - xy_y * m_proj_parm.sinX1 * sinphi
      tp := tp, phi_l := phi_l, halfpi := HALFPI, halfe := 0.5 * m_par.e }
  match m_proj_parm.mode with
  | OBLIQ => oblique
  | EQUIT => oblique
  | N_POLE => pole (-xy_y)
  | S_POLE => pole xy_y

/-- The member `base_stere_ellipsoid::inv`: inverse, ellipsoid; the result is
`(lp_lon, lp_lat)`. -/
def ellipsoid_inv (m_par : Parameters T) (m_proj_parm : par_stere T) (xy_x xy_y : T) :
    Except Int (T × T) :=
  let s := ellipsoid_inv_start m_par m_proj_parm xy_x xy_y
  match inv_loop m_par.e s.tp s.halfe s.halfpi NITER s.phi_l with
  | some lp_lat =>
    let lp_lat := if m_proj_parm.mode = S_POLE then -lp_lat else lp_lat
    let lp_lon := if (s.xy_x == 0 && s.xy_y == 0) then 0 else atan2 s.xy_x s.xy_y
    .ok (lp_lon, lp_lat)
  | none => .error (-20)

variable [ProjImpl T]

/-- The member `base_stere_ellipsoid::fwd`: forward, ellipsoid.  The function
has no `throw`; it is given the result type of the other evaluators. -/
def ellipsoid_fwd (m_par : Parameters T) (m_proj_parm : par_stere T) (lp_lon lp_lat : T) :
    Except Int (T × T) :=
  let coslam := cos lp_lon
  let sinlam := sin lp_lon
  let sinphi := sin lp_lat
  -- `sinX` and `cosX`, assigned in the modes `OBLIQ` and `EQUIT`
  let X := 2 * atan (ssfn_ lp_lat sinphi m_par.e) - HALFPI
  let sinX := sin X
  let cosX := cos X
  -- the code of `case N_POLE`, which `case S_POLE` falls through to
  let pole (lp_lat coslam sinphi : T) : T × T :=
    let xy_x := m_proj_parm.akm1 * pj_tsfn lp_lat sinphi m_par.e
    (xy_x, (-xy_x) * coslam)
  let xy : T × T :=
    match m_proj_parm.mode with
    | OBLIQ =>
      let A := m_proj_parm.akm1 / (m_proj_parm.cosX1 *
        (1 + m_proj_parm.sinX1 * sinX + m_proj_parm.cosX1 * cosX * coslam))
      let xy_y := A * (m_proj_parm.cosX1 * sinX - m_proj_parm.sinX1 * cosX * coslam)
      (A * cosX, xy_y)
    | EQUIT =>
      if 1 + cosX * coslam == 0 then
        -- `A` keeps its initial value `0.0`
        (0 * cosX, HUGE_VAL)
      else
        let A := m_proj_parm.akm1 / (1 + cosX * coslam)
        (A * cosX, A * sinX)
    | S_POLE => pole (-lp_lat) (-coslam) (-sinphi)
    | N_POLE => pole lp_lat coslam sinphi
  .ok (xy.1 * sinlam, xy.2)

end stere

/-! ## Cylindrical Equal Area and Transverse Cylindrical Equal Area
(`extensions/gis/projections/proj/cea.hpp`, `tcea.hpp`)

These two files are written for `double`; the embedding keeps the calculation
type `T` of the other files in its place. -/

/-- The exception `proj_exception` that the files of `extensions/gis` throw:
built with an explicit code, or with no argument (the default code is set in
`impl/projects.hpp`, which is not among the embedded files). -/
inductive proj_exception where
  | noCode
  | code (c : Int)
  deriving DecidableEq, Repr

namespace cea

variable {T : Type} [CalcType T] [ProjImpl T]

/-- The constant `EPS = 1e-10` of `detail::cea`. -/
def EPS : T := 1e-10

/-- The parameter block `par_cea`. -/
structure par_cea (T : Type) [ProjImpl T] where
  qp : T
  apa : ProjImpl.apa T

/-- The member `base_cea_ellipsoid::fwd`. -/
def ellipsoid_fwd (m_par : Parameters T) (lp_lon lp_lat : T) :
    Except proj_exception (T × T) :=
  let xy_x := m_par.k0 * lp_lon
  let xy_y := 0.5 * pj_qsfn (sin lp_lat) m_par.e m_par.one_es / m_par.k0
  .ok (xy_x, xy_y)

/-- The member `base_cea_ellipsoid::inv`; the result is `(lp_lon, lp_lat)`. -/
def ellipsoid_inv (m_par : Parameters T) (m_proj_parm : par_cea T) (xy_x xy_y : T) :
    Except proj_exception (T × T) :=
  let lp_lat := pj_authlat (asin (2 * xy_y * m_par.k0 / m_proj_parm.qp)) m_proj_parm.apa
  let lp_lon := xy_x / m_par.k0
  .ok (lp_lon, lp_lat)

/-- The member `base_cea_spheroid::fwd`. -/
def spheroid_fwd (m_par : Parameters T) (lp_lon lp_lat : T) :
    Except proj_exception (T × T) :=
  let xy_x := m_par.k0 * lp_lon
  let xy_y := sin lp_lat / m_par.k0
  .ok (xy_x, xy_y)

/-- The member `base_cea_spheroid::inv`; the result is `(lp_lon, lp_lat)`. -/
def spheroid_inv (m_par : Parameters T) (xy_x xy_y : T) :
    Except proj_exception (T × T) :=
  let xy_y := xy_y * m_par.k0
  let t := fabs xy_y
  if t - (EPS : T) ≤ 1 then
    let lp_lat :=
      if (1 : T) ≤ t then (if xy_y < 0 then -HALFPI else HALFPI)
      else asin xy_y
    let lp_lon := xy_x / m_par.k0
    .ok (lp_lon, lp_lat)
  else .error proj_exception.noCode

/-- The function `setup_cea`: Equal Area Cylindrical.  It writes the global
parameters, so the result carries the post-setup `Parameters` with the
parameter block. -/
def setup_cea (par : Parameters T) (proj_parm : par_cea T) :
    Except proj_exception (Parameters T × par_cea T) :=
  let t : T := 0
  let given := par.params.t "lat_ts"
  -- the right operand of `&&` is evaluated, and assigns, only when `lat_ts` is given
  let t := if given then par.params.f "lat_ts" else t
  let par := if given then { par with k0 := cos t } else par
  if given && decide (par.k0 < 0) then .error (proj_exception.code (-24))
  else if par.es != 0 then
    let t := sin t
    let par := { par with k0 := par.k0 / sqrt (1 - par.es * t * t) }
    let par := { par with e := sqrt par.es }
    match pj_authset par.es with
    | none => .error (proj_exception.code 0)
    | some apa =>
      let proj_parm := { proj_parm with apa := apa }
      .ok (par, { proj_parm with qp := pj_qsfn 1 par.e par.one_es })
  else .ok (par, proj_parm)

end cea

namespace tcea

variable {T : Type} [CalcType T]

/-- The parameter block `par_tcea`. -/
structure par_tcea (T : Type) where
  rk0 : T

/-- The member `base_tcea_spheroid::fwd`. -/
def fwd (m_par : Parameters T) (m_proj_parm : par_tcea T) (lp_lon lp_lat : T) :
    Except proj_exception (T × T) :=
  let xy_x := m_proj_parm.rk0 * cos lp_lat * sin lp_lon
  let xy_y := m_par.k0 * (atan2 (tan lp_lat) (cos lp_lon) - m_par.phi0)
  .ok (xy_x, xy_y)

/-- The member `base_tcea_spheroid::inv`; the result is `(lp_lon, lp_lat)`. -/
def inv (m_par : Parameters T) (m_proj_parm : par_tcea T) (xy_x xy_y : T) :
    Except proj_exception (T × T) :=
  let xy_y := xy_y * m_proj_parm.rk0 + m_par.phi0
  let xy_x := xy_x * m_par.k0
  let t := sqrt (1 - xy_x * xy_x)
  let lp_lat := asin (t * sin xy_y)
  let lp_lon := atan2 xy_x (t * cos xy_y)
  .ok (lp_lon, lp_lat)

/-- The function `setup_tcea`: Transverse Cylindrical Equal Area.  It writes
`par.es`, so the result carries the post-setup `Parameters` with the block. -/
def setup_tcea (par : Parameters T) (proj_parm : par_tcea T) :
    Parameters T × par_tcea T :=
  let proj_parm := { proj_parm with rk0 := 1 / par.k0 }
  let par := { par with es := 0 }
  (par, proj_parm)

end tcea

/-! ## Oblique Cylindrical Equal Area (`srs/projections/proj/ocea.hpp`) -/

namespace ocea

variable {T : Type} [CalcType T]

/-- The parameter block `par_ocea<T>`. -/
structure par_ocea (T : Type) where
  rok : T
  rtk : T
  sinphi : T
  cosphi : T
  singam : T
  cosgam : T

/-- The member `base_ocea_spheroid::fwd`.  The function has no `throw`; it is
given the result type of the other evaluators. -/
def fwd (m_proj_parm : par_ocea T) (lp_lon lp_lat : T) : Except Int (T × T) :=
  let xy_y := sin lp_lon
  let t := cos lp_lon
  let xy_x := atan ((tan lp_lat * m_proj_parm.cosphi + m_proj_parm.sinphi * xy_y) / t)
  let xy_x := if t < 0 then xy_x + ONEPI else xy_x
  let xy_x := xy_x * m_proj_parm.rtk
  let xy_y := m_proj_parm.rok *
    (m_proj_parm.sinphi * sin lp_lat - m_proj_parm.cosphi * cos lp_lat * xy_y)
  .ok (xy_x, xy_y)

/-- The member `base_ocea_spheroid::inv`; the result is `(lp_lon, lp_lat)`. -/
def inv (m_proj_parm : par_ocea T) (xy_x xy_y : T) : Except Int (T × T) :=
  let xy_y := xy_y / m_proj_parm.rok
  let xy_x := xy_x / m_proj_parm.rtk
  let t := sqrt (1 - xy_y * xy_y)
  let s := sin xy_x
  let lp_lat := asin (xy_y * m_proj_parm.sinphi + t * m_proj_parm.cosphi * s)
  let lp_lon := atan2 (t * m_proj_parm.sinphi * s - xy_y * m_proj_parm.cosphi) (t * cos xy_x)
  .ok (lp_lon, lp_lat)

/-- The `if ... else` of `setup_ocea` that defines the pole of the oblique
transformation: the values it leaves in `proj_parm.singam` and
`proj_parm.sinphi` (both angles at this point of the code). -/
def setup_pole (params : PjParams T) : T × T :=
  let phi_0 : T := 0
  if params.t "alpha" then
    -- 1 point and 1 azimuth
    let alpha := params.f "alpha"
    let lonz := params.f "lonc"
    let singam := atan ((-cos alpha) / ((-sin phi_0) * sin alpha)) + lonz
    let sinphi := asin (cos phi_0 * sin alpha)
    (singam, sinphi)
  else
    -- 2 points
    let phi_1 := params.f "lat_1"
    let phi_2 := params.f "lat_2"
    let lam_1 := params.f "lon_1"
    let lam_2 := params.f "lon_2"
    let singam := atan2
      (cos phi_1 * sin phi_2 * cos lam_1 - sin phi_1 * cos phi_2 * cos lam_2)
      (sin phi_1 * cos phi_2 * sin lam_2 - cos phi_1 * sin phi_2 * sin lam_1)
    let singam := if lam_1 == -HALFPI then -singam else singam
    let sinphi := atan ((-cos (singam - lam_1)) / tan phi_1)
    (singam, sinphi)

/-- The function `setup_ocea`: Oblique Cylindrical Equal Area.  It writes the
global parameters, so the result carries the post-setup `Parameters` with the
parameter block. -/
def setup_ocea (par : Parameters T) (proj_parm : par_ocea T) : Parameters T × par_ocea T :=
  let proj_parm := { proj_parm with rok := 1 / par.k0 }
  let proj_parm := { proj_parm with rtk := par.k0 }
  let pole := setup_pole par.params
  let proj_parm := { proj_parm with singam := pole.1 }
  let proj_parm := { proj_parm with sinphi := pole.2 }
  let par := { par with lam0 := proj_parm.singam + HALFPI }
  let proj_parm := { proj_parm with cosphi := cos proj_parm.sinphi }
  let proj_parm := { proj_parm with sinphi := sin proj_parm.sinphi }
  let proj_parm := { proj_parm with cosgam := cos proj_parm.singam }
  let proj_parm := { proj_parm with singam := sin proj_parm.singam }
  let par := { par with es := 0 }
  (par, proj_parm)

end ocea

/-! ## Winkel II (`srs/projections/proj/wink2.hpp`) -/

/-- The evaluator wrappers of `impl/base_dynamic.hpp` that the factory entries
instantiate: `base_v_f` for a projection with a forward only, `base_v_fi` for
one with a forward and an inverse. -/
inductive Wrapper where
  | base_v_f
  | base_v_fi
  deriving DecidableEq, Repr

/-- Modelled from the spec: the outcomes, other than coordinates, of a call to
an evaluator (section 7): a failure of the projection's own code, with its
code, or `UnsupportedOperation`, "inverse requested for a projection that
defines none". -/
inductive EvalFailure where
  | projection_exception (code : Int)
  | UnsupportedOperation
  deriving DecidableEq, Repr

/-- Modelled from the spec: the inverse member of an evaluator wrapper of
`impl/base_dynamic.hpp`, which is not among the embedded files.  For the
forward-only wrapper `base_v_f` the specification (sections 4.3, 7, 8) says
that an inverse-transform request "must fail as unsupported"; the wrapper
`base_v_fi` runs the `inv` of its projection. -/
def Wrapper.inverse {T : Type} (w : Wrapper) (inv : T → T → Except Int (T × T)) (x y : T) :
    Except EvalFailure (T × T) :=
  match w with
  | .base_v_f => .error .UnsupportedOperation
  | .base_v_fi =>
    match inv x y with
    | .ok lp => .ok lp
    | .error code => .error (.projection_exception code)

namespace wink2

variable {T : Type} [CalcType T]

/-- The constant `MAX_ITER = 10`. -/
def MAX_ITER : Nat := 10
/-- The constant `LOOP_TOL = 1e-7`. -/
def LOOP_TOL : T := 1e-7

/-- The parameter block `par_wink2<T>`. -/
structure par_wink2 (T : Type) where
  cosphi1 : T

/-- The correction `V` computed by one pass through the body of the `for`
loop of `base_wink2_spheroid::fwd` at the current `lp_lat`. -/
def fwd_V (k lp_lat : T) : T :=
  (lp_lat + sin lp_lat - k) / (1 + cos lp_lat)

/-- The loop `for (i = MAX_ITER; i ; --i)` of `base_wink2_spheroid::fwd`,
entered with the counter `i` and the current `lp_lat`; it returns the final
`lp_lat` and the final value of the counter. -/
def fwd_loop (k : T) : Nat → T → T × Nat
  | 0, lp_lat => (lp_lat, 0)
  | i + 1, lp_lat =>
    let V := fwd_V k lp_lat
    let lp_lat := lp_lat - V
    if fabs V < (LOOP_TOL : T) then (lp_lat, i + 1)
    else fwd_loop k i lp_lat

/-- The iterates of the loop of `base_wink2_spheroid::fwd` from a start
value: `fwd_iterate k lp_lat j` is `lp_lat` after `j` steps `lp_lat -= V`,
whatever the stopping test says. -/
def fwd_iterate (k : T) : T → Nat → T
  | lp_lat, 0 => lp_lat
  | lp_lat, j + 1 => fwd_iterate k (lp_lat - fwd_V k lp_lat) j

/-- The member `base_wink2_spheroid::fwd`.  The function has no `throw`; it
is given the result type of the other evaluators. -/
def fwd (m_proj_parm : par_wink2 T) (lp_lon lp_lat : T) : Except Int (T × T) :=
  let xy_y := lp_lat * TWO_D_PI
  let k := ONEPI * sin lp_lat
  let lp_lat := lp_lat * 1.8
  let r := fwd_loop k MAX_ITER lp_lat
  let lp_lat := r.1
  let i := r.2
  let lp_lat :=
    if i = 0 then (if lp_lat < 0 then -HALFPI else HALFPI)
    else lp_lat * 0.5
  let xy_x := 0.5 * lp_lon * (cos lp_lat + m_proj_parm.cosphi1)
  let xy_y := FORTPI * (sin lp_lat + xy_y)
  .ok (xy_x, xy_y)

/-- The function `setup_wink2`: Winkel II.  It writes `par.es`, so the result
carries the post-setup `Parameters` with the block. -/
def setup_wink2 (par : Parameters T) (proj_parm : par_wink2 T) :
    Parameters T × par_wink2 T :=
  let proj_parm := { proj_parm with cosphi1 := cos (par.params.f "lat_1") }
  let par := { par with es := 0 }
  (par, proj_parm)

/-- The member `wink2_entry::create_new`: the wrapper it instantiates, around
the `wink2_spheroid` built from `par`, whose constructor runs `setup_wink2` on
its members. -/
def create_new (par : Parameters T) (proj_parm : par_wink2 T) :
    Wrapper × Parameters T × par_wink2 T :=
  (Wrapper.base_v_f, setup_wink2 par proj_parm)

end wink2

/-! ## Factory entries of `cea.hpp` and `stere.hpp` -/

/-- The variant of a projection that a factory entry constructs. -/
inductive Variant where
  | ellipsoid
  | spheroid
  deriving DecidableEq, Repr

/-- The member `cea_entry::create_new`: the variant chosen by `if (par.es)`
and the state that its constructor reaches by `setup_cea`, or the exception
that the constructor throws.  The second argument is the member
`m_proj_parm` as the constructor finds it. -/
def cea.create_new {T : Type} [CalcType T] [ProjImpl T] (par : Parameters T)
    (proj_parm : cea.par_cea T) :
    Except proj_exception (Variant × Parameters T × cea.par_cea T) :=
  if par.es != 0 then
    match cea.setup_cea par proj_parm with
    | .ok r => .ok (Variant.ellipsoid, r)
    | .error ex => .error ex
  else
    match cea.setup_cea par proj_parm with
    | .ok r => .ok (Variant.spheroid, r)
    | .error ex => .error ex

/-- The member `stere_entry::create_new`: the variant chosen by `if (par.es)`
and the state that its constructor reaches by `setup_stere`, which leaves the
global parameters as they are. -/
def stere.stere_create_new {T : Type} [CalcType T] [ProjImpl T] (par : Parameters T)
    (proj_parm : stere.par_stere T) :
    Except Int (Variant × Parameters T × stere.par_stere T) :=
  if par.es != 0 then .ok (Variant.ellipsoid, par, stere.setup_stere par proj_parm)
  else .ok (Variant.spheroid, par, stere.setup_stere par proj_parm)

/-- The member `ups_entry::create_new`: the variant chosen by `if (par.es)`
and the state that its constructor reaches by `setup_ups`, or the exception
that the constructor throws. -/
def stere.ups_create_new {T : Type} [CalcType T] [ProjImpl T] (par : Parameters T)
    (proj_parm : stere.par_stere T) :
    Except Int (Variant × Parameters T × stere.par_stere T) :=
  if par.es != 0 then
    match stere.setup_ups par proj_parm with
    | .ok r => .ok (Variant.ellipsoid, r)
    | .error code => .error code
  else
    match stere.setup_ups par proj_parm with
    | .ok r => .ok (Variant.spheroid, r)
    | .error code => .error code

/-! ## Geodesic direct problem after Karney (`formulas/karney_direct.hpp`) -/

namespace karney_direct

variable {CT : Type} [CalcType CT]

/-- The member `karney_direct::evaluate_series_A1`, for the template argument
`SeriesOrder`.  The `switch` has the cases 0 to 4 and no default: for a larger
`SeriesOrder / 2` the local `t` keeps the value `t` it had when declared,
which the third argument stands for.  `math::sqr(eps)` is `eps * eps`. -/
def evaluate_series_A1 (SeriesOrder : Nat) (t : CT) (eps : CT) : CT :=
  let eps2 := eps * eps
  let t : CT :=
    match SeriesOrder / 2 with
    | 0 => 0
    | 1 => eps2 / 4
    | 2 => eps2 * (eps2 + 16) / 64
    | 3 => eps2 * (eps2 * (eps2 + 4) + 64) / 256
    | 4 => eps2 * (eps2 * (eps2 * (25 * eps2 + 64) + 256) + 4096) / 16384
    | _ => t
  (t + eps) / (1 - eps)

end karney_direct

/-! ## Sample inputs -/

/-- Modelled from the spec: the helpers of `srs/projections/impl/`, whose
source files are not among the embedded ones.  `pj_qsfn` is the authalic
quantity of the specification (section 4.1), with the guarded division it
asks for (`sinphi + sinphi` below `1e-7`); `pj_msfn` and `pj_tsfn`, which the
specification only names, are the PROJ formulas; the coefficient tables are
left empty.  It serves to instantiate, at concrete inputs, theorems that hold
for every implementation of the helpers (they bind their own `ProjImpl`). -/
instance (priority := low) ProjImpl.model {T : Type} [CalcType T] : ProjImpl T where
  en := Unit
  apa := Unit
  pj_enfn := fun _ => ()
  pj_msfn := fun sinphi cosphi es => cosphi / sqrt (1 - es * sinphi * sinphi)
  pj_qsfn := fun sinphi e one_es =>
    if (1e-7 : T) ≤ e then
      let con := e * sinphi
      one_es * (sinphi / (1 - con * con) - 0.5 / e * log ((1 - con) / (1 + con)))
    else sinphi + sinphi
  pj_tsfn := fun phi sinphi e =>
    let sinphi := sinphi * e
    tan (0.5 * (HALFPI - phi)) / pow ((1 - sinphi) / (1 + sinphi)) (0.5 * e)
  pj_authset := fun _ => some ()
  pj_authlat := fun beta _ => beta

/-- The parameter set that holds the listed values (in radians) and the
listed boolean flags, and nothing else. -/
def PjParams.ofList {T : Type} [CalcType T] (vals : List (String × T))
    (flags : List String) : PjParams T where
  f := fun k => (vals.lookup k).getD 0
  b := fun k => flags.contains k
  t := fun k => (vals.lookup k).isSome || flags.contains k

/-- Global parameters of a unit sphere: `es = e = 0`, `one_es = 1`, origin
`(lam0, phi0)`, `k0 = 1`, no false origin. -/
def Parameters.sphere {T : Type} [CalcType T] (params : PjParams T) (lam0 phi0 : T) :
    Parameters T where
  params := params
  es := 0
  e := 0
  one_es := 1
  phi0 := phi0
  lam0 := lam0
  k0 := 1
  x0 := 0
  y0 := 0

/-- Global parameters of an ellipsoid of eccentricity `e`: `es = e * e`,
`one_es = 1 - es`, origin `(lam0, phi0)`, `k0 = 1`, no false origin. -/
def Parameters.ellipsoid {T : Type} [CalcType T] (params : PjParams T) (e lam0 phi0 : T) :
    Parameters T where
  params := params
  es := e * e
  e := e
  one_es := 1 - e * e
  phi0 := phi0
  lam0 := lam0
  k0 := 1
  x0 := 0
  y0 := 0

/-- A block `par_aea` before setup, with every number 0. -/
def aea.par_aea.blank {T : Type} [CalcType T] [ProjImpl T] : aea.par_aea T where
  ec := 0
  n := 0
  c := 0
  dd := 0
  n2 := 0
  rho0 := 0
  phi1 := 0
  phi2 := 0
  en := pj_enfn (0 : T)
  ellips := false

/-- A block `par_stere` before setup, with every number 0. -/
def stere.par_stere.blank {T : Type} [CalcType T] : stere.par_stere T where
  phits := 0
  sinX1 := 0
  cosX1 := 0
  akm1 := 0
  mode := stere.Mode.S_POLE

/-- A block `par_ocea` before setup, with every number 0. -/
def ocea.par_ocea.blank {T : Type} [CalcType T] : ocea.par_ocea T where
  rok := 0
  rtk := 0
  sinphi := 0
  cosphi := 0
  singam := 0
  cosgam := 0

/-- A block `par_wink2` before setup, with `cosphi1 = 0`. -/
def wink2.par_wink2.blank {T : Type} [CalcType T] : wink2.par_wink2 T where
  cosphi1 := 0

/-- A block `par_cea` before setup, with `qp = 0`, built from an `apa` table. -/
def cea.par_cea.blank {T : Type} [CalcType T] [ProjImpl T] (apa : ProjImpl.apa T) :
    cea.par_cea T where
  qp := 0
  apa := apa

/-- A block `par_tcea` before setup, with `rk0 = 0`. -/
def tcea.par_tcea.blank {T : Type} [CalcType T] : tcea.par_tcea T where
  rk0 := 0

/-! ## The reals as calculation type: unfolding of the operations -/

section RealOps

variable (a b : ℝ)

@[simp] theorem real_zero : @OfNat.ofNat ℝ 0 (@Zero.toOfNat0 ℝ CalcType.instZero) = 0 := rfl
@[simp] theorem real_one : @OfNat.ofNat ℝ 1 (@One.toOfNat1 ℝ CalcType.instOne) = 1 := rfl
@[simp] theorem real_ofNat (n : ℕ) [n.AtLeastTwo] :
    @OfNat.ofNat ℝ n (@instOfNatAtLeastTwo ℝ n CalcType.instNatCast _) = OfNat.ofNat n := rfl
@[simp] theorem real_ofScientific (m : ℕ) (s : Bool) (e : ℕ) :
    @OfScientific.ofScientific ℝ CalcType.instOfScientific m s e
      = OfScientific.ofScientific m s e := rfl
@[simp] theorem real_add : @HAdd.hAdd ℝ ℝ ℝ (@instHAdd ℝ CalcType.instAdd) a b = a + b := rfl
@[simp] theorem real_sub : @HSub.hSub ℝ ℝ ℝ (@instHSub ℝ CalcType.instSub) a b = a - b := rfl
@[simp] theorem real_mul : @HMul.hMul ℝ ℝ ℝ (@instHMul ℝ CalcType.instMul) a b = a * b := rfl
@[simp] theorem real_div : @HDiv.hDiv ℝ ℝ ℝ (@instHDiv ℝ CalcType.instDiv) a b = a / b := rfl
@[simp] theorem real_neg : @Neg.neg ℝ CalcType.instNeg a = -a := rfl
@[simp] theorem real_lt : @LT.lt ℝ CalcType.instLT a b = (a < b) := rfl
@[simp] theorem real_le : @LE.le ℝ CalcType.instLE a b = (a ≤ b) := rfl
@[simp] theorem real_beq : @BEq.beq ℝ CalcType.instBEq a b = decide (a = b) := rfl
@[simp] theorem real_sin : CalcType.sin a = Real.sin a := rfl
@[simp] theorem real_cos : CalcType.cos a = Real.cos a := rfl
@[simp] theorem real_tan : CalcType.tan a = Real.tan a := rfl
@[simp] theorem real_asin : CalcType.asin a = Real.arcsin a := rfl
@[simp] theorem real_atan : CalcType.atan a = Real.arctan a := rfl
@[simp] theorem real_atan2 : CalcType.atan2 a b = Complex.arg ⟨b, a⟩ := rfl
@[simp] theorem real_sqrt : CalcType.sqrt a = Real.sqrt a := rfl
@[simp] theorem real_fabs : CalcType.fabs a = |a| := rfl
@[simp] theorem real_pow : CalcType.pow a b = a ^ b := rfl
@[simp] theorem real_hypot : CalcType.hypot a b = Real.sqrt (a * a + b * b) := rfl
@[simp] theorem real_HALFPI : (CalcType.HALFPI : ℝ) = Real.pi / 2 := rfl
@[simp] theorem real_FORTPI : (CalcType.FORTPI : ℝ) = Real.pi / 4 := rfl
@[simp] theorem real_ONEPI : (CalcType.ONEPI : ℝ) = Real.pi := rfl
@[simp] theorem real_TWO_D_PI : (CalcType.TWO_D_PI : ℝ) = 2 / Real.pi := rfl

end RealOps

/-! ## Albers Equal Area -/

namespace aea

/-- C1: for every calculation type, every helper implementation, every
global parameter state (any `es`) and every incoming block, `setup_aea` fails
with code -21 whenever `fabs(lat_1 + lat_2) < EPS10`; nothing else of the
input is consulted.  Over the reals this covers every pair `lat_1 = -lat_2`. -/
theorem setup_aea_parallels_sum_zero :
    (∀ (T : Type) (_ : CalcType T) (_ : ProjImpl T) (par : Parameters T)
        (proj_parm : par_aea T),
        fabs (par.params.f "lat_1" + par.params.f "lat_2") < (EPS10 : T) →
        setup_aea par proj_parm = .error (-21)) ∧
    (∀ (_ : ProjImpl ℝ) (par : Parameters ℝ) (proj_parm : par_aea ℝ),
        par.params.f "lat_1" = -par.params.f "lat_2" →
        setup_aea par proj_parm = .error (-21)) := by
  constructor
  · intro T _ _ par proj_parm h
    unfold setup_aea setup
    exact if_pos h
  · intro _ par proj_parm h
    unfold setup_aea setup
    apply if_pos
    show |par.params.f "lat_1" + par.params.f "lat_2"| < (1e-10 : ℝ)
    rw [h]
    norm_num

/-- Witness of C1: the standard parallels `lat_1 = 30°`, `lat_2 = -30°` on
a sphere, over the reals. -/
theorem setup_aea_parallels_sum_zero_witness :
    setup_aea
      (Parameters.sphere (PjParams.ofList [("lat_1", Real.pi / 6), ("lat_2", -(Real.pi / 6))] [])
        0 0)
      par_aea.blank = .error (-21) :=
  setup_aea_parallels_sum_zero.2 ProjImpl.model _ _ (by
    simp [Parameters.sphere, PjParams.ofList, List.lookup])

/-- C2: in the ellipsoidal secant case over the reals (`es > 0`,
`|phi1 - phi2| >= 1e-10`, sum check passed), `setup` fails, with code 0,
exactly when the authalic values `pj_qsfn(sin phi1)` and `pj_qsfn(sin phi2)`
are equal; otherwise it succeeds with `n = (m1^2 - m2^2)/(ml2 - ml1)` and
the divisor `ml2 - ml1` is not zero. -/
theorem setup_secant_fails_iff [ProjImpl ℝ] (par : Parameters ℝ) (proj_parm : par_aea ℝ)
    (hsum : ¬ |proj_parm.phi1 + proj_parm.phi2| < 1e-10) (hes : 0 < par.es)
    (hsec : 1e-10 ≤ |proj_parm.phi1 - proj_parm.phi2|) :
    let m1 := pj_msfn (Real.sin proj_parm.phi1) (Real.cos proj_parm.phi1) par.es
    let m2 := pj_msfn (Real.sin proj_parm.phi2) (Real.cos proj_parm.phi2) par.es
    let ml1 := pj_qsfn (Real.sin proj_parm.phi1) par.e par.one_es
    let ml2 := pj_qsfn (Real.sin proj_parm.phi2) par.e par.one_es
    ((∃ code, setup par proj_parm = .error code) ↔ ml2 = ml1) ∧
    (ml2 = ml1 → setup par proj_parm = .error 0) ∧
    (ml2 ≠ ml1 → ml2 - ml1 ≠ 0 ∧
      ∃ p, setup par proj_parm = .ok p ∧ p.n = (m1 * m1 - m2 * m2) / (ml2 - ml1)) := by
  intro m1 m2 ml1 ml2
  have key : ml2 = ml1 → setup par proj_parm = .error 0 := by
    intro h
    have h' : pj_qsfn (Real.sin proj_parm.phi2) par.e par.one_es
        = pj_qsfn (Real.sin proj_parm.phi1) par.e par.one_es := h
    simp [setup, EPS10, hsum, hes, hsec, h']
  have key2 : ml2 ≠ ml1 →
      ∃ p, setup par proj_parm = .ok p ∧ p.n = (m1 * m1 - m2 * m2) / (ml2 - ml1) := by
    intro h
    have h' : ¬ pj_qsfn (Real.sin proj_parm.phi2) par.e par.one_es
        = pj_qsfn (Real.sin proj_parm.phi1) par.e par.one_es := h
    simp [setup, EPS10, hsum, hes, hsec, h']
  refine ⟨⟨?_, fun h => ⟨0, key h⟩⟩, key, fun h => ⟨sub_ne_zero.mpr h, key2 h⟩⟩
  rintro ⟨code, hc⟩
  by_contra h
  obtain ⟨p, hp, _⟩ := key2 h
  rw [hp] at hc
  cases hc

/-- Witness of C2: an ellipsoid of eccentricity 0.1 with the standard
parallels 0.5 and 1 (radians). -/
theorem setup_secant_fails_iff_witness :
    ((∃ code, setup (Parameters.ellipsoid (PjParams.ofList [] []) (0.1 : ℝ) 0 0)
        { par_aea.blank with phi1 := 0.5, phi2 := 1 } = .error code) ↔
      pj_qsfn (Real.sin 1) (0.1 : ℝ) (1 - 0.1 * 0.1)
        = pj_qsfn (Real.sin 0.5) (0.1 : ℝ) (1 - 0.1 * 0.1)) :=
  (setup_secant_fails_iff (Parameters.ellipsoid (PjParams.ofList [] []) (0.1 : ℝ) 0 0)
    { par_aea.blank with phi1 := 0.5, phi2 := 1 }
    (by norm_num [abs_of_pos]) (by norm_num [Parameters.ellipsoid])
    (by norm_num [abs_of_neg])).1

/-- C3: with `r = c - n * pj_qsfn(sin lat)` (ellipsoidal) or
`r = c - n2 * sin lat` (spherical), `fwd` fails, with code -20, exactly when
`r < 0`; otherwise, with `rho = dd * sqrt r`, it returns
`x = rho * sin (lon * n)` and `y = rho0 - rho * cos (lon * n)`, the product
being formed in the order of `lp_lon *= n`.  This holds for every calculation
type; over the reals the product is `n * lon`. -/
theorem fwd_fails_iff_rho_neg :
    (∀ (T : Type) (_ : CalcType T) (_ : ProjImpl T) (m_par : Parameters T)
        (m_proj_parm : par_aea T) (lon lat : T),
        let r := m_proj_parm.c -
          (if m_proj_parm.ellips then
            m_proj_parm.n * pj_qsfn (sin lat) m_par.e m_par.one_es
           else m_proj_parm.n2 * sin lat)
        let rho := m_proj_parm.dd * sqrt r
        ((∃ code, fwd m_par m_proj_parm lon lat = .error code) ↔ r < 0) ∧
        (r < 0 → fwd m_par m_proj_parm lon lat = .error (-20)) ∧
        (¬ r < 0 → fwd m_par m_proj_parm lon lat =
          .ok (rho * sin (lon * m_proj_parm.n),
               m_proj_parm.rho0 - rho * cos (lon * m_proj_parm.n)))) ∧
    (∀ (_ : ProjImpl ℝ) (m_par : Parameters ℝ) (m_proj_parm : par_aea ℝ) (lon lat : ℝ),
        let r := m_proj_parm.c -
          (if m_proj_parm.ellips then
            m_proj_parm.n * pj_qsfn (Real.sin lat) m_par.e m_par.one_es
           else m_proj_parm.n2 * Real.sin lat)
        let rho := m_proj_parm.dd * Real.sqrt r
        ((∃ code, fwd m_par m_proj_parm lon lat = .error code) ↔ r < 0) ∧
        (r < 0 → fwd m_par m_proj_parm lon lat = .error (-20)) ∧
        (0 ≤ r → fwd m_par m_proj_parm lon lat =
          .ok (rho * Real.sin (m_proj_parm.n * lon),
               m_proj_parm.rho0 - rho * Real.cos (m_proj_parm.n * lon)))) := by
  have gen : ∀ (T : Type) (_ : CalcType T) (_ : ProjImpl T) (m_par : Parameters T)
      (m_proj_parm : par_aea T) (lon lat : T),
      let r := m_proj_parm.c -
        (if m_proj_parm.ellips then
          m_proj_parm.n * pj_qsfn (sin lat) m_par.e m_par.one_es
         else m_proj_parm.n2 * sin lat)
      let rho := m_proj_parm.dd * sqrt r
      ((∃ code, fwd m_par m_proj_parm lon lat = .error code) ↔ r < 0) ∧
      (r < 0 → fwd m_par m_proj_parm lon lat = .error (-20)) ∧
      (¬ r < 0 → fwd m_par m_proj_parm lon lat =
        .ok (rho * sin (lon * m_proj_parm.n),
             m_proj_parm.rho0 - rho * cos (lon * m_proj_parm.n))) := by
    intro T _ _ m_par m_proj_parm lon lat r rho
    have hneg : r < 0 → fwd m_par m_proj_parm lon lat = .error (-20) := fun h => if_pos h
    have hpos : ¬ r < 0 → fwd m_par m_proj_parm lon lat =
        .ok (rho * sin (lon * m_proj_parm.n),
             m_proj_parm.rho0 - rho * cos (lon * m_proj_parm.n)) := fun h => if_neg h
    refine ⟨⟨?_, fun h => ⟨_, hneg h⟩⟩, hneg, hpos⟩
    rintro ⟨code, hc⟩
    by_contra h
    rw [hpos h] at hc
    cases hc
  refine ⟨gen, ?_⟩
  intro impl m_par m_proj_parm lon lat r rho
  obtain ⟨h1, h2, h3⟩ := gen ℝ _ impl m_par m_proj_parm lon lat
  refine ⟨h1, h2, fun h => ?_⟩
  rw [mul_comm m_proj_parm.n lon]
  exact h3 (not_lt.mpr h)

/-- Witness of C3: over the reals, a spherical block with `c = 1`, `n2 = 2`
at `lat = π/2`, where `r = 1 - 2 * 1 < 0`. -/
theorem fwd_fails_iff_rho_neg_witness :
    fwd (Parameters.sphere (PjParams.ofList [] []) (0 : ℝ) 0)
      { par_aea.blank with c := 1, n2 := 2 } 0 (Real.pi / 2) = .error (-20) :=
  (fwd_fails_iff_rho_neg.2 ProjImpl.model (Parameters.sphere (PjParams.ofList [] []) (0 : ℝ) 0)
    { par_aea.blank with c := 1, n2 := 2 } 0 (Real.pi / 2)).2.1 (by
      simp [par_aea.blank])

/-- C4: `inv` fails, always with code -20, exactly when the block is
ellipsoidal, `rho = hypot(x, rho0 - y)` is not 0, the authalic value
`q = (c - (rho/dd)^2)/n` (with `rho` negated when `n < 0`) has
`fabs(ec - fabs(q)) > TOL7`, and `phi1_(q, e, one_es)` compares equal to
`HUGE_VAL`; in particular a spherical block never fails. -/
theorem inv_fails_iff_no_convergence {T : Type} [CalcType T] [ProjImpl T]
    (m_par : Parameters T) (m_proj_parm : par_aea T) (x y : T) :
    let rho := hypot x (m_proj_parm.rho0 - y)
    let rho' := if m_proj_parm.n < 0 then -rho else rho
    let q := (m_proj_parm.c - rho' / m_proj_parm.dd * (rho' / m_proj_parm.dd)) / m_proj_parm.n
    ((∃ code, inv m_par m_proj_parm x y = .error code) ↔
      (m_proj_parm.ellips = true ∧ (rho != 0) = true ∧
        (TOL7 : T) < fabs (m_proj_parm.ec - fabs q) ∧
        (phi1_ q m_par.e m_par.one_es == HUGE_VAL) = true)) ∧
    (∀ code, inv m_par m_proj_parm x y = .error code → code = -20) ∧
    (m_proj_parm.ellips = false → ∃ lp, inv m_par m_proj_parm x y = .ok lp) := by
  intro rho rho' q
  have hq : q = (m_proj_parm.c - rho' / m_proj_parm.dd * (rho' / m_proj_parm.dd))
      / m_proj_parm.n := rfl
  have hr' : rho' = if m_proj_parm.n < 0 then -rho else rho := rfl
  have hr : rho = hypot x (m_proj_parm.rho0 - y) := rfl
  clear_value q rho' rho
  unfold inv
  simp only [decide_eq_true_eq, ← hr, ← hr', ← hq]
  by_cases h0 : (rho != 0) = true
  · rw [if_pos h0]
    by_cases he : m_proj_parm.ellips = true
    · rw [if_pos he]
      by_cases ht : (TOL7 : T) < fabs (m_proj_parm.ec - fabs q)
      · rw [if_pos ht]
        by_cases hh : (phi1_ q m_par.e m_par.one_es == HUGE_VAL) = true
        · rw [if_pos hh]
          exact ⟨⟨fun _ => ⟨he, h0, ht, hh⟩, fun _ => ⟨_, rfl⟩⟩,
            fun code hc => (by cases hc; rfl), fun h => by rw [he] at h; cases h⟩
        · rw [if_neg hh]
          exact ⟨⟨fun ⟨_, hc⟩ => (by cases hc), fun h => absurd h.2.2.2 hh⟩,
            fun code hc => (by cases hc), fun h => by rw [he] at h; cases h⟩
      · rw [if_neg ht]
        exact ⟨⟨fun ⟨_, hc⟩ => (by cases hc), fun h => absurd h.2.2.1 ht⟩,
          fun code hc => (by cases hc), fun h => by rw [he] at h; cases h⟩
    · rw [if_neg he]
      refine ⟨⟨fun ⟨_, hc⟩ => ?_, fun h => absurd h.1 he⟩, fun code hc => ?_, fun _ => ?_⟩
      · split_ifs at hc
      · split_ifs at hc
      · split_ifs <;> exact ⟨_, rfl⟩
  · rw [if_neg h0]
    exact ⟨⟨fun ⟨_, hc⟩ => (by cases hc), fun h => absurd h.2.1 h0⟩,
      fun code hc => (by cases hc), fun _ => ⟨_, rfl⟩⟩

section Newton

variable {T : Type} [CalcType T] (qs Te Tone_es : T)

/-- The loop entered with counter `k + 1` stops after step `m + 1 <= k + 1` with
the counter at `k + 1 - m` when step `m + 1` is the first whose increment does
not exceed `TOL`. -/
theorem phi1_loop_converged (k m : Nat) (Phi : T) (hm : m ≤ k)
    (hbefore : ∀ j < m,
      (TOL : T) < fabs (phi1_dphi qs Te Tone_es (phi1_iterate qs Te Tone_es Phi j)))
    (hstop : ¬ (TOL : T) < fabs (phi1_dphi qs Te Tone_es (phi1_iterate qs Te Tone_es Phi m))) :
    phi1_loop qs Te Tone_es k Phi = (phi1_iterate qs Te Tone_es Phi (m + 1), k + 1 - m) := by
  induction m generalizing k Phi with
  | zero =>
    unfold phi1_loop
    simp only [phi1_iterate] at hstop
    simp only [if_neg hstop, phi1_iterate, Nat.sub_zero]
  | succ m ih =>
    obtain ⟨k, rfl⟩ : ∃ k', k = k' + 1 := ⟨k - 1, by omega⟩
    have h0 : (TOL : T) < fabs (phi1_dphi qs Te Tone_es Phi) := hbefore 0 (Nat.succ_pos m)
    unfold phi1_loop
    simp only [if_pos h0]
    rw [ih k (Phi + phi1_dphi qs Te Tone_es Phi) (by omega)
      (fun j hj => hbefore (j + 1) (by omega)) hstop]
    simp only [phi1_iterate, Nat.add_sub_add_right]

/-- The loop ends with the counter at 0 exactly when every one of its
`k + 1` increments exceeds `TOL`. -/
theorem phi1_loop_counter_zero_iff (k : Nat) (Phi : T) :
    (phi1_loop qs Te Tone_es k Phi).2 = 0 ↔
      ∀ j ≤ k, (TOL : T) < fabs (phi1_dphi qs Te Tone_es (phi1_iterate qs Te Tone_es Phi j)) := by
  induction k generalizing Phi with
  | zero =>
    unfold phi1_loop
    by_cases h0 : (TOL : T) < fabs (phi1_dphi qs Te Tone_es Phi)
    · simp only [if_pos h0, true_iff]
      intro j hj
      obtain rfl : j = 0 := by omega
      exact h0
    · simp only [if_neg h0]
      constructor
      · intro h
        cases h
      · intro h
        exact absurd (h 0 (le_refl 0)) h0
  | succ k ih =>
    unfold phi1_loop
    by_cases h0 : (TOL : T) < fabs (phi1_dphi qs Te Tone_es Phi)
    · simp only [if_pos h0]
      rw [ih]
      constructor
      · intro h j hj
        cases j with
        | zero => exact h0
        | succ j => exact h j (by omega)
      · intro h j hj
        exact h (j + 1) (by omega)
    · simp only [if_neg h0]
      constructor
      · intro h
        cases h
      · intro h
        exact absurd (h 0 (Nat.zero_le _)) h0

/-- When every increment exceeds `TOL` the loop returns the iterate after all
`k + 1` steps. -/
theorem phi1_loop_exhausted (k : Nat) (Phi : T)
    (h : ∀ j ≤ k, (TOL : T) < fabs (phi1_dphi qs Te Tone_es (phi1_iterate qs Te Tone_es Phi j))) :
    phi1_loop qs Te Tone_es k Phi = (phi1_iterate qs Te Tone_es Phi (k + 1), 0) := by
  induction k generalizing Phi with
  | zero =>
    have h0 : (TOL : T) < fabs (phi1_dphi qs Te Tone_es Phi) := h 0 (le_refl 0)
    unfold phi1_loop
    simp only [if_pos h0, phi1_iterate]
  | succ k ih =>
    have h0 : (TOL : T) < fabs (phi1_dphi qs Te Tone_es Phi) := h 0 (Nat.zero_le _)
    unfold phi1_loop
    simp only [if_pos h0]
    rw [ih _ (fun j hj => h (j + 1) (by omega))]
    rfl

end Newton

/-- C6: `phi1_` starts at `asin(.5 * qs)`; when `e < EPSILON` it returns
that value without iterating; otherwise it runs the Newton steps
`Phi <- Phi + dphi`, returns the iterate of the first step `m + 1 <= 15` whose
increment does not exceed `TOL`, and takes the `HUGE_VAL` branch (counter
`i = 0`) exactly when all 15 increments exceed `TOL`; when no iterate is
itself `HUGE_VAL`, that is exactly when it returns `HUGE_VAL`. -/
theorem phi1_newton_policy {T : Type} [CalcType T] (qs Te Tone_es : T) :
    let Φ := phi1_iterate qs Te Tone_es (asin (0.5 * qs))
    let δ := fun k => phi1_dphi qs Te Tone_es (Φ k)
    (Te < (EPSILON : T) → phi1_ qs Te Tone_es = asin (0.5 * qs)) ∧
    (¬ Te < (EPSILON : T) →
      (∀ m < 15, (∀ j < m, (TOL : T) < fabs (δ j)) → ¬ (TOL : T) < fabs (δ m) →
        phi1_loop qs Te Tone_es 14 (Φ 0) = (Φ (m + 1), 15 - m) ∧
        phi1_ qs Te Tone_es = Φ (m + 1)) ∧
      ((phi1_loop qs Te Tone_es 14 (Φ 0)).2 = 0 ↔ ∀ j < 15, (TOL : T) < fabs (δ j)) ∧
      ((∀ j < 15, (TOL : T) < fabs (δ j)) → phi1_ qs Te Tone_es = HUGE_VAL) ∧
      ((∀ k, Φ k ≠ HUGE_VAL) →
        (phi1_ qs Te Tone_es = HUGE_VAL ↔ ∀ j < 15, (TOL : T) < fabs (δ j)))) := by
  intro Φ δ
  have hΦ0 : Φ 0 = asin (0.5 * qs) := rfl
  have hzero : (phi1_loop qs Te Tone_es 14 (Φ 0)).2 = 0 ↔ ∀ j < 15, (TOL : T) < fabs (δ j) := by
    rw [phi1_loop_counter_zero_iff]
    exact ⟨fun h j hj => h j (by omega), fun h j hj => h j (by omega)⟩
  have hconv : ∀ m < 15, (∀ j < m, (TOL : T) < fabs (δ j)) → ¬ (TOL : T) < fabs (δ m) →
      phi1_loop qs Te Tone_es 14 (Φ 0) = (Φ (m + 1), 15 - m) := by
    intro m hm hb hs
    exact phi1_loop_converged qs Te Tone_es 14 m (Φ 0) (by omega) hb hs
  have hval : ∀ h : ¬ Te < (EPSILON : T), phi1_ qs Te Tone_es =
      if (phi1_loop qs Te Tone_es 14 (Φ 0)).2 ≠ 0 then (phi1_loop qs Te Tone_es 14 (Φ 0)).1
      else HUGE_VAL := by
    intro h
    unfold phi1_
    simp only [if_neg h, N_ITER, hΦ0]
  refine ⟨fun h => ?_, fun h => ⟨fun m hm hb hs => ⟨hconv m hm hb hs, ?_⟩, hzero, fun hall => ?_,
    fun hne => ⟨fun hret => ?_, fun hall => ?_⟩⟩⟩
  · unfold phi1_
    simp only [if_pos h]
  · rw [hval h, hconv m hm hb hs]
    have : 15 - m ≠ 0 := by omega
    simp only [ne_eq, this, not_false_eq_true, if_true]
  · rw [hval h, if_neg (not_not.mpr (hzero.mpr hall))]
  · by_contra hnot
    have hc : (phi1_loop qs Te Tone_es 14 (Φ 0)).2 ≠ 0 := fun h0 => hnot (hzero.mp h0)
    rw [hval h, if_pos hc] at hret
    obtain ⟨m, hm, hb, hs⟩ : ∃ m, m < 15 ∧ (∀ j < m, (TOL : T) < fabs (δ j)) ∧
        ¬ (TOL : T) < fabs (δ m) := by
      by_contra hex
      apply hnot
      intro j
      induction j using Nat.strong_induction_on with
      | _ j ih =>
        intro hj
        by_contra hs
        exact hex ⟨j, hj, fun i hi => ih i hi (by omega), hs⟩
    rw [hconv m hm hb hs] at hret
    exact hne (m + 1) hret
  · rw [hval h, if_neg (not_not.mpr (hzero.mpr hall))]

section RoundTrip

/-- The argument of the point at distance `R > 0` in direction `θ`, for `θ`
in `(-π, π]`. -/
theorem arg_polar (R θ : ℝ) (hR : 0 < R) (h1 : -Real.pi < θ) (h2 : θ ≤ Real.pi) :
    Complex.arg ⟨R * Real.cos θ, R * Real.sin θ⟩ = θ := by
  have h := Complex.arg_mul_cos_add_sin_mul_I hR (Set.mem_Ioc.mpr ⟨h1, h2⟩)
  have hz : (⟨R * Real.cos θ, R * Real.sin θ⟩ : ℂ)
      = (R : ℂ) * (Complex.cos θ + Complex.sin θ * Complex.I) := by
    apply Complex.ext <;> simp [Complex.cos_ofReal_re, Complex.sin_ofReal_re,
      Complex.cos_ofReal_im, Complex.sin_ofReal_im]
  rw [hz, h]

/-- What a successful spherical `setup` leaves in the block: the spherical
flag, `n2 = n + n`, `dd = 1 / n`, and a cone constant `n` that is `sin phi1`
(tangent) or the mean of `sin phi1` and `sin phi2` (secant), so `|n| <= 1`. -/
theorem setup_spherical_block [ProjImpl ℝ] (par : Parameters ℝ) (p₀ p : par_aea ℝ)
    (hes : par.es = 0) (h : setup par p₀ = .ok p) :
    p.ellips = false ∧ p.n2 = p.n + p.n ∧ p.dd = 1 / p.n ∧ |p.n| ≤ 1 ∧
    p.c = Real.cos p₀.phi1 * Real.cos p₀.phi1 + p.n2 * Real.sin p₀.phi1 ∧
    p.n = (if 1e-10 ≤ |p₀.phi1 - p₀.phi2| then 0.5 * (Real.sin p₀.phi1 + Real.sin p₀.phi2)
           else Real.sin p₀.phi1) := by
  have hs1 := Real.sin_le_one p₀.phi1
  have hs2 := Real.neg_one_le_sin p₀.phi1
  have hs3 := Real.sin_le_one p₀.phi2
  have hs4 := Real.neg_one_le_sin p₀.phi2
  unfold setup at h
  simp only [real_zero, real_one, real_ofScientific, real_add, real_sub, real_mul,
    real_div, real_lt, real_le, real_sin, real_cos, real_fabs, real_sqrt, EPS10, hes,
    lt_irrefl, decide_False, decide_eq_true_eq, Bool.false_eq_true, if_false] at h
  split_ifs at h with h1 h2
  · simp only [Except.ok.injEq] at h
    subst h
    refine ⟨rfl, rfl, rfl, ?_, rfl, (if_pos h2).symm⟩
    rw [abs_le]
    constructor <;> norm_num <;> linarith
  · simp only [Except.ok.injEq] at h
    subst h
    refine ⟨rfl, rfl, rfl, ?_, rfl, (if_neg h2).symm⟩
    rw [abs_le]
    exact ⟨hs2, hs1⟩

/-- The round trip on a spherical block with `n2 = n + n`, `dd = 1 / n` and
`0 < |n| <= 1`. -/
theorem inv_fwd_spherical [ProjImpl ℝ] (par : Parameters ℝ) (p : par_aea ℝ) (lon lat : ℝ)
    (he : p.ellips = false) (hn2 : p.n2 = p.n + p.n) (hdd : p.dd = 1 / p.n)
    (hn1 : |p.n| ≤ 1) (hn : p.n ≠ 0)
    (hlat1 : -(Real.pi / 2) ≤ lat) (hlat2 : lat ≤ Real.pi / 2)
    (hlon1 : -Real.pi < lon) (hlon2 : lon < Real.pi)
    (hr : 0 < p.c - p.n2 * Real.sin lat) :
    ∃ x y, fwd par p lon lat = .ok (x, y) ∧ inv par p x y = .ok (lon, lat) := by
  have hs : 0 < √(p.c - p.n2 * Real.sin lat) := Real.sqrt_pos.mpr hr
  have hss : √(p.c - p.n2 * Real.sin lat) * √(p.c - p.n2 * Real.sin lat)
      = p.c - p.n2 * Real.sin lat := Real.mul_self_sqrt hr.le
  have hdd0 : p.dd ≠ 0 := by
    rw [hdd]
    exact one_div_ne_zero hn
  have hn20 : p.n2 ≠ 0 := by
    rw [hn2]
    intro h
    apply hn
    linarith
  obtain ⟨ρ, hρ⟩ : ∃ ρ, ρ = p.dd * √(p.c - p.n2 * Real.sin lat) := ⟨_, rfl⟩
  have hρ0 : ρ ≠ 0 := by
    rw [hρ]
    exact mul_ne_zero hdd0 hs.ne'
  have hfwd : fwd par p lon lat
      = .ok (ρ * Real.sin (lon * p.n), p.rho0 - ρ * Real.cos (lon * p.n)) := by
    unfold fwd
    simp only [he, real_zero, real_sub, real_mul, real_sin, real_lt, real_sqrt, real_cos,
      Bool.false_eq_true, if_false, if_neg (not_lt.mpr hr.le), ← hρ]
  have hθ : |lon * p.n| < Real.pi := by
    rw [abs_mul]
    calc |lon| * |p.n| ≤ |lon| * 1 := mul_le_mul_of_nonneg_left hn1 (abs_nonneg _)
      _ = |lon| := mul_one _
      _ < Real.pi := abs_lt.mpr ⟨hlon1, hlon2⟩
  have hθ1 := (abs_lt.mp hθ).1
  have hθ2 := (abs_lt.mp hθ).2.le
  have hhyp : √(ρ * Real.sin (lon * p.n) * (ρ * Real.sin (lon * p.n))
      + ρ * Real.cos (lon * p.n) * (ρ * Real.cos (lon * p.n))) = |ρ| := by
    rw [← Real.sqrt_sq_eq_abs]
    congr 1
    have := Real.sin_sq_add_cos_sq (lon * p.n)
    nlinarith [this]
  have hq : (p.c - √(p.c - p.n2 * Real.sin lat) * √(p.c - p.n2 * Real.sin lat)) / p.n2
      = Real.sin lat := by
    rw [hss]
    field_simp
  have hlatv : Real.arcsin (Real.sin lat) = lat := Real.arcsin_sin hlat1 hlat2
  have hsin1 : |Real.sin lat| ≤ 1 := abs_le.mpr ⟨Real.neg_one_le_sin lat, Real.sin_le_one lat⟩
  have hlonv : lon * p.n / p.n = lon := by field_simp
  have hsign : (if decide (p.n < 0) = true then -|ρ| else |ρ|) = ρ ∧
      (if decide (p.n < 0) = true then -(ρ * Real.cos (lon * p.n))
        else ρ * Real.cos (lon * p.n)) = |ρ| * Real.cos (lon * p.n) ∧
      (if decide (p.n < 0) = true then -(ρ * Real.sin (lon * p.n))
        else ρ * Real.sin (lon * p.n)) = |ρ| * Real.sin (lon * p.n) := by
    rcases lt_or_gt_of_ne hn with hneg | hpos
    · have hρneg : ρ < 0 := by
        rw [hρ, hdd]
        exact mul_neg_of_neg_of_pos (one_div_neg.mpr hneg) hs
      simp only [hneg, decide_True, if_true, abs_of_neg hρneg, neg_neg, neg_mul, and_self]
    · have hρpos : 0 < ρ := by
        rw [hρ, hdd]
        exact mul_pos (one_div_pos.mpr hpos) hs
      simp only [not_lt.mpr hpos.le, decide_False, Bool.false_eq_true, if_false,
        abs_of_pos hρpos, and_self]
  have hρdd : ρ / p.dd = √(p.c - p.n2 * Real.sin lat) := by
    rw [hρ]
    field_simp
  have habs0 : ¬ |ρ| = 0 := fun h => hρ0 (abs_eq_zero.mp h)
  have harg : Complex.arg ⟨|ρ| * Real.cos (lon * p.n), |ρ| * Real.sin (lon * p.n)⟩
      = lon * p.n := arg_polar _ _ (abs_pos.mpr hρ0) hθ1 hθ2
  refine ⟨_, _, hfwd, ?_⟩
  unfold inv
  simp only [real_zero, real_one, real_sub, real_mul, real_div, real_neg, real_lt, real_le,
    real_beq, bne, real_hypot, real_fabs, real_asin, real_atan2, sub_sub_cancel, hhyp, he,
    Bool.false_eq_true, if_false, hsign.1, hsign.2.1, hsign.2.2, hρdd, hq, hsin1, if_true,
    hlatv, harg, hlonv, habs0, decide_False, Bool.not_false]

/-- A spherical `setup` whose sum check passes succeeds. -/
theorem setup_spherical_ok [ProjImpl ℝ] (par : Parameters ℝ) (p₀ : par_aea ℝ)
    (hes : par.es = 0) (hsum : ¬ |p₀.phi1 + p₀.phi2| < 1e-10) :
    ∃ p, setup par p₀ = .ok p := by
  unfold setup
  simp only [real_zero, real_ofScientific, real_add, real_lt, real_fabs, EPS10, hes,
    lt_irrefl, decide_False, Bool.false_eq_true, if_false, if_neg hsum]
  exact ⟨_, rfl⟩

end RoundTrip

/-- In exact real arithmetic (rounding, NaN and division by zero of a
floating-point run are outside this lemma): spherical Albers round trip.
For every block `p`
that `setup` (called directly, by `setup_aea` or by `setup_leac`) returns on a
global state with `es = 0`, with `n != 0` of either sign, every `lat` in
`[-π/2, π/2]` and `lon` in `(-π, π)` with `c - n2 * sin lat > 0`: `fwd`
succeeds and `inv` applied to its result returns exactly `(lon, lat)`, which
is in particular within `1e-6` of it. -/
theorem spherical_round_trip_exact [ProjImpl ℝ] (par : Parameters ℝ) (p₀ p : par_aea ℝ)
    (lon lat : ℝ) (hes : par.es = 0)
    (hsetup : setup par p₀ = .ok p ∨ setup_aea par p₀ = .ok p ∨ setup_leac par p₀ = .ok p)
    (hn : p.n ≠ 0)
    (hlat1 : -(Real.pi / 2) ≤ lat) (hlat2 : lat ≤ Real.pi / 2)
    (hlon1 : -Real.pi < lon) (hlon2 : lon < Real.pi)
    (hr : 0 < p.c - p.n2 * Real.sin lat) :
    ∃ x y lon' lat', fwd par p lon lat = .ok (x, y) ∧ inv par p x y = .ok (lon', lat') ∧
      lon' = lon ∧ lat' = lat ∧ |lon' - lon| ≤ 1e-6 ∧ |lat' - lat| ≤ 1e-6 := by
  have hblock : ∃ q, setup par q = .ok p := by
    rcases hsetup with h | h | h
    · exact ⟨_, h⟩
    · exact ⟨_, h⟩
    · exact ⟨_, h⟩
  obtain ⟨q, hq⟩ := hblock
  obtain ⟨he, hn2, hdd, hn1, _, _⟩ := setup_spherical_block par q p hes hq
  obtain ⟨x, y, hf, hi⟩ :=
    inv_fwd_spherical par p lon lat he hn2 hdd hn1 hn hlat1 hlat2 hlon1 hlon2 hr
  refine ⟨x, y, lon, lat, hf, hi, rfl, rfl, ?_, ?_⟩ <;> norm_num

/-- An instance of the exact round trip: the sphere with standard parallels -0.5 and -1 (radians),
where the cone constant is negative, at `lon = 1`, `lat = 0`. -/
theorem spherical_round_trip_exact_example :
    ∃ p x y, setup_aea
        (Parameters.sphere (PjParams.ofList [("lat_1", (-0.5 : ℝ)), ("lat_2", -1)] []) 0 0)
        par_aea.blank = .ok p ∧ p.n < 0 ∧
      fwd (Parameters.sphere (PjParams.ofList [("lat_1", (-0.5 : ℝ)), ("lat_2", -1)] []) 0 0)
        p 1 0 = .ok (x, y) ∧
      inv (Parameters.sphere (PjParams.ofList [("lat_1", (-0.5 : ℝ)), ("lat_2", -1)] []) 0 0)
        p x y = .ok (1, 0) := by
  have hpi := Real.pi_gt_three
  have h05 : 0 < Real.sin 0.5 := Real.sin_pos_of_pos_of_lt_pi (by norm_num) (by linarith)
  have h1 : 0 < Real.sin 1 := Real.sin_pos_of_pos_of_lt_pi (by norm_num) (by linarith)
  obtain ⟨p, hp⟩ := setup_spherical_ok
    (Parameters.sphere (PjParams.ofList [("lat_1", (-0.5 : ℝ)), ("lat_2", -1)] []) 0 0)
    { par_aea.blank with phi1 := -0.5, phi2 := -1 } rfl (by norm_num [abs_of_pos])
  obtain ⟨_, hn2, _, _, hc, hnv⟩ := setup_spherical_block _ _ p rfl hp
  have hnv' : p.n = 0.5 * (-Real.sin 0.5 + -Real.sin 1) := by
    rw [hnv, if_pos (by norm_num [abs_of_pos])]
    simp only [Real.sin_neg]
  have hneg : p.n < 0 := by
    rw [hnv']
    linarith
  have hsetup : setup_aea
      (Parameters.sphere (PjParams.ofList [("lat_1", (-0.5 : ℝ)), ("lat_2", -1)] []) 0 0)
      par_aea.blank = .ok p := hp
  have hr : 0 < p.c - p.n2 * Real.sin 0 := by
    rw [hc, hn2]
    simp only [Real.sin_zero, mul_zero, sub_zero, Real.sin_neg, Real.cos_neg]
    nlinarith [mul_self_nonneg (Real.cos 0.5)]
  obtain ⟨x, y, lon', lat', hf, hi, hlon, hlat, _, _⟩ := spherical_round_trip_exact
    (Parameters.sphere (PjParams.ofList [("lat_1", (-0.5 : ℝ)), ("lat_2", -1)] []) 0 0)
    par_aea.blank p 1 0 rfl (Or.inr (Or.inl hsetup)) hneg.ne
    (by linarith) (by linarith) (by linarith) (by linarith) hr
  rw [hlon, hlat] at hi
  exact ⟨p, x, y, hsetup, hneg, hf, hi⟩

end aea

/-! ## Stereographic and Universal Polar Stereographic -/

namespace stere

open Mode

/-- C7: for every calculation type and every parameter set, `setup_ups`
fails exactly when `es == 0.0`, and then with code -34; for every other `es`
it returns a post-setup state. -/
theorem setup_ups_fails_iff_sphere {T : Type} [CalcType T] [ProjImpl T]
    (par : Parameters T) (proj_parm : par_stere T) :
    ((∃ code, setup_ups par proj_parm = .error code) ↔ (par.es == 0) = true) ∧
    ((par.es == 0) = true → setup_ups par proj_parm = .error (-34)) ∧
    ((par.es == 0) = false → ∃ r, setup_ups par proj_parm = .ok r) := by
  have h1 : (par.es == 0) = true → setup_ups par proj_parm = .error (-34) := by
    intro h
    unfold setup_ups
    exact if_pos h
  have h2 : (par.es == 0) = false → ∃ r, setup_ups par proj_parm = .ok r := by
    intro h
    unfold setup_ups
    exact ⟨_, if_neg (by simp [h])⟩
  refine ⟨⟨?_, fun h => ⟨_, h1 h⟩⟩, h1, h2⟩
  rintro ⟨code, hc⟩
  by_contra h
  obtain ⟨r, hr⟩ := h2 (by simpa using h)
  rw [hr] at hc
  cases hc

/-- Witness of C7: over the reals, UPS on a sphere, with the flag `south`. -/
theorem setup_ups_fails_iff_sphere_witness :
    setup_ups (Parameters.sphere (PjParams.ofList [] ["south"]) (0 : ℝ) 0) par_stere.blank
      = .error (-34) :=
  (setup_ups_fails_iff_sphere (Parameters.sphere (PjParams.ofList [] ["south"]) (0 : ℝ) 0)
    par_stere.blank).2.1 (by simp [Parameters.sphere])

/-- C8: over the reals, for every global state with `es != 0`, every
parameter set and every incoming block, `setup_ups` succeeds and the
post-setup state has `phi0 = -π/2` with `south` and `π/2` without,
`k0 = 0.994`, `x0 = y0 = 2000000`, `lam0 = 0`, `phits = π/2`, mode `S_POLE`
with `south` and `N_POLE` without, and
`akm1 = 2 * 0.994 / sqrt ((1+e)^(1+e) * (1-e)^(1-e))`; `es`, `e`, `one_es`
and the parameter set are left as they were. -/
theorem setup_ups_state [ProjImpl ℝ] (par : Parameters ℝ) (proj_parm : par_stere ℝ)
    (hes : par.es ≠ 0) :
    ∃ par' p, setup_ups par proj_parm = .ok (par', p) ∧
      par'.phi0 = (if par.params.b "south" then -(Real.pi / 2) else Real.pi / 2) ∧
      par'.k0 = 0.994 ∧ par'.x0 = 2000000 ∧ par'.y0 = 2000000 ∧ par'.lam0 = 0 ∧
      p.phits = Real.pi / 2 ∧
      p.mode = (if par.params.b "south" then S_POLE else N_POLE) ∧
      p.akm1 = 2 * 0.994 /
        Real.sqrt ((1 + par.e) ^ (1 + par.e) * (1 - par.e) ^ (1 - par.e)) ∧
      par'.es = par.es ∧ par'.e = par.e ∧ par'.one_es = par.one_es ∧
      par'.params = par.params := by
  have hpi : (0 : ℝ) < Real.pi / 2 := by positivity
  have hnn : ¬ (Real.pi / 2 < 0) := not_lt.mpr hpi.le
  have habs : |Real.pi / 2| = Real.pi / 2 := abs_of_pos hpi
  have hsmall : (0 : ℝ) < 1e-10 := by norm_num
  have hes' : ¬ (par.es == 0) = true := by simpa using hes
  refine ⟨{ par with
      phi0 := if par.params.b "south" then -HALFPI else HALFPI
      k0 := 0.994, x0 := 2000000, y0 := 2000000, lam0 := 0 },
    setup { par with
      phi0 := if par.params.b "south" then -HALFPI else HALFPI
      k0 := 0.994, x0 := 2000000, y0 := 2000000, lam0 := 0 }
      { proj_parm with phits := HALFPI }, ?_, ?_⟩
  · unfold setup_ups
    exact if_neg hes'
  · by_cases hs : par.params.b "south" = true
    · simp [setup, EPS10, hs, hes, habs, hsmall, hpi]
    · simp [setup, EPS10, hs, hes, habs, hsmall, hnn]

/-- Witness of C8: an ellipsoid of eccentricity 0.08 with the flag `south`,
the caller having supplied the origin `(0.3, 0.2)`. -/
theorem setup_ups_state_witness :
    ∃ par' p, setup_ups (Parameters.ellipsoid (PjParams.ofList [] ["south"]) (0.08 : ℝ) 0.3 0.2)
        par_stere.blank = .ok (par', p) ∧
      par'.phi0 = -(Real.pi / 2) ∧ par'.k0 = 0.994 ∧ par'.lam0 = 0 ∧ p.mode = S_POLE := by
  obtain ⟨par', p, h, h1, h2, _, _, h5, _, h7, _⟩ :=
    setup_ups_state (Parameters.ellipsoid (PjParams.ofList [] ["south"]) (0.08 : ℝ) 0.3 0.2)
      par_stere.blank (by norm_num [Parameters.ellipsoid])
  refine ⟨par', p, h, ?_, h2, h5, ?_⟩
  · rw [h1]
    simp [Parameters.ellipsoid, PjParams.ofList]
  · rw [h7]
    simp [Parameters.ellipsoid, PjParams.ofList]

/-- C9: over the reals, `setup` (and so `setup_stere`) selects the mode from
`phi0` alone: `S_POLE` when `||phi0| - π/2| < 1e-10` and `phi0 < 0`, `N_POLE`
when `||phi0| - π/2| < 1e-10` and `phi0 >= 0`, otherwise `OBLIQ` when
`|phi0| > 1e-10`, otherwise `EQUIT`; two global states with the same `phi0`
get the same mode whatever their `es`, `k0`, parameter sets (`lat_ts`) and
incoming blocks. -/
theorem setup_mode_selection :
    (∀ (_ : ProjImpl ℝ) (par : Parameters ℝ) (proj_parm : par_stere ℝ),
      (setup par proj_parm).mode =
        (if |(|par.phi0| - Real.pi / 2)| < 1e-10 ∧ par.phi0 < 0 then S_POLE
         else if |(|par.phi0| - Real.pi / 2)| < 1e-10 ∧ 0 ≤ par.phi0 then N_POLE
         else if 1e-10 < |par.phi0| then OBLIQ
         else EQUIT) ∧
      (setup_stere par proj_parm).mode = (setup par proj_parm).mode) ∧
    (∀ (_ : ProjImpl ℝ) (par₁ par₂ : Parameters ℝ) (p₁ p₂ : par_stere ℝ),
      par₁.phi0 = par₂.phi0 →
      (setup par₁ p₁).mode = (setup par₂ p₂).mode ∧
      (setup_stere par₁ p₁).mode = (setup_stere par₂ p₂).mode) := by
  have hmode : ∀ (_ : ProjImpl ℝ) (par : Parameters ℝ) (proj_parm : par_stere ℝ),
      (setup par proj_parm).mode =
        (if |(|par.phi0| - Real.pi / 2)| < 1e-10 then (if par.phi0 < 0 then S_POLE else N_POLE)
         else if 1e-10 < |par.phi0| then OBLIQ else EQUIT) := by
    intro _ par proj_parm
    unfold setup
    simp only [real_beq, real_zero, real_fabs, real_sub, real_lt, real_HALFPI, EPS10,
      real_ofScientific]
    by_cases h1 : |(|par.phi0| - Real.pi / 2)| < 1e-10
    · by_cases h2 : par.phi0 < 0 <;> by_cases h3 : par.es = 0 <;> simp only [h1, h2, h3] <;>
        split_ifs <;> rfl
    · by_cases h2 : 1e-10 < |par.phi0| <;> by_cases h3 : par.es = 0 <;> simp only [h1, h2, h3] <;>
        split_ifs <;> rfl
  have hstere : ∀ (_ : ProjImpl ℝ) (par : Parameters ℝ) (proj_parm : par_stere ℝ),
      (setup_stere par proj_parm).mode = (setup par proj_parm).mode := by
    intro _ par proj_parm
    unfold setup_stere
    rw [hmode, hmode]
  refine ⟨fun impl par proj_parm => ⟨?_, hstere impl par proj_parm⟩,
    fun impl par₁ par₂ p₁ p₂ h => ?_⟩
  · rw [hmode]
    by_cases h1 : |(|par.phi0| - Real.pi / 2)| < 1e-10
    · by_cases h2 : par.phi0 < 0
      · simp [h1, h2]
      · simp [h1, h2, not_lt.mp h2]
    · simp [h1]
  · rw [hstere, hstere, hmode, hmode, h]
    exact ⟨rfl, rfl⟩

/-- C10: over the reals, the spherical forward in `EQUIT` or `OBLIQ` mode
fails, with code -20, exactly when the denominator `d <= 1e-10`, where
`d = 1 + cos lat * cos lon` in `EQUIT` and
`d = 1 + sinX1 * sin lat + cosX1 * cos lat * cos lon` in `OBLIQ`; when
`d > 1e-10` it returns `x = akm1/d * cos lat * sin lon` and
`y = akm1/d * sin lat` (`EQUIT`) or
`y = akm1/d * (cosX1 * sin lat - sinX1 * cos lat * cos lon)` (`OBLIQ`); in
`EQUIT` mode it fails at the antipode `lon = π`, `lat = 0`. -/
theorem spheroid_fwd_equit_obliq :
    (∀ (p : par_stere ℝ) (lon lat : ℝ), p.mode = EQUIT →
      let d := 1 + Real.cos lat * Real.cos lon
      ((∃ code, spheroid_fwd p lon lat = .error code) ↔ d ≤ 1e-10) ∧
      (d ≤ 1e-10 → spheroid_fwd p lon lat = .error (-20)) ∧
      (1e-10 < d → spheroid_fwd p lon lat =
        .ok (p.akm1 / d * Real.cos lat * Real.sin lon, p.akm1 / d * Real.sin lat))) ∧
    (∀ (p : par_stere ℝ) (lon lat : ℝ), p.mode = OBLIQ →
      let d := 1 + p.sinX1 * Real.sin lat + p.cosX1 * Real.cos lat * Real.cos lon
      ((∃ code, spheroid_fwd p lon lat = .error code) ↔ d ≤ 1e-10) ∧
      (d ≤ 1e-10 → spheroid_fwd p lon lat = .error (-20)) ∧
      (1e-10 < d → spheroid_fwd p lon lat =
        .ok (p.akm1 / d * Real.cos lat * Real.sin lon,
             p.akm1 / d * (p.cosX1 * Real.sin lat - p.sinX1 * Real.cos lat * Real.cos lon)))) ∧
    (∀ (p : par_stere ℝ), p.mode = EQUIT →
      spheroid_fwd p Real.pi 0 = .error (-20)) := by
  have hE : ∀ (p : par_stere ℝ) (lon lat : ℝ), p.mode = EQUIT →
      (1 + Real.cos lat * Real.cos lon ≤ 1e-10 → spheroid_fwd p lon lat = .error (-20)) ∧
      (1e-10 < 1 + Real.cos lat * Real.cos lon → spheroid_fwd p lon lat =
        .ok (p.akm1 / (1 + Real.cos lat * Real.cos lon) * Real.cos lat * Real.sin lon,
             p.akm1 / (1 + Real.cos lat * Real.cos lon) * Real.sin lat)) := by
    intro p lon lat hm
    constructor
    · intro h
      simp only [spheroid_fwd, hm, EPS10, real_one, real_add, real_mul, real_cos, real_le,
        real_ofScientific, if_pos h]
    · intro h
      simp only [spheroid_fwd, hm, EPS10, real_one, real_add, real_mul, real_cos, real_le,
        real_ofScientific, real_div, real_sin, if_neg (not_le.mpr h), if_true]
  have hO : ∀ (p : par_stere ℝ) (lon lat : ℝ), p.mode = OBLIQ →
      (1 + p.sinX1 * Real.sin lat + p.cosX1 * Real.cos lat * Real.cos lon ≤ 1e-10 →
        spheroid_fwd p lon lat = .error (-20)) ∧
      (1e-10 < 1 + p.sinX1 * Real.sin lat + p.cosX1 * Real.cos lat * Real.cos lon →
        spheroid_fwd p lon lat =
        .ok (p.akm1 / (1 + p.sinX1 * Real.sin lat + p.cosX1 * Real.cos lat * Real.cos lon)
              * Real.cos lat * Real.sin lon,
             p.akm1 / (1 + p.sinX1 * Real.sin lat + p.cosX1 * Real.cos lat * Real.cos lon)
              * (p.cosX1 * Real.sin lat - p.sinX1 * Real.cos lat * Real.cos lon))) := by
    intro p lon lat hm
    constructor
    · intro h
      simp only [spheroid_fwd, hm, EPS10, real_one, real_add, real_mul, real_cos, real_le,
        real_sin, real_ofScientific, if_pos h]
    · intro h
      simp only [spheroid_fwd, hm, EPS10, real_one, real_add, real_mul, real_cos, real_le,
        real_ofScientific, real_div, real_sin, real_sub, if_neg (not_le.mpr h), reduceCtorEq,
        if_false]
  refine ⟨fun p lon lat hm => ?_, fun p lon lat hm => ?_, fun p hm => ?_⟩
  · obtain ⟨h1, h2⟩ := hE p lon lat hm
    refine ⟨⟨?_, fun h => ⟨_, h1 h⟩⟩, h1, h2⟩
    rintro ⟨code, hc⟩
    by_contra h
    rw [h2 (not_le.mp h)] at hc
    cases hc
  · obtain ⟨h1, h2⟩ := hO p lon lat hm
    refine ⟨⟨?_, fun h => ⟨_, h1 h⟩⟩, h1, h2⟩
    rintro ⟨code, hc⟩
    by_contra h
    rw [h2 (not_le.mp h)] at hc
    cases hc
  · apply (hE p Real.pi 0 hm).1
    norm_num

/-- The guard of the `EQUIT` arm of the ellipsoidal forward: where
`1 + cosX * cos lon == 0` the result is `(0 * cosX * sin lon, HUGE_VAL)`. -/
theorem ellipsoid_fwd_equit_guard {T : Type} [CalcType T] [ProjImpl T] (m_par : Parameters T)
    (m_proj_parm : par_stere T) (lon lat : T) (hm : m_proj_parm.mode = EQUIT)
    (hz : (1 + cos (2 * atan (ssfn_ lat (sin lat) m_par.e) - HALFPI) * cos lon == 0) = true) :
    ellipsoid_fwd m_par m_proj_parm lon lat =
      .ok (0 * cos (2 * atan (ssfn_ lat (sin lat) m_par.e) - HALFPI) * sin lon, HUGE_VAL) := by
  simp only [ellipsoid_fwd, hm]
  rw [if_pos hz]

/-- C11 (as amended): for every calculation type, the ellipsoidal forward
has no failure branch, it returns coordinates in every mode; in `EQUIT` mode,
where `1 + cosX * cos lon == 0`, the guard skips the division and the result
is `x = 0 * cosX * sin lon`, `y = HUGE_VAL`; in a polar mode the result is
`x = akm1 * t * sin lon`, `y = -(akm1 * t) * c` with `t = pj_tsfn(lat, sin lat, e)`,
`c = cos lon` in `N_POLE` and `t = pj_tsfn(-lat, -sin lat, e)`, `c = -cos lon`
in `S_POLE`, with no test of the opposite pole. -/
theorem ellipsoid_fwd_no_failure {T : Type} [CalcType T] [ProjImpl T] (m_par : Parameters T)
    (m_proj_parm : par_stere T) (lon lat : T) :
    let cosX := cos (2 * atan (ssfn_ lat (sin lat) m_par.e) - HALFPI)
    (∃ xy, ellipsoid_fwd m_par m_proj_parm lon lat = .ok xy) ∧
    (m_proj_parm.mode = EQUIT → (1 + cosX * cos lon == 0) = true →
      ellipsoid_fwd m_par m_proj_parm lon lat = .ok (0 * cosX * sin lon, HUGE_VAL)) ∧
    (m_proj_parm.mode = N_POLE →
      ellipsoid_fwd m_par m_proj_parm lon lat =
        .ok (m_proj_parm.akm1 * pj_tsfn lat (sin lat) m_par.e * sin lon,
          (-(m_proj_parm.akm1 * pj_tsfn lat (sin lat) m_par.e)) * cos lon)) ∧
    (m_proj_parm.mode = S_POLE →
      ellipsoid_fwd m_par m_proj_parm lon lat =
        .ok (m_proj_parm.akm1 * pj_tsfn (-lat) (-sin lat) m_par.e * sin lon,
          (-(m_proj_parm.akm1 * pj_tsfn (-lat) (-sin lat) m_par.e)) * (-cos lon))) := by
  intro cosX
  refine ⟨⟨_, rfl⟩, fun hm hz => ellipsoid_fwd_equit_guard m_par m_proj_parm lon lat hm hz,
    fun hm => ?_, fun hm => ?_⟩
  · simp only [ellipsoid_fwd, hm]
  · simp only [ellipsoid_fwd, hm]

/-- Counterexample to C11 as stated: over the reals, on an ellipsoid of
eccentricity 0.08 with the block that `setup_stere` builds for `phi0 = 0`
(mode `EQUIT`), the forward at the antipode `lon = π`, `lat = 0`, where
`1 + cosX * cos lon = 0`, does not fail: it returns `x = 0`, `y = HUGE_VAL`. -/
theorem ellipsoid_fwd_antipode_returns :
    (setup_stere (Parameters.ellipsoid (PjParams.ofList [] []) (0.08 : ℝ) 0 0)
      par_stere.blank).mode = EQUIT ∧
    1 + Real.cos (2 * Real.arctan (ssfn_ (0 : ℝ) (Real.sin 0) 0.08) - Real.pi / 2)
      * Real.cos Real.pi = 0 ∧
    ellipsoid_fwd (Parameters.ellipsoid (PjParams.ofList [] []) (0.08 : ℝ) 0 0)
      (setup_stere (Parameters.ellipsoid (PjParams.ofList [] []) (0.08 : ℝ) 0 0)
        par_stere.blank) Real.pi 0 = .ok (0, HUGE_VAL) := by
  have hpi := Real.pi_gt_three
  have h1 : ¬ |(|(0 : ℝ)| - Real.pi / 2)| < 1e-10 := by
    rw [abs_zero, zero_sub, abs_neg, abs_of_pos (by linarith)]
    norm_num
    linarith
  have h2 : ¬ (1e-10 : ℝ) < |(0 : ℝ)| := by norm_num
  have hmode : (setup_stere (Parameters.ellipsoid (PjParams.ofList [] []) (0.08 : ℝ) 0 0)
      par_stere.blank).mode = EQUIT := by
    simp only [setup_stere, setup, EPS10, Parameters.ellipsoid, real_zero, real_fabs, real_sub,
      real_lt, real_HALFPI, real_ofScientific, h1, h2, if_false]
    split_ifs <;> rfl
  have hss : ssfn_ (0 : ℝ) (Real.sin 0) 0.08 = 1 := by
    simp only [ssfn_, real_HALFPI, real_add, real_sub, real_mul, real_div, real_one, real_tan,
      real_pow, real_ofScientific, Real.sin_zero, zero_mul, add_zero, sub_zero, div_one,
      Real.one_rpow, mul_one]
    have : (0.5 : ℝ) * (Real.pi / 2) = Real.pi / 4 := by ring
    rw [this, Real.tan_pi_div_four]
  have hX : 2 * Real.arctan (ssfn_ (0 : ℝ) (Real.sin 0) 0.08) - Real.pi / 2 = 0 := by
    rw [hss, Real.arctan_one]
    ring
  have hz : 1 + Real.cos (2 * Real.arctan (ssfn_ (0 : ℝ) (Real.sin 0) 0.08) - Real.pi / 2)
      * Real.cos Real.pi = 0 := by
    rw [hX, Real.cos_zero, Real.cos_pi]
    norm_num
  refine ⟨hmode, hz, ?_⟩
  rw [ellipsoid_fwd_equit_guard _ _ _ _ hmode (by
    simp only [real_beq, real_zero, real_one, real_add, real_mul, real_sub, real_cos, real_atan,
      real_sin, real_ofNat, real_HALFPI, decide_eq_true_eq]
    exact hz)]
  simp only [real_zero, real_mul, real_sin, zero_mul]

/-- The spherical forward in a polar mode, over the reals: with `s = -1` in
`N_POLE` and `s = 1` in `S_POLE`, it fails with code -20 when
`|s * lat - π/2| < 1e-8` and otherwise returns
`(sin lon * (akm1 * tan (π/4 + s * lat / 2)), akm1 * tan (π/4 + s * lat / 2) * (s * cos lon))`. -/
theorem spheroid_fwd_pole (p : par_stere ℝ) (lon lat : ℝ) :
    (p.mode = N_POLE →
      spheroid_fwd p lon lat =
        if |(-lat) - Real.pi / 2| < 1e-8 then .error (-20)
        else .ok (Real.sin lon * (p.akm1 * Real.tan (Real.pi / 4 + 0.5 * (-lat))),
          p.akm1 * Real.tan (Real.pi / 4 + 0.5 * (-lat)) * (-Real.cos lon))) ∧
    (p.mode = S_POLE →
      spheroid_fwd p lon lat =
        if |lat - Real.pi / 2| < 1e-8 then .error (-20)
        else .ok (Real.sin lon * (p.akm1 * Real.tan (Real.pi / 4 + 0.5 * lat)),
          p.akm1 * Real.tan (Real.pi / 4 + 0.5 * lat) * Real.cos lon)) := by
  constructor <;> intro hm <;>
    simp only [spheroid_fwd, hm, TOL, real_ofScientific, real_add, real_sub, real_mul, real_neg,
      real_lt, real_sin, real_cos, real_tan, real_fabs, real_HALFPI, real_FORTPI]

/-- C12: over the reals, in spherical north-pole mode `fwd(lon, π/2)`
succeeds and is exactly `(0, 0)` for every `lon` and every `akm1`, and in
south-pole mode `fwd(lon, -π/2)` is `(0, 0)`. -/
theorem spheroid_fwd_pole_origin :
    (∀ (p : par_stere ℝ) (lon : ℝ), p.mode = N_POLE →
      spheroid_fwd p lon (Real.pi / 2) = .ok (0, 0)) ∧
    (∀ (p : par_stere ℝ) (lon : ℝ), p.mode = S_POLE →
      spheroid_fwd p lon (-(Real.pi / 2)) = .ok (0, 0)) := by
  have hpi := Real.pi_gt_three
  have hne : ¬ |(-(Real.pi / 2)) - Real.pi / 2| < (1e-8 : ℝ) := by
    rw [abs_of_neg (by linarith)]
    norm_num
    linarith
  have htan : Real.tan (Real.pi / 4 + 0.5 * (-(Real.pi / 2))) = 0 := by
    have : Real.pi / 4 + 0.5 * (-(Real.pi / 2)) = 0 := by ring
    rw [this, Real.tan_zero]
  constructor
  · intro p lon hm
    rw [(spheroid_fwd_pole p lon (Real.pi / 2)).1 hm, if_neg hne, htan]
    simp
  · intro p lon hm
    rw [(spheroid_fwd_pole p lon (-(Real.pi / 2))).2 hm, if_neg hne, htan]
    simp

/-- C13: over the reals, in spherical north-pole mode `fwd` fails, with code
-20, exactly when `|lat - (-π/2)| < 1e-8`, for every `lon`, in particular at
`fwd(0, -π/2)`; in south-pole mode it fails, with code -20, exactly when
`|lat - π/2| < 1e-8`. -/
theorem spheroid_fwd_pole_fails_iff :
    (∀ (p : par_stere ℝ) (lon lat : ℝ), p.mode = N_POLE →
      ((∃ code, spheroid_fwd p lon lat = .error code) ↔ |lat - (-(Real.pi / 2))| < 1e-8) ∧
      (|lat - (-(Real.pi / 2))| < 1e-8 → spheroid_fwd p lon lat = .error (-20))) ∧
    (∀ (p : par_stere ℝ), p.mode = N_POLE →
      spheroid_fwd p 0 (-(Real.pi / 2)) = .error (-20)) ∧
    (∀ (p : par_stere ℝ) (lon lat : ℝ), p.mode = S_POLE →
      ((∃ code, spheroid_fwd p lon lat = .error code) ↔ |lat - Real.pi / 2| < 1e-8) ∧
      (|lat - Real.pi / 2| < 1e-8 → spheroid_fwd p lon lat = .error (-20))) := by
  have hN : ∀ lat : ℝ, |(-lat) - Real.pi / 2| = |lat - (-(Real.pi / 2))| := by
    intro lat
    rw [← abs_neg]
    congr 1
    ring
  have key : ∀ (c : Prop) [Decidable c] (v : ℝ × ℝ),
      ((∃ code, (if c then (Except.error (-20) : Except Int (ℝ × ℝ)) else .ok v)
        = .error code) ↔ c) ∧
      (c → (if c then (Except.error (-20) : Except Int (ℝ × ℝ)) else .ok v) = .error (-20)) := by
    intro c _ v
    by_cases h : c
    · simp [h]
    · simp [h]
  refine ⟨fun p lon lat hm => ?_, fun p hm => ?_, fun p lon lat hm => ?_⟩
  · rw [(spheroid_fwd_pole p lon lat).1 hm, hN]
    exact key _ _
  · rw [(spheroid_fwd_pole p 0 (-(Real.pi / 2))).1 hm, hN, if_pos]
    norm_num
  · rw [(spheroid_fwd_pole p lon lat).2 hm]
    exact key _ _

section Refinement

variable {T : Type} [CalcType T] (e tp halfe halfpi : T)

/-- The loop entered with counter `n` returns the iterate `m + 1 <= n` when
step `m + 1` is the first that meets `fabs(phi_l - lp_lat) < CONV`. -/
theorem inv_loop_converged (n m : Nat) (phi : T) (hm : m < n)
    (hbefore : ∀ j < m, ¬ fabs (inv_iterate e tp halfe halfpi phi j -
      inv_iterate e tp halfe halfpi phi (j + 1)) < (CONV : T))
    (hstop : fabs (inv_iterate e tp halfe halfpi phi m -
      inv_iterate e tp halfe halfpi phi (m + 1)) < (CONV : T)) :
    inv_loop e tp halfe halfpi n phi = some (inv_iterate e tp halfe halfpi phi (m + 1)) := by
  induction m generalizing n phi with
  | zero =>
    obtain ⟨n, rfl⟩ : ∃ n', n = n' + 1 := ⟨n - 1, by omega⟩
    have h0 : fabs (phi - inv_step e tp halfe halfpi phi) < (CONV : T) := hstop
    unfold inv_loop
    simp only [if_pos h0]
    rfl
  | succ m ih =>
    obtain ⟨n, rfl⟩ : ∃ n', n = n' + 1 := ⟨n - 1, by omega⟩
    have h0 : ¬ fabs (phi - inv_step e tp halfe halfpi phi) < (CONV : T) :=
      hbefore 0 (Nat.succ_pos m)
    unfold inv_loop
    simp only [if_neg h0]
    rw [ih n (inv_step e tp halfe halfpi phi) (by omega)
      (fun j hj => hbefore (j + 1) (by omega)) hstop]
    rfl

/-- The loop runs out of its counter exactly when none of its `n` steps meets
`fabs(phi_l - lp_lat) < CONV`. -/
theorem inv_loop_none_iff (n : Nat) (phi : T) :
    inv_loop e tp halfe halfpi n phi = none ↔
      ∀ j < n, ¬ fabs (inv_iterate e tp halfe halfpi phi j -
        inv_iterate e tp halfe halfpi phi (j + 1)) < (CONV : T) := by
  induction n generalizing phi with
  | zero =>
    unfold inv_loop
    simp
  | succ n ih =>
    unfold inv_loop
    by_cases h0 : fabs (phi - inv_step e tp halfe halfpi phi) < (CONV : T)
    · simp only [if_pos h0]
      constructor
      · intro h
        cases h
      · intro h
        exact absurd h0 (h 0 (Nat.succ_pos n))
    · simp only [if_neg h0]
      rw [ih]
      constructor
      · intro h j hj
        cases j with
        | zero => exact h0
        | succ j => exact h j (by omega)
      · intro h j hj
        exact h (j + 1) (by omega)

end Refinement

/-- C14: for every calculation type, `base_stere_ellipsoid::inv` refines the
start value `phi_0` left by its `switch` with the step
`phi <- 2*atan(tp * pow((1 + e*sin phi)/(1 - e*sin phi), halfe)) - halfpi`
(`inv_step`); when step `k <= 8` is the first with
`fabs(phi_(k-1) - phi_k) < CONV` it returns the latitude `phi_k`, negated in
`S_POLE` mode, with the longitude `atan2(x, y)`, or 0 when `x == 0` and
`y == 0`, of the `x`, `y` left by the `switch` (in `S_POLE` the input, in
`N_POLE` the input with `y` negated); it fails exactly when none of the 8
steps meets the test, and then with code -20. -/
theorem ellipsoid_inv_refinement {T : Type} [CalcType T] (m_par : Parameters T)
    (m_proj_parm : par_stere T) (x y : T) :
    let s := ellipsoid_inv_start m_par m_proj_parm x y
    let φ := inv_iterate m_par.e s.tp s.halfe s.halfpi s.phi_l
    let lon := if (s.xy_x == 0 && s.xy_y == 0) then 0 else atan2 s.xy_x s.xy_y
    (∀ k, φ (k + 1) = 2 * atan (s.tp *
        pow ((1 + m_par.e * sin (φ k)) / (1 - m_par.e * sin (φ k))) s.halfe) - s.halfpi) ∧
    (∀ k, 1 ≤ k → k ≤ 8 →
      (∀ j, 1 ≤ j → j < k → ¬ fabs (φ (j - 1) - φ j) < (CONV : T)) →
      fabs (φ (k - 1) - φ k) < (CONV : T) →
      ellipsoid_inv m_par m_proj_parm x y =
        .ok (lon, if m_proj_parm.mode = S_POLE then -(φ k) else φ k)) ∧
    ((∃ code, ellipsoid_inv m_par m_proj_parm x y = .error code) ↔
      ∀ k, 1 ≤ k → k ≤ 8 → ¬ fabs (φ (k - 1) - φ k) < (CONV : T)) ∧
    (∀ code, ellipsoid_inv m_par m_proj_parm x y = .error code → code = -20) ∧
    (m_proj_parm.mode = S_POLE → s.xy_x = x ∧ s.xy_y = y) ∧
    (m_proj_parm.mode = N_POLE → s.xy_x = x ∧ s.xy_y = -y) := by
  intro s φ lon
  have hstep : ∀ (phi : T) (k : Nat),
      inv_iterate m_par.e s.tp s.halfe s.halfpi phi (k + 1) =
        inv_step m_par.e s.tp s.halfe s.halfpi
          (inv_iterate m_par.e s.tp s.halfe s.halfpi phi k) := by
    intro phi k
    induction k generalizing phi with
    | zero => rfl
    | succ k ih =>
      show inv_iterate m_par.e s.tp s.halfe s.halfpi
        (inv_step m_par.e s.tp s.halfe s.halfpi phi) (k + 1) = _
      rw [ih]
      rfl
  have hnone : inv_loop m_par.e s.tp s.halfe s.halfpi NITER s.phi_l = none ↔
      ∀ k, 1 ≤ k → k ≤ 8 → ¬ fabs (φ (k - 1) - φ k) < (CONV : T) := by
    rw [inv_loop_none_iff]
    constructor
    · intro h k hk1 hk8
      have := h (k - 1) (by simp only [NITER]; omega)
      rwa [Nat.sub_add_cancel hk1] at this
    · intro h j hj
      exact h (j + 1) (by omega) (by simp only [NITER] at hj; omega)
  have hrun : ellipsoid_inv m_par m_proj_parm x y =
      match inv_loop m_par.e s.tp s.halfe s.halfpi NITER s.phi_l with
      | some lp_lat => .ok (lon, if m_proj_parm.mode = S_POLE then -lp_lat else lp_lat)
      | none => .error (-20) := rfl
  refine ⟨fun k => hstep s.phi_l k, fun k hk1 hk8 hb hs => ?_, ⟨fun ⟨code, hc⟩ => ?_, fun h => ?_⟩,
    fun code hc => ?_, fun hm => ?_, fun hm => ?_⟩
  · obtain ⟨m, rfl⟩ : ∃ m, k = m + 1 := ⟨k - 1, by omega⟩
    have hl := inv_loop_converged m_par.e s.tp s.halfe s.halfpi NITER m s.phi_l
      (by simp only [NITER]; omega)
      (fun j hj => by
        have := hb (j + 1) (by omega) (by omega)
        simpa using this)
      (by simpa using hs)
    rw [hrun, hl]
  · rw [← hnone]
    rw [hrun] at hc
    cases hl : inv_loop m_par.e s.tp s.halfe s.halfpi NITER s.phi_l with
    | none => rfl
    | some v =>
      rw [hl] at hc
      cases hc
  · rw [hrun, hnone.mpr h]
    exact ⟨_, rfl⟩
  · rw [hrun] at hc
    cases hl : inv_loop m_par.e s.tp s.halfe s.halfpi NITER s.phi_l with
    | none =>
      rw [hl] at hc
      cases hc
      rfl
    | some v =>
      rw [hl] at hc
      cases hc
  · simp only [s, ellipsoid_inv_start, hm, and_self]
  · simp only [s, ellipsoid_inv_start, hm, and_self]

section SphericalRoundTrip

/-- Cosine and sine of twice an arctangent. -/
theorem cos_sin_two_arctan (t : ℝ) :
    Real.cos (2 * Real.arctan t) = (1 - t ^ 2) / (1 + t ^ 2) ∧
    Real.sin (2 * Real.arctan t) = 2 * t / (1 + t ^ 2) := by
  have hpos : 0 < 1 + t ^ 2 := by positivity
  have hsq : √(1 + t ^ 2) * √(1 + t ^ 2) = 1 + t ^ 2 := Real.mul_self_sqrt hpos.le
  have hne : √(1 + t ^ 2) ≠ 0 := (Real.sqrt_pos.mpr hpos).ne'
  constructor
  · rw [Real.cos_two_mul, Real.cos_sq_arctan]
    field_simp
    ring
  · rw [Real.sin_two_mul, Real.sin_arctan, Real.cos_arctan]
    field_simp

/-- The angular distance `c = 2 atan(rh / akm1)` recovered by the inverse from
the radius `rh = akm1 / (1 + u) * s` of a forward image, where `u` is the
cosine and `s >= 0` the sine of the distance to the projection centre. -/
theorem stere_angle (A u s : ℝ) (hA : 0 < A) (hd : 0 < 1 + u) (hs : s * s = 1 - u * u) :
    Real.cos (2 * Real.arctan (A / (1 + u) * s / A)) = u ∧
    Real.sin (2 * Real.arctan (A / (1 + u) * s / A)) = s := by
  have ht : A / (1 + u) * s / A = s / (1 + u) := by
    field_simp
    ring
  have h1 : 1 + (s / (1 + u)) ^ 2 = 2 / (1 + u) := by
    field_simp
    nlinarith [hs]
  have h2 : 1 - (s / (1 + u)) ^ 2 = 2 * u / (1 + u) := by
    field_simp
    nlinarith [hs]
  obtain ⟨hc, hsn⟩ := cos_sin_two_arctan (s / (1 + u))
  rw [ht, hc, hsn, h1, h2]
  constructor <;> field_simp

/-- The polar constant `cos(phits) / tan(π/4 - phits/2)` of the spherical
setup is never negative. -/
theorem polar_akm1_nonneg (ph : ℝ) :
    0 ≤ Real.cos ph / Real.tan (Real.pi / 4 - 0.5 * ph) := by
  have hcos : Real.cos ph = 2 * Real.sin (Real.pi / 4 - 0.5 * ph)
      * Real.cos (Real.pi / 4 - 0.5 * ph) := by
    rw [← Real.sin_two_mul, ← Real.sin_pi_div_two_sub]
    congr 1
    ring
  rw [Real.tan_eq_sin_div_cos]
  by_cases hs : Real.sin (Real.pi / 4 - 0.5 * ph) = 0
  · rw [hcos, hs]
    simp
  by_cases hc : Real.cos (Real.pi / 4 - 0.5 * ph) = 0
  · rw [hcos, hc]
    simp
  have : Real.cos ph / (Real.sin (Real.pi / 4 - 0.5 * ph) / Real.cos (Real.pi / 4 - 0.5 * ph))
      = 2 * Real.cos (Real.pi / 4 - 0.5 * ph) ^ 2 := by
    rw [hcos]
    generalize Real.sin (Real.pi / 4 - 0.5 * ph) = a at hs ⊢
    generalize Real.cos (Real.pi / 4 - 0.5 * ph) = b at hc ⊢
    field_simp
    ring
  rw [this]
  positivity

/-- The spherical forward in `EQUIT` and `OBLIQ` mode over the reals, as one
expression in the denominator `d`. -/
theorem spheroid_fwd_oblcon_real (p : par_stere ℝ) (lon lat : ℝ) :
    (p.mode = EQUIT →
      spheroid_fwd p lon lat =
        if 1 + Real.cos lat * Real.cos lon ≤ 1e-10 then .error (-20)
        else .ok (p.akm1 / (1 + Real.cos lat * Real.cos lon) * Real.cos lat * Real.sin lon,
          p.akm1 / (1 + Real.cos lat * Real.cos lon) * Real.sin lat)) ∧
    (p.mode = OBLIQ →
      spheroid_fwd p lon lat =
        if 1 + p.sinX1 * Real.sin lat + p.cosX1 * Real.cos lat * Real.cos lon ≤ 1e-10 then
          .error (-20)
        else .ok (p.akm1 / (1 + p.sinX1 * Real.sin lat + p.cosX1 * Real.cos lat * Real.cos lon)
            * Real.cos lat * Real.sin lon,
          p.akm1 / (1 + p.sinX1 * Real.sin lat + p.cosX1 * Real.cos lat * Real.cos lon)
            * (p.cosX1 * Real.sin lat - p.sinX1 * Real.cos lat * Real.cos lon))) := by
  constructor <;> intro hm <;>
    simp only [spheroid_fwd, hm, EPS10, real_one, real_add, real_mul, real_cos, real_le,
      real_ofScientific, real_div, real_sin, real_sub, reduceCtorEq, if_true, if_false]

/-- The spherical inverse over the reals, mode by mode, with `rh = hypot(x, y)`
and `c = 2 atan(rh / akm1)`. -/
theorem spheroid_inv_modes_real (par : Parameters ℝ) (p : par_stere ℝ) (x y : ℝ) :
    (p.mode = EQUIT →
      spheroid_inv par p x y = .ok
        (if ¬ Real.cos (2 * Real.arctan (√(x * x + y * y) / p.akm1)) = 0 ∨ ¬ x = 0 then
          Complex.arg ⟨Real.cos (2 * Real.arctan (√(x * x + y * y) / p.akm1)) * √(x * x + y * y),
            x * Real.sin (2 * Real.arctan (√(x * x + y * y) / p.akm1))⟩
         else 0,
         if |√(x * x + y * y)| ≤ 1e-10 then 0
         else Real.arcsin (y * Real.sin (2 * Real.arctan (√(x * x + y * y) / p.akm1))
           / √(x * x + y * y)))) ∧
    (p.mode = OBLIQ → (1e-10 : ℝ) < √(x * x + y * y) →
      spheroid_inv par p x y = .ok
        (if ¬ Real.cos (2 * Real.arctan (√(x * x + y * y) / p.akm1)) - p.sinX1 * Real.sin
              (Real.arcsin (Real.cos (2 * Real.arctan (√(x * x + y * y) / p.akm1)) * p.sinX1 +
                y * Real.sin (2 * Real.arctan (√(x * x + y * y) / p.akm1)) * p.cosX1
                  / √(x * x + y * y))) = 0 ∨ ¬ x = 0 then
          Complex.arg ⟨(Real.cos (2 * Real.arctan (√(x * x + y * y) / p.akm1)) - p.sinX1 * Real.sin
              (Real.arcsin (Real.cos (2 * Real.arctan (√(x * x + y * y) / p.akm1)) * p.sinX1 +
                y * Real.sin (2 * Real.arctan (√(x * x + y * y) / p.akm1)) * p.cosX1
                  / √(x * x + y * y)))) * √(x * x + y * y),
            x * Real.sin (2 * Real.arctan (√(x * x + y * y) / p.akm1)) * p.cosX1⟩
         else 0,
         Real.arcsin (Real.cos (2 * Real.arctan (√(x * x + y * y) / p.akm1)) * p.sinX1 +
            y * Real.sin (2 * Real.arctan (√(x * x + y * y) / p.akm1)) * p.cosX1
              / √(x * x + y * y)))) ∧
    (p.mode = N_POLE → (1e-10 : ℝ) < √(x * x + y * y) →
      spheroid_inv par p x y = .ok
        (if x = 0 ∧ -y = 0 then 0 else Complex.arg ⟨-y, x⟩,
         Real.arcsin (Real.cos (2 * Real.arctan (√(x * x + y * y) / p.akm1))))) ∧
    (p.mode = S_POLE → (1e-10 : ℝ) < √(x * x + y * y) →
      spheroid_inv par p x y = .ok
        (if x = 0 ∧ y = 0 then 0 else Complex.arg ⟨y, x⟩,
         Real.arcsin (-Real.cos (2 * Real.arctan (√(x * x + y * y) / p.akm1))))) := by
  have hbig : (1e-10 : ℝ) < √(x * x + y * y) → ¬ |√(x * x + y * y)| ≤ 1e-10 := by
    intro h
    rw [abs_of_nonneg (Real.sqrt_nonneg _)]
    exact not_le.mpr h
  refine ⟨fun hm => ?_, fun hm h => ?_, fun hm h => ?_, fun hm h => ?_⟩
  · simp only [spheroid_inv, hm, EPS10, real_ofScientific, real_add, real_sub, real_mul,
      real_div, real_neg, real_lt, real_le, real_sin, real_cos, real_atan, real_atan2,
      real_asin, real_fabs, real_hypot, real_zero, real_ofNat, real_beq, bne, Bool.or_eq_true,
      Bool.not_eq_true', decide_eq_false_iff_not, Bool.and_eq_true, decide_eq_true_eq]
  · simp only [spheroid_inv, hm, EPS10, real_ofScientific, real_add, real_sub, real_mul,
      real_div, real_neg, real_lt, real_le, real_sin, real_cos, real_atan, real_atan2,
      real_asin, real_fabs, real_hypot, real_zero, real_ofNat, real_beq, bne, Bool.or_eq_true,
      Bool.not_eq_true', decide_eq_false_iff_not, Bool.and_eq_true, decide_eq_true_eq,
      if_neg (hbig h)]
  · simp only [spheroid_inv, hm, EPS10, real_ofScientific, real_add, real_sub, real_mul,
      real_div, real_neg, real_lt, real_le, real_sin, real_cos, real_atan, real_atan2,
      real_asin, real_fabs, real_hypot, real_zero, real_ofNat, real_beq, bne, Bool.or_eq_true,
      Bool.not_eq_true', decide_eq_false_iff_not, Bool.and_eq_true, decide_eq_true_eq,
      if_neg (hbig h), reduceCtorEq, if_false]
  · simp only [spheroid_inv, hm, EPS10, real_ofScientific, real_add, real_sub, real_mul,
      real_div, real_neg, real_lt, real_le, real_sin, real_cos, real_atan, real_atan2,
      real_asin, real_fabs, real_hypot, real_zero, real_ofNat, real_beq, bne, Bool.or_eq_true,
      Bool.not_eq_true', decide_eq_false_iff_not, Bool.and_eq_true, decide_eq_true_eq,
      if_neg (hbig h), if_true]

/-- Round trip in a polar mode: `s = 1` is `S_POLE`, `s = -1` is `N_POLE`. -/
theorem round_trip_pole (par : Parameters ℝ) (p : par_stere ℝ) (lon lat x y : ℝ)
    (hm : p.mode = S_POLE ∨ p.mode = N_POLE) (hA : 0 ≤ p.akm1)
    (hlat1 : -(Real.pi / 2) < lat) (hlat2 : lat < Real.pi / 2)
    (hlon1 : -Real.pi < lon) (hlon2 : lon ≤ Real.pi)
    (hf : spheroid_fwd p lon lat = .ok (x, y)) (hh : (1e-10 : ℝ) < √(x * x + y * y)) :
    spheroid_inv par p x y = .ok (lon, lat) := by
  -- the common computation, for the latitude `l = s * lat` seen from the pole
  have core : ∀ l y' : ℝ, -(Real.pi / 2) < l → l < Real.pi / 2 →
      x = Real.sin lon * (p.akm1 * Real.tan (Real.pi / 4 + 0.5 * l)) →
      y' = p.akm1 * Real.tan (Real.pi / 4 + 0.5 * l) * Real.cos lon →
      (1e-10 : ℝ) < √(x * x + y' * y') →
      Real.cos (2 * Real.arctan (√(x * x + y' * y') / p.akm1)) = -Real.sin l ∧
      ¬ (x = 0 ∧ y' = 0) ∧ Complex.arg ⟨y', x⟩ = lon := by
    intro l y' hl1 hl2 hx hy hbig
    have hτ : 0 < Real.tan (Real.pi / 4 + 0.5 * l) :=
      Real.tan_pos_of_pos_of_lt_pi_div_two (by linarith) (by linarith)
    have hsq : x * x + y' * y' = (p.akm1 * Real.tan (Real.pi / 4 + 0.5 * l)) ^ 2 := by
      rw [hx, hy]
      have := Real.sin_sq_add_cos_sq lon
      nlinarith [this]
    have hrh : √(x * x + y' * y') = p.akm1 * Real.tan (Real.pi / 4 + 0.5 * l) := by
      rw [hsq, Real.sqrt_sq (mul_nonneg hA hτ.le)]
    have hApos : 0 < p.akm1 := by
      rcases hA.lt_or_eq with h | h
      · exact h
      · rw [hrh, ← h, zero_mul] at hbig
        norm_num at hbig
    have hR : 0 < p.akm1 * Real.tan (Real.pi / 4 + 0.5 * l) := mul_pos hApos hτ
    refine ⟨?_, ?_, ?_⟩
    · rw [hrh, mul_div_cancel_left₀ _ hApos.ne', Real.arctan_tan (by linarith) (by linarith)]
      have : 2 * (Real.pi / 4 + 0.5 * l) = Real.pi / 2 + l := by ring
      rw [this, Real.cos_add, Real.cos_pi_div_two, Real.sin_pi_div_two]
      ring
    · rintro ⟨h1, h2⟩
      rw [h1, h2] at hbig
      norm_num at hbig
    · rw [hx, hy, mul_comm (Real.sin lon)]
      exact aea.arg_polar _ _ hR hlon1 hlon2
  rcases hm with hm | hm
  · rw [(spheroid_fwd_pole p lon lat).2 hm] at hf
    split_ifs at hf
    simp only [Except.ok.injEq, Prod.mk.injEq] at hf
    obtain ⟨hc, hne, harg⟩ := core lat y hlat1 hlat2 hf.1.symm hf.2.symm hh
    rw [(spheroid_inv_modes_real par p x y).2.2.2 hm hh, hc, neg_neg, if_neg hne, harg,
      Real.arcsin_sin hlat1.le hlat2.le]
  · rw [(spheroid_fwd_pole p lon lat).1 hm] at hf
    split_ifs at hf
    simp only [Except.ok.injEq, Prod.mk.injEq] at hf
    have hy : -y = p.akm1 * Real.tan (Real.pi / 4 + 0.5 * (-lat)) * Real.cos lon := by
      rw [← hf.2]
      ring
    have hh' : (1e-10 : ℝ) < √(x * x + -y * -y) := by
      rw [neg_mul_neg]
      exact hh
    obtain ⟨hc, hne, harg⟩ := core (-lat) (-y) (by linarith) (by linarith) hf.1.symm hy hh'
    rw [neg_mul_neg] at hc
    rw [(spheroid_inv_modes_real par p x y).2.2.1 hm hh, hc, if_neg hne, harg, Real.sin_neg, neg_neg,
      Real.arcsin_sin hlat1.le hlat2.le]

/-- The computation shared by the `EQUIT` and `OBLIQ` round trips, for a centre
of latitude sine `s₀` and cosine `c₀ > 0` (`s₀ = 0`, `c₀ = 1` in `EQUIT`): from
the forward image `(x, y)` with radius above `1e-10`, the inverse recovers the
cosine `u` and the sine `s` of the angular distance, the sine of the latitude
and the longitude. -/
theorem round_trip_core (A s₀ c₀ lon lat x y : ℝ) (hA : 0 < A)
    (h₀ : s₀ * s₀ + c₀ * c₀ = 1) (hc₀ : 0 < c₀)
    (hlat1 : -(Real.pi / 2) < lat) (hlat2 : lat < Real.pi / 2)
    (hlon1 : -Real.pi < lon) (hlon2 : lon ≤ Real.pi)
    (hd : 0 < 1 + s₀ * Real.sin lat + c₀ * Real.cos lat * Real.cos lon)
    (hx : x = A / (1 + s₀ * Real.sin lat + c₀ * Real.cos lat * Real.cos lon)
      * Real.cos lat * Real.sin lon)
    (hy : y = A / (1 + s₀ * Real.sin lat + c₀ * Real.cos lat * Real.cos lon)
      * (c₀ * Real.sin lat - s₀ * Real.cos lat * Real.cos lon))
    (hh : (1e-10 : ℝ) < √(x * x + y * y)) :
    ∃ cc sc : ℝ,
      Real.cos (2 * Real.arctan (√(x * x + y * y) / A)) = cc ∧
      Real.sin (2 * Real.arctan (√(x * x + y * y) / A)) = sc ∧
      cc * s₀ + y * sc * c₀ / √(x * x + y * y) = Real.sin lat ∧
      cc - s₀ * Real.sin lat = c₀ * Real.cos lat * Real.cos lon ∧
      (¬ c₀ * Real.cos lat * Real.cos lon = 0 ∨ ¬ x = 0) ∧
      Complex.arg ⟨c₀ * Real.cos lat * Real.cos lon * √(x * x + y * y), x * sc * c₀⟩ = lon := by
  have hcpos : 0 < Real.cos lat := Real.cos_pos_of_mem_Ioo ⟨hlat1, hlat2⟩
  have hsc := Real.sin_sq_add_cos_sq lat
  have hidl := Real.sin_sq_add_cos_sq lon
  obtain ⟨sφ, hsφ⟩ : ∃ v, v = Real.sin lat := ⟨_, rfl⟩
  obtain ⟨cφ, hcφ⟩ : ∃ v, v = Real.cos lat := ⟨_, rfl⟩
  obtain ⟨sl, hsl⟩ : ∃ v, v = Real.sin lon := ⟨_, rfl⟩
  obtain ⟨cl, hcl⟩ : ∃ v, v = Real.cos lon := ⟨_, rfl⟩
  rw [← hsφ, ← hcφ] at hsc
  rw [← hsl, ← hcl] at hidl
  rw [← hcφ] at hcpos
  rw [← hsφ, ← hcφ, ← hcl] at hd
  rw [← hsφ, ← hcφ, ← hcl, ← hsl] at hx
  rw [← hsφ, ← hcφ, ← hcl] at hy
  obtain ⟨u, hu⟩ : ∃ u, u = s₀ * sφ + c₀ * cφ * cl := ⟨_, rfl⟩
  obtain ⟨w, hw⟩ : ∃ w, w = c₀ * sφ - s₀ * cφ * cl := ⟨_, rfl⟩
  have hd' : 0 < 1 + u := by
    rw [hu]
    linarith
  have hdu : 1 + s₀ * sφ + c₀ * cφ * cl = 1 + u := by
    rw [hu]
    ring
  rw [hdu] at hx hy
  rw [← hw] at hy
  -- the spherical identity `cos^2 lat sin^2 lon + w^2 = 1 - u^2`
  have hid : cφ * sl * (cφ * sl) + w * w = 1 - u * u := by
    rw [hu, hw]
    linear_combination (sφ ^ 2 + cφ ^ 2 * cl ^ 2) * h₀ + hsc + cφ ^ 2 * hidl
  have hnn : 0 ≤ 1 - u * u := by
    rw [← hid]
    exact add_nonneg (mul_self_nonneg _) (mul_self_nonneg _)
  obtain ⟨sv, hsv⟩ : ∃ sv, sv = √(1 - u * u) := ⟨_, rfl⟩
  have hsv0 : 0 ≤ sv := by
    rw [hsv]
    exact Real.sqrt_nonneg _
  have hsvsq : sv * sv = 1 - u * u := by
    rw [hsv]
    exact Real.mul_self_sqrt hnn
  have hAd : 0 < A / (1 + u) := div_pos hA hd'
  have hsq : x * x + y * y = (A / (1 + u) * sv) ^ 2 := by
    rw [hx, hy]
    have : A / (1 + u) * cφ * sl * (A / (1 + u) * cφ * sl) + A / (1 + u) * w * (A / (1 + u) * w)
        = (A / (1 + u)) ^ 2 * (cφ * sl * (cφ * sl) + w * w) := by ring
    rw [this, hid, ← hsvsq]
    ring
  have hrh : √(x * x + y * y) = A / (1 + u) * sv := by
    rw [hsq, Real.sqrt_sq (mul_nonneg hAd.le hsv0)]
  have hsvpos : 0 < sv := by
    rcases hsv0.lt_or_eq with h | h
    · exact h
    · rw [hrh, ← h, mul_zero] at hh
      norm_num at hh
  have hrhpos : 0 < A / (1 + u) * sv := mul_pos hAd hsvpos
  obtain ⟨hcos, hsin⟩ := stere_angle A u sv hA hd' hsvsq
  rw [← hsφ, ← hcφ, ← hcl]
  refine ⟨u, sv, by rw [hrh, hcos], by rw [hrh, hsin], ?_, ?_, ?_, ?_⟩
  · rw [hrh, hy]
    have : A / (1 + u) * w * sv * c₀ / (A / (1 + u) * sv) = w * c₀ := by
      field_simp
      ring
    rw [this, hu, hw]
    linear_combination sφ * h₀
  · rw [hu]
    ring
  · by_contra hcon
    push_neg at hcon
    obtain ⟨h1, h2⟩ := hcon
    have hcl0 : cl = 0 := by
      rcases mul_eq_zero.mp h1 with h | h
      · rcases mul_eq_zero.mp h with h' | h'
        · exact absurd h' hc₀.ne'
        · exact absurd h' hcpos.ne'
      · exact h
    have hsl0 : sl = 0 := by
      rw [hx] at h2
      rcases mul_eq_zero.mp h2 with h | h
      · rcases mul_eq_zero.mp h with h' | h'
        · exact absurd h' hAd.ne'
        · exact absurd h' hcpos.ne'
      · exact h
    rw [hcl0, hsl0] at hidl
    norm_num at hidl
  · rw [hrh, hx]
    have e1 : c₀ * cφ * cl * (A / (1 + u) * sv) = (c₀ * cφ * (A / (1 + u) * sv)) * Real.cos lon := by
      rw [hcl]
      ring
    have e2 : A / (1 + u) * cφ * sl * sv * c₀ = (c₀ * cφ * (A / (1 + u) * sv)) * Real.sin lon := by
      rw [hsl]
      ring
    rw [e1, e2]
    exact aea.arg_polar _ _ (mul_pos (mul_pos hc₀ hcpos) hrhpos) hlon1 hlon2

/-- Round trip in `EQUIT` mode. -/
theorem round_trip_equit (par : Parameters ℝ) (p : par_stere ℝ) (lon lat x y : ℝ)
    (hm : p.mode = EQUIT) (hA : 0 < p.akm1)
    (hlat1 : -(Real.pi / 2) < lat) (hlat2 : lat < Real.pi / 2)
    (hlon1 : -Real.pi < lon) (hlon2 : lon ≤ Real.pi)
    (hf : spheroid_fwd p lon lat = .ok (x, y)) (hh : (1e-10 : ℝ) < √(x * x + y * y)) :
    spheroid_inv par p x y = .ok (lon, lat) := by
  rw [(spheroid_fwd_oblcon_real p lon lat).1 hm] at hf
  split_ifs at hf with hd
  simp only [Except.ok.injEq, Prod.mk.injEq] at hf
  have hd0 : 0 < 1 + (0 : ℝ) * Real.sin lat + 1 * Real.cos lat * Real.cos lon := by
    have : (0 : ℝ) < 1e-10 := by norm_num
    linarith [not_le.mp hd]
  obtain ⟨cc, sc, hc, hs, h3, h4, h5, h6⟩ := round_trip_core p.akm1 0 1 lon lat x y hA
    (by norm_num) (by norm_num) hlat1 hlat2 hlon1 hlon2 hd0
    (by rw [← hf.1]; simp) (by rw [← hf.2]; simp) hh
  simp only [zero_mul, mul_zero, zero_add, sub_zero, one_mul, mul_one] at h3 h4 h5 h6
  have hbig : ¬ |√(x * x + y * y)| ≤ 1e-10 := by
    rw [abs_of_nonneg (Real.sqrt_nonneg _)]
    exact not_le.mpr hh
  rw [(spheroid_inv_modes_real par p x y).1 hm, hc, hs, if_neg hbig, h3, h4, if_pos h5, h6,
    Real.arcsin_sin hlat1.le hlat2.le]

/-- Round trip in `OBLIQ` mode, for a block whose `sinX1`, `cosX1` are the
sine and the cosine of an origin latitude with positive cosine. -/
theorem round_trip_obliq (par : Parameters ℝ) (p : par_stere ℝ) (phi0 lon lat x y : ℝ)
    (hm : p.mode = OBLIQ) (hA : 0 < p.akm1)
    (hs₀ : p.sinX1 = Real.sin phi0) (hc₀ : p.cosX1 = Real.cos phi0) (hpos : 0 < Real.cos phi0)
    (hlat1 : -(Real.pi / 2) < lat) (hlat2 : lat < Real.pi / 2)
    (hlon1 : -Real.pi < lon) (hlon2 : lon ≤ Real.pi)
    (hf : spheroid_fwd p lon lat = .ok (x, y)) (hh : (1e-10 : ℝ) < √(x * x + y * y)) :
    spheroid_inv par p x y = .ok (lon, lat) := by
  rw [(spheroid_fwd_oblcon_real p lon lat).2 hm] at hf
  split_ifs at hf with hd
  simp only [Except.ok.injEq, Prod.mk.injEq] at hf
  have hd0 : 0 < 1 + p.sinX1 * Real.sin lat + p.cosX1 * Real.cos lat * Real.cos lon := by
    have : (0 : ℝ) < 1e-10 := by norm_num
    linarith [not_le.mp hd]
  have h₀ : p.sinX1 * p.sinX1 + p.cosX1 * p.cosX1 = 1 := by
    rw [hs₀, hc₀]
    have := Real.sin_sq_add_cos_sq phi0
    nlinarith [this]
  obtain ⟨cc, sc, hc, hs, h3, h4, h5, h6⟩ := round_trip_core p.akm1 p.sinX1 p.cosX1 lon lat x y
    hA h₀ (by rw [hc₀]; exact hpos) hlat1 hlat2 hlon1 hlon2 hd0 hf.1.symm hf.2.symm hh
  rw [(spheroid_inv_modes_real par p x y).2.1 hm hh, hc, hs, h3,
    Real.arcsin_sin hlat1.le hlat2.le, h4, if_pos h5, h6]

/-- The constants that the spherical `setup` (`es = 0`) leaves in the block:
in `OBLIQ` mode `sinX1 = sin phi0`, `cosX1 = cos phi0`, `akm1 = 2 k0`, with
`cos phi0 > 0` when `|phi0| <= π/2`; in `EQUIT` mode `akm1 = 2 k0`; in the
polar modes `akm1 >= 0` when `k0 >= 0`. -/
theorem setup_spherical_constants [ProjImpl ℝ] (par : Parameters ℝ) (p₀ : par_stere ℝ)
    (hes : par.es = 0) :
    ((setup par p₀).mode = OBLIQ →
      (setup par p₀).sinX1 = Real.sin par.phi0 ∧ (setup par p₀).cosX1 = Real.cos par.phi0 ∧
      (setup par p₀).akm1 = 2 * par.k0 ∧ (|par.phi0| ≤ Real.pi / 2 → 0 < Real.cos par.phi0)) ∧
    ((setup par p₀).mode = EQUIT → (setup par p₀).akm1 = 2 * par.k0) ∧
    (((setup par p₀).mode = S_POLE ∨ (setup par p₀).mode = N_POLE) → 0 ≤ par.k0 →
      0 ≤ (setup par p₀).akm1) := by
  have hsm : (0 : ℝ) < 1e-10 := by norm_num
  have hpolar : ∀ k0 ph : ℝ, 0 ≤ k0 →
      0 ≤ (if (1e-10 : ℝ) ≤ |ph - Real.pi / 2| then
        Real.cos ph / Real.tan (Real.pi / 4 - 0.5 * ph) else 2 * k0) := by
    intro k0 ph hk
    split_ifs
    · exact polar_akm1_nonneg ph
    · linarith
  have hcospos : ¬ |(|par.phi0| - Real.pi / 2)| < 1e-10 → |par.phi0| ≤ Real.pi / 2 →
      0 < Real.cos par.phi0 := by
    intro h1 h2
    have hlt : |par.phi0| < Real.pi / 2 := by
      rcases h2.lt_or_eq with h | h
      · exact h
      · exfalso
        apply h1
        rw [h, sub_self, abs_zero]
        exact hsm
    exact Real.cos_pos_of_mem_Ioo ⟨(abs_lt.mp hlt).1, (abs_lt.mp hlt).2⟩
  unfold setup
  simp only [real_beq, bne, real_zero, real_fabs, real_sub, real_lt, real_le, real_mul, real_div,
    real_sin, real_cos, real_tan, real_HALFPI, real_FORTPI, real_ofNat, real_ofScientific, EPS10,
    hes, decide_True, Bool.not_true, Bool.false_eq_true, if_false]
  by_cases h1 : |(|par.phi0| - Real.pi / 2)| < 1e-10
  · by_cases h2 : par.phi0 < 0
    · simp only [h1, h2, if_true, reduceCtorEq, false_implies, true_and, or_false, true_implies]
      exact hpolar _ _
    · simp only [h1, h2, if_true, if_false, reduceCtorEq, false_implies, true_and, or_true,
        true_implies]
      exact hpolar _ _
  · by_cases h3 : 1e-10 < |par.phi0|
    · simp only [h1, h3, if_true, if_false, reduceCtorEq, false_implies, true_implies, and_true,
        or_self, true_and]
      exact hcospos h1
    · simp only [h1, h3, if_false, reduceCtorEq, false_implies, true_implies, and_true,
        or_self, true_and]

end SphericalRoundTrip

/-- In exact real arithmetic (rounding, NaN and division by zero of a
floating-point run are outside this lemma): spherical Stereographic round
trip.  For
every block that the spherical setup (`es = 0`; `setup` called directly or by
`setup_stere`) returns for `k0 > 0` and a latitude of origin `phi0` in
`[-π/2, π/2]`, in any of the four modes, every `lat` in `(-π/2, π/2)` and
`lon` in `(-π, π)` at which the forward does not fail and whose image has
`hypot(x, y) > 1e-10`: the inverse applied to the image returns exactly
`(lon, lat)`, which is in particular within `1e-6` of it. -/
theorem spheroid_stere_round_trip_exact [ProjImpl ℝ] (par : Parameters ℝ) (p₀ p : par_stere ℝ)
    (lon lat x y : ℝ) (hes : par.es = 0) (hk : 0 < par.k0)
    (hphi0 : |par.phi0| ≤ Real.pi / 2)
    (hsetup : p = setup par p₀ ∨ p = setup_stere par p₀)
    (hlat1 : -(Real.pi / 2) < lat) (hlat2 : lat < Real.pi / 2)
    (hlon1 : -Real.pi < lon) (hlon2 : lon < Real.pi)
    (hf : spheroid_fwd p lon lat = .ok (x, y)) (hh : (1e-10 : ℝ) < hypot x y) :
    ∃ lon' lat', spheroid_inv par p x y = .ok (lon', lat') ∧
      lon' = lon ∧ lat' = lat ∧ |lon' - lon| ≤ 1e-6 ∧ |lat' - lat| ≤ 1e-6 := by
  have hh' : (1e-10 : ℝ) < √(x * x + y * y) := hh
  obtain ⟨q, hq⟩ : ∃ q, p = setup par q := by
    rcases hsetup with h | h
    · exact ⟨_, h⟩
    · exact ⟨_, h⟩
  obtain ⟨hO, hE, hP⟩ := setup_spherical_constants par q hes
  rw [← hq] at hO hE hP
  have hinv : spheroid_inv par p x y = .ok (lon, lat) := by
    cases hm : p.mode with
    | S_POLE =>
      exact round_trip_pole par p lon lat x y (Or.inl hm) (hP (Or.inl hm) hk.le)
        hlat1 hlat2 hlon1 hlon2.le hf hh'
    | N_POLE =>
      exact round_trip_pole par p lon lat x y (Or.inr hm) (hP (Or.inr hm) hk.le)
        hlat1 hlat2 hlon1 hlon2.le hf hh'
    | OBLIQ =>
      obtain ⟨h1, h2, h3, h4⟩ := hO hm
      exact round_trip_obliq par p par.phi0 lon lat x y hm (by rw [h3]; linarith) h1 h2
        (h4 hphi0) hlat1 hlat2 hlon1 hlon2.le hf hh'
    | EQUIT =>
      exact round_trip_equit par p lon lat x y hm (by rw [hE hm]; linarith)
        hlat1 hlat2 hlon1 hlon2.le hf hh'
  refine ⟨lon, lat, hinv, rfl, rfl, ?_, ?_⟩ <;> norm_num

/-- An instance of the exact round trip: the unit sphere with `phi0 = 0` (mode
`EQUIT`), at `lon = π/2`, `lat = 0`, whose image is `(2, 0)`. -/
theorem spheroid_stere_round_trip_exact_example :
    spheroid_fwd (setup_stere (Parameters.sphere (PjParams.ofList [] []) (0 : ℝ) 0)
        par_stere.blank) (Real.pi / 2) 0 = .ok (2, 0) ∧
    spheroid_inv (Parameters.sphere (PjParams.ofList [] []) (0 : ℝ) 0)
      (setup_stere (Parameters.sphere (PjParams.ofList [] []) (0 : ℝ) 0) par_stere.blank)
      2 0 = .ok (Real.pi / 2, 0) := by
  have hpi := Real.pi_gt_three
  have h1 : ¬ |(|(0 : ℝ)| - Real.pi / 2)| < 1e-10 := by
    rw [abs_zero, zero_sub, abs_neg, abs_of_pos (by linarith)]
    norm_num
    linarith
  have h2 : ¬ (1e-10 : ℝ) < |(0 : ℝ)| := by norm_num
  have hm : (setup_stere (Parameters.sphere (PjParams.ofList [] []) (0 : ℝ) 0)
      par_stere.blank).mode = EQUIT := by
    simp only [setup_stere, setup, EPS10, Parameters.sphere, real_zero, real_fabs, real_sub,
      real_lt, real_HALFPI, real_ofScientific, h1, h2, if_false]
    split_ifs <;> rfl
  have hA : (setup_stere (Parameters.sphere (PjParams.ofList [] []) (0 : ℝ) 0)
      par_stere.blank).akm1 = 2 * 1 :=
    (setup_spherical_constants (Parameters.sphere (PjParams.ofList [] []) (0 : ℝ) 0) _ rfl).2.1 hm
  have hf : spheroid_fwd (setup_stere (Parameters.sphere (PjParams.ofList [] []) (0 : ℝ) 0)
      par_stere.blank) (Real.pi / 2) 0 = .ok (2, 0) := by
    rw [(spheroid_fwd_oblcon_real _ _ _).1 hm, hA]
    simp only [Real.cos_zero, Real.cos_pi_div_two, Real.sin_zero, Real.sin_pi_div_two]
    norm_num
  refine ⟨hf, ?_⟩
  obtain ⟨lon', lat', hi, hlon, hlat, _, _⟩ := spheroid_stere_round_trip_exact
    (Parameters.sphere (PjParams.ofList [] []) (0 : ℝ) 0) par_stere.blank
    (setup_stere (Parameters.sphere (PjParams.ofList [] []) (0 : ℝ) 0) par_stere.blank)
    (Real.pi / 2) 0 2 0 rfl (by norm_num [Parameters.sphere])
    (by
      show |(0 : ℝ)| ≤ Real.pi / 2
      rw [abs_zero]
      linarith)
    (Or.inr rfl) (by linarith) (by linarith) (by linarith) (by linarith) hf
    (by
      show (1e-10 : ℝ) < √(2 * 2 + 0 * 0)
      have : √((2 : ℝ) * 2 + 0 * 0) = 2 := by
        rw [show (2 : ℝ) * 2 + 0 * 0 = 2 ^ 2 by norm_num]
        exact Real.sqrt_sq (by norm_num)
      rw [this]
      norm_num)
  rw [hlon, hlat] at hi
  exact hi

end stere

/-! ## Cylindrical Equal Area -/

namespace cea

/-- C16: for every calculation type, helper implementation, global state and
`(lon, lat)`, the forward of the ellipsoidal variant returns `x = k0 * lon`,
`y = .5 * pj_qsfn(sin lat, e, one_es) / k0` and that of the spherical variant
`x = k0 * lon`, `y = sin lat / k0`; neither can fail.  Over the reals the
ellipsoidal `y` is `pj_qsfn(sin lat, e, one_es) / (2 * k0)` and, for
`k0 != 0`, the spherical `fwd(0, 0)` is `(0, 0)` (at `k0 = 0` the code forms
the quotient `sin 0 / 0`, of which nothing is stated). -/
theorem fwd_formulas :
    (∀ (T : Type) (_ : CalcType T) (_ : ProjImpl T) (m_par : Parameters T) (lon lat : T),
      ellipsoid_fwd m_par lon lat =
        .ok (m_par.k0 * lon, 0.5 * pj_qsfn (sin lat) m_par.e m_par.one_es / m_par.k0) ∧
      spheroid_fwd m_par lon lat = .ok (m_par.k0 * lon, sin lat / m_par.k0)) ∧
    (∀ (_ : ProjImpl ℝ) (m_par : Parameters ℝ) (lon lat : ℝ),
      ellipsoid_fwd m_par lon lat =
        .ok (m_par.k0 * lon, pj_qsfn (Real.sin lat) m_par.e m_par.one_es / (2 * m_par.k0)) ∧
      spheroid_fwd m_par lon lat = .ok (m_par.k0 * lon, Real.sin lat / m_par.k0) ∧
      (m_par.k0 ≠ 0 → spheroid_fwd m_par 0 0 = .ok (0, 0))) := by
  refine ⟨fun T _ _ m_par lon lat => ⟨rfl, rfl⟩, fun _ m_par lon lat => ⟨?_, rfl, fun hk => ?_⟩⟩
  · simp only [ellipsoid_fwd, real_mul, real_div, real_sin, real_ofScientific, Except.ok.injEq,
      Prod.mk.injEq, true_and]
    rw [mul_div_assoc, div_mul_eq_div_div_swap]
    norm_num
    ring
  · have hy : Real.sin 0 / m_par.k0 = 0 := by
      rw [div_eq_iff hk, zero_mul, Real.sin_zero]
    simp only [spheroid_fwd, real_mul, real_div, real_sin, real_zero, mul_zero, hy]

/-- The spherical inverse over the reals, as one expression. -/
theorem spheroid_inv_real [ProjImpl ℝ] (m_par : Parameters ℝ) (x y : ℝ) :
    spheroid_inv m_par x y =
      if |y * m_par.k0| - 1e-10 ≤ 1 then
        .ok (x / m_par.k0,
          if 1 ≤ |y * m_par.k0| then (if y * m_par.k0 < 0 then -(Real.pi / 2) else Real.pi / 2)
          else Real.arcsin (y * m_par.k0))
      else .error proj_exception.noCode := by
  simp only [spheroid_inv, EPS, real_mul, real_div, real_sub, real_neg, real_lt, real_le,
    real_fabs, real_asin, real_one, real_zero, real_ofScientific, real_HALFPI]

/-- C17: over the reals, the spherical inverse fails exactly when
`|y * k0| - 1e-10 > 1`; when it does not fail it returns `lon = x / k0` and
`lat = asin(y * k0)` if `|y * k0| < 1`, and `lat = -π/2` for `y * k0 < 0`,
`π/2` otherwise, if `1 <= |y * k0| <= 1 + 1e-10`. -/
theorem spheroid_inv_fails_iff :
    ∀ (_ : ProjImpl ℝ) (m_par : Parameters ℝ) (x y : ℝ),
      ((∃ ex, spheroid_inv m_par x y = .error ex) ↔ 1 < |y * m_par.k0| - 1e-10) ∧
      (|y * m_par.k0| < 1 →
        spheroid_inv m_par x y = .ok (x / m_par.k0, Real.arcsin (y * m_par.k0))) ∧
      (1 ≤ |y * m_par.k0| → |y * m_par.k0| ≤ 1 + 1e-10 →
        spheroid_inv m_par x y =
          .ok (x / m_par.k0, if y * m_par.k0 < 0 then -(Real.pi / 2) else Real.pi / 2)) := by
  intro _ m_par x y
  rw [spheroid_inv_real]
  refine ⟨?_, fun h => ?_, fun h1 h2 => ?_⟩
  · by_cases h : |y * m_par.k0| - 1e-10 ≤ 1
    · rw [if_pos h]
      exact ⟨fun ⟨_, hc⟩ => (by cases hc), fun h' => absurd h (not_le.mpr h')⟩
    · rw [if_neg h]
      exact ⟨fun _ => not_le.mp h, fun _ => ⟨_, rfl⟩⟩
  · rw [if_pos (by linarith [show (0 : ℝ) < 1e-10 by norm_num]), if_neg (not_le.mpr h)]
  · rw [if_pos (by linarith), if_pos h1]

/-- C18 (as amended): over the reals, for every scale factor `k0 > 1` whose
square exceeds 1 by more than the tolerance, `k0 * k0 > 1 + 1e-10`, the
spherical `inverse(0, k0)` fails. -/
theorem spheroid_inv_zero_k0_fails [ProjImpl ℝ] (m_par : Parameters ℝ)
    (hk : 1 < m_par.k0) (hk2 : 1 + 1e-10 < m_par.k0 * m_par.k0) :
    spheroid_inv m_par 0 m_par.k0 = .error proj_exception.noCode := by
  rw [spheroid_inv_real, if_neg]
  rw [abs_of_pos (mul_pos (by linarith) (by linarith))]
  linarith

/-- Witness of C18 (as amended): the scale factor `k0 = 2`. -/
theorem spheroid_inv_zero_k0_fails_witness :
    spheroid_inv { Parameters.sphere (PjParams.ofList [] []) (0 : ℝ) 0 with k0 := 2 } 0 2
      = .error proj_exception.noCode :=
  spheroid_inv_zero_k0_fails { Parameters.sphere (PjParams.ofList [] []) (0 : ℝ) 0 with k0 := 2 }
    (by norm_num) (by norm_num)

/-- Counterexample to C18 as stated: over the reals, with the scale factor
`k0 = 1.00000000001 > 1` the spherical `inverse(0, k0)` does not fail; it
returns the pole, `lat = π/2`. -/
theorem spheroid_inv_zero_k0_returns :
    (1 : ℝ) < 1.00000000001 ∧
    spheroid_inv
      { Parameters.sphere (PjParams.ofList [] []) (0 : ℝ) 0 with k0 := 1.00000000001 }
      0 1.00000000001 = .ok (0 / 1.00000000001, Real.pi / 2) := by
  refine ⟨by norm_num, ?_⟩
  rw [spheroid_inv_real]
  have h1 : |(1.00000000001 : ℝ) * 1.00000000001| - 1e-10 ≤ 1 := by
    rw [abs_of_pos (by norm_num)]
    norm_num
  have h2 : (1 : ℝ) ≤ |(1.00000000001 : ℝ) * 1.00000000001| := by
    rw [abs_of_pos (by norm_num)]
    norm_num
  have h3 : ¬ (1.00000000001 : ℝ) * 1.00000000001 < 0 := by norm_num
  simp only [h1, h2, h3, if_true, if_false]

end cea

/-! ## Transverse Cylindrical Equal Area -/

namespace tcea

end tcea

/-! ## Setups that force a sphere -/

section ForcedSphere

variable {T : Type} [CalcType T]

/-- C21: for every global parameter state, `setup_tcea`, `setup_ocea` and
`setup_wink2` leave `es = 0`; the post-setup state of `setup_tcea` and of
`setup_wink2` is the input state with `es` replaced by 0, and that of
`setup_ocea` is the input state with `es` replaced by 0 and `lam0` replaced. -/
theorem setup_forces_es_zero (par : Parameters T) (pt : tcea.par_tcea T)
    (po : ocea.par_ocea T) (pw : wink2.par_wink2 T) :
    ((tcea.setup_tcea par pt).1.es = 0 ∧ (ocea.setup_ocea par po).1.es = 0 ∧
      (wink2.setup_wink2 par pw).1.es = 0) ∧
    (tcea.setup_tcea par pt).1 = { par with es := 0 } ∧
    (wink2.setup_wink2 par pw).1 = { par with es := 0 } ∧
    (ocea.setup_ocea par po).1 =
      { par with es := 0, lam0 := (ocea.setup_ocea par po).1.lam0 } :=
  ⟨⟨rfl, rfl, rfl⟩, rfl, rfl, rfl⟩

end ForcedSphere

/-! ## Oblique Cylindrical Equal Area -/

namespace ocea

section Generic

variable {T : Type} [CalcType T]

/-- C24: `setup_ocea` uses the equations for 1 point and 1 azimuth exactly
when `alpha` is present and the equations for 2 points otherwise; with 2
points the angle `gamma` is the `atan2` of equation 9-1, negated exactly when
the test `lon_1 == -HALFPI` holds; in both conventions the post-setup state
has `lam0 = gamma + HALFPI`, `rok = 1 / k0`, `rtk = k0`, `singam = sin gamma`
and `cosgam = cos gamma`. -/
theorem setup_ocea_conventions (par : Parameters T) (proj_parm : par_ocea T) :
    (par.params.t "alpha" = true →
      setup_pole par.params =
        (atan ((-cos (par.params.f "alpha")) / ((-sin (0 : T)) * sin (par.params.f "alpha")))
            + par.params.f "lonc",
          asin (cos (0 : T) * sin (par.params.f "alpha")))) ∧
    (par.params.t "alpha" = false →
      ∀ gamma2 : T,
        gamma2 = atan2
          (cos (par.params.f "lat_1") * sin (par.params.f "lat_2") * cos (par.params.f "lon_1")
            - sin (par.params.f "lat_1") * cos (par.params.f "lat_2")
              * cos (par.params.f "lon_2"))
          (sin (par.params.f "lat_1") * cos (par.params.f "lat_2") * sin (par.params.f "lon_2")
            - cos (par.params.f "lat_1") * sin (par.params.f "lat_2")
              * sin (par.params.f "lon_1")) →
        ((par.params.f "lon_1" == -HALFPI) = true → (setup_pole par.params).1 = -gamma2) ∧
        ((par.params.f "lon_1" == -HALFPI) = false → (setup_pole par.params).1 = gamma2) ∧
        (setup_pole par.params).2 =
          atan ((-cos ((setup_pole par.params).1 - par.params.f "lon_1"))
            / tan (par.params.f "lat_1"))) ∧
    (setup_ocea par proj_parm).1.lam0 = (setup_pole par.params).1 + HALFPI ∧
    (setup_ocea par proj_parm).2.rok = 1 / par.k0 ∧
    (setup_ocea par proj_parm).2.rtk = par.k0 ∧
    (setup_ocea par proj_parm).2.singam = sin (setup_pole par.params).1 ∧
    (setup_ocea par proj_parm).2.cosgam = cos (setup_pole par.params).1 ∧
    (setup_ocea par proj_parm).2.sinphi = sin (setup_pole par.params).2 ∧
    (setup_ocea par proj_parm).2.cosphi = cos (setup_pole par.params).2 := by
  refine ⟨fun h => ?_, fun h gamma2 hg => ⟨fun hl => ?_, fun hl => ?_, ?_⟩,
    rfl, rfl, rfl, rfl, rfl, rfl, rfl⟩
  · simp only [setup_pole, h, if_true]
  · simp only [setup_pole, h, hl, if_true, hg, Bool.false_eq_true, if_false]
  · simp only [setup_pole, h, hl, hg, Bool.false_eq_true, if_false]
  · simp only [setup_pole, h, Bool.false_eq_true, if_false]

end Generic

end ocea

namespace ocea

/-- The angle of `fwd`, `atan(u / t)` moved by `π` when `t < 0`, has sine
`u / sqrt(u^2 + t^2)` and cosine `t / sqrt(u^2 + t^2)`. -/
theorem sqrt_mul_sin_cos_arctan (u t : ℝ) (ht : t ≠ 0) :
    √(u * u + t * t) * Real.sin (if t < 0 then Real.arctan (u / t) + Real.pi
      else Real.arctan (u / t)) = u ∧
    √(u * u + t * t) * Real.cos (if t < 0 then Real.arctan (u / t) + Real.pi
      else Real.arctan (u / t)) = t := by
  have hpos : 0 < 1 + (u / t) ^ 2 := by positivity
  have hne : √(1 + (u / t) ^ 2) ≠ 0 := (Real.sqrt_pos.mpr hpos).ne'
  have hsq : √(u * u + t * t) = |t| * √(1 + (u / t) ^ 2) := by
    have : u * u + t * t = t ^ 2 * (1 + (u / t) ^ 2) := by
      field_simp
      ring
    rw [this, Real.sqrt_mul (sq_nonneg t), Real.sqrt_sq_eq_abs]
  rw [hsq]
  by_cases h : t < 0
  · rw [if_pos h, Real.sin_add_pi, Real.cos_add_pi, Real.sin_arctan, Real.cos_arctan,
      abs_of_neg h]
    generalize √(1 + (u / t) ^ 2) = r at hne
    constructor <;> field_simp
  · have h' : 0 < t := lt_of_le_of_ne (not_lt.mp h) (Ne.symm ht)
    rw [if_neg h, Real.sin_arctan, Real.cos_arctan, abs_of_pos h']
    generalize √(1 + (u / t) ^ 2) = r at hne
    constructor <;> field_simp

/-- In exact real arithmetic (rounding, NaN and division by zero of a
floating-point run are outside this lemma): for every block with
`rok = 1 / k0`, `rtk = k0`,
`k0 != 0` and `sinphi^2 + cosphi^2 = 1`, every `lat` in `(-π/2, π/2)` and
every `lon` in `(-π, π]` with `cos lon != 0`: the forward returns, in `x`, the
angle `atan((tan lat * cosphi + sinphi * sin lon) / cos lon)`, moved by `π`
when `cos lon < 0`, times `k0`, and the inverse applied to the forward
result returns exactly `(lon, lat)`. -/
theorem ocea_round_trip_exact (k0 : ℝ) (p : par_ocea ℝ) (lon lat : ℝ)
    (hk : k0 ≠ 0) (hrok : p.rok = 1 / k0) (hrtk : p.rtk = k0)
    (hsc : p.sinphi ^ 2 + p.cosphi ^ 2 = 1)
    (hlat1 : -(Real.pi / 2) < lat) (hlat2 : lat < Real.pi / 2)
    (hlon1 : -Real.pi < lon) (hlon2 : lon ≤ Real.pi) (hcl : Real.cos lon ≠ 0) :
    ∃ x y, fwd p lon lat = .ok (x, y) ∧
      x = (if Real.cos lon < 0 then
            Real.arctan ((Real.tan lat * p.cosphi + p.sinphi * Real.sin lon) / Real.cos lon)
              + Real.pi
          else
            Real.arctan ((Real.tan lat * p.cosphi + p.sinphi * Real.sin lon) / Real.cos lon))
          * k0 ∧
      y = 1 / k0 * (p.sinphi * Real.sin lat - p.cosphi * Real.cos lat * Real.sin lon) ∧
      inv p x y = .ok (lon, lat) := by
  have hc : 0 < Real.cos lat := Real.cos_pos_of_mem_Ioo ⟨hlat1, hlat2⟩
  have hla := Real.sin_sq_add_cos_sq lat
  have hlo := Real.sin_sq_add_cos_sq lon
  have htan : Real.cos lat * Real.tan lat = Real.sin lat := by
    rw [Real.tan_eq_sin_div_cos]
    field_simp
  obtain ⟨u, hu⟩ : ∃ u, u = Real.tan lat * p.cosphi + p.sinphi * Real.sin lon := ⟨_, rfl⟩
  obtain ⟨X, hX⟩ : ∃ X, X = if Real.cos lon < 0 then Real.arctan (u / Real.cos lon) + Real.pi
      else Real.arctan (u / Real.cos lon) := ⟨_, rfl⟩
  obtain ⟨Y, hY⟩ : ∃ Y, Y = p.sinphi * Real.sin lat - p.cosphi * Real.cos lat * Real.sin lon :=
    ⟨_, rfl⟩
  obtain ⟨hs, hcx⟩ := sqrt_mul_sin_cos_arctan u (Real.cos lon) hcl
  rw [← hX] at hs hcx
  have hN : Real.cos lat * u = Real.sin lat * p.cosphi + p.sinphi * Real.cos lat * Real.sin lon := by
    rw [hu, ← htan]
    ring
  -- the square-root argument of the inverse
  have harg : 1 - Y * Y = (Real.cos lat * √(u * u + Real.cos lon * Real.cos lon)) ^ 2 := by
    have h1 : (Real.cos lat * √(u * u + Real.cos lon * Real.cos lon)) ^ 2
        = (Real.cos lat * u) ^ 2 + Real.cos lat ^ 2 * Real.cos lon ^ 2 := by
      rw [mul_pow, Real.sq_sqrt (add_nonneg (mul_self_nonneg _) (mul_self_nonneg _))]
      ring
    rw [h1, hN, hY]
    linear_combination (-(Real.sin lat ^ 2 + Real.cos lat ^ 2 * Real.sin lon ^ 2)) * hsc
      - Real.cos lat ^ 2 * hlo - hla
  have ht : √(1 - Y * Y) = Real.cos lat * √(u * u + Real.cos lon * Real.cos lon) := by
    rw [harg, Real.sqrt_sq (mul_nonneg hc.le (Real.sqrt_nonneg _))]
  have hts : √(1 - Y * Y) * Real.sin X
      = Real.sin lat * p.cosphi + p.sinphi * Real.cos lat * Real.sin lon := by
    rw [ht, mul_assoc, hs, hN]
  have htc : √(1 - Y * Y) * Real.cos X = Real.cos lat * Real.cos lon := by
    rw [ht, mul_assoc, hcx]
  have hlat : Y * p.sinphi + √(1 - Y * Y) * p.cosphi * Real.sin X = Real.sin lat := by
    have : Y * p.sinphi + √(1 - Y * Y) * p.cosphi * Real.sin X
        = Y * p.sinphi + p.cosphi * (√(1 - Y * Y) * Real.sin X) := by ring
    rw [this, hts, hY]
    linear_combination Real.sin lat * hsc
  have hlon : √(1 - Y * Y) * p.sinphi * Real.sin X - Y * p.cosphi
      = Real.cos lat * Real.sin lon := by
    have : √(1 - Y * Y) * p.sinphi * Real.sin X - Y * p.cosphi
        = p.sinphi * (√(1 - Y * Y) * Real.sin X) - Y * p.cosphi := by ring
    rw [this, hts, hY]
    linear_combination Real.cos lat * Real.sin lon * hsc
  have hy : 1 / k0 * Y / (1 / k0) = Y := by field_simp
  have hx : X * k0 / k0 = X := by field_simp
  refine ⟨X * k0, 1 / k0 * Y, ?_, ?_, ?_, ?_⟩
  · simp only [fwd, hrok, hrtk, hX, hY, hu, real_zero, real_one, real_div, real_mul, real_sub,
      real_add, real_cos, real_sin, real_tan, real_atan, real_lt, real_ONEPI]
  · rw [hX, hu]
  · rw [hY]
  · simp only [inv, hrok, hrtk, real_one, real_div, real_mul, real_sub, real_add, real_cos,
      real_sin, real_sqrt, real_asin, real_atan2, hx, hy, hlat, hlon, htc,
      Real.arcsin_sin hlat1.le hlat2.le, aea.arg_polar _ _ hc hlon1 hlon2]

/-- An instance of the exact round trip: the block with `k0 = 2`, `sinphi = 0`, `cosphi = 1`, at
`lon = π` (where `cos lon < 0`) and `lat = 0.5`. -/
theorem ocea_round_trip_exact_example :
    ∃ x y,
      fwd { (par_ocea.blank : par_ocea ℝ) with rok := 1 / 2, rtk := 2, cosphi := 1 } Real.pi (0.5 : ℝ)
        = .ok (x, y) ∧
      inv { (par_ocea.blank : par_ocea ℝ) with rok := 1 / 2, rtk := 2, cosphi := 1 } x y
        = .ok (Real.pi, 0.5) := by
  have hpi := Real.pi_gt_three
  obtain ⟨x, y, hf, _, _, hi⟩ :=
    ocea_round_trip_exact 2 { (par_ocea.blank : par_ocea ℝ) with rok := 1 / 2, rtk := 2, cosphi := 1 } Real.pi 0.5
      (by norm_num) rfl rfl (by simp [par_ocea.blank]) (by linarith) (by linarith)
      (by linarith) (le_refl _) (by simp)
  exact ⟨x, y, hf, hi⟩

end ocea

/-! ## Winkel II: the Newton iteration of the forward -/

namespace wink2

section Generic

variable {T : Type} [CalcType T]

/-- The counter of the loop of `fwd` is 0 on exit exactly when none of the
corrections `V` of the iterates met the tolerance. -/
theorem fwd_loop_counter_zero_iff (k : T) :
    ∀ (i : Nat) (lp_lat : T), (fwd_loop k i lp_lat).2 = 0 ↔
      ∀ j < i, ¬ fabs (fwd_V k (fwd_iterate k lp_lat j)) < (LOOP_TOL : T) := by
  intro i
  induction i with
  | zero =>
    intro lp_lat
    simp [fwd_loop]
  | succ i ih =>
    intro lp_lat
    unfold fwd_loop
    by_cases h : fabs (fwd_V k lp_lat) < (LOOP_TOL : T)
    · simp only [h, if_true]
      constructor
      · intro h0
        cases h0
      · intro hall
        exact absurd h (hall 0 (Nat.succ_pos i))
    · simp only [h, if_false]
      rw [ih]
      constructor
      · intro hall j hj
        cases j with
        | zero => exact h
        | succ j => exact hall j (Nat.lt_of_succ_lt_succ hj)
      · intro hall j hj
        exact hall (j + 1) (Nat.succ_lt_succ hj)

/-- The loop of `fwd` entered with the counter `i` leaves an iterate reached
in at most `i` steps, and the iterate of exactly `i` steps when the counter
is 0 on exit. -/
theorem fwd_loop_value (k : T) :
    ∀ (i : Nat) (lp_lat : T),
      (∃ n ≤ i, (fwd_loop k i lp_lat).1 = fwd_iterate k lp_lat n) ∧
      ((fwd_loop k i lp_lat).2 = 0 → (fwd_loop k i lp_lat).1 = fwd_iterate k lp_lat i) := by
  intro i
  induction i with
  | zero =>
    intro lp_lat
    exact ⟨⟨0, le_refl _, rfl⟩, fun _ => rfl⟩
  | succ i ih =>
    intro lp_lat
    unfold fwd_loop
    by_cases h : fabs (fwd_V k lp_lat) < (LOOP_TOL : T)
    · simp only [h, if_true]
      exact ⟨⟨1, Nat.succ_le_succ (Nat.zero_le i), rfl⟩, fun h0 => by cases h0⟩
    · simp only [h, if_false]
      obtain ⟨⟨n, hn, hv⟩, h0⟩ := ih (lp_lat - fwd_V k lp_lat)
      exact ⟨⟨n + 1, Nat.succ_le_succ hn, hv⟩, h0⟩

/-- C23 (amended): for every calculation type, `fwd` runs its Newton
iteration `lp_lat -= V` from `1.8 * lat` for at most `MAX_ITER = 10` steps and
stops at the first `V` with `fabs(V) < LOOP_TOL = 1e-7`; the counter is 0 on
exit exactly when none of the 10 corrections met the tolerance, and then
`fwd` does not fail: it replaces the auxiliary latitude by `-HALFPI` if the
last iterate is negative and by `HALFPI` otherwise and returns coordinates;
otherwise it halves the iterate.  `fwd` never fails. -/
theorem fwd_newton_policy (m_proj_parm : par_wink2 T) (lon lat : T) :
    (MAX_ITER = 10 ∧ (LOOP_TOL : T) = 1e-7) ∧
    (∃ n ≤ 10, (fwd_loop (ONEPI * sin lat) MAX_ITER (lat * 1.8)).1
      = fwd_iterate (ONEPI * sin lat) (lat * 1.8) n) ∧
    ((fwd_loop (ONEPI * sin lat) MAX_ITER (lat * 1.8)).2 = 0 ↔
      ∀ j < 10, ¬ fabs (fwd_V (ONEPI * sin lat) (fwd_iterate (ONEPI * sin lat) (lat * 1.8) j))
        < (LOOP_TOL : T)) ∧
    ((fwd_loop (ONEPI * sin lat) MAX_ITER (lat * 1.8)).2 = 0 →
      fwd m_proj_parm lon lat =
        .ok (0.5 * lon *
            (cos (if fwd_iterate (ONEPI * sin lat) (lat * 1.8) 10 < 0 then -HALFPI else HALFPI)
              + m_proj_parm.cosphi1),
          FORTPI *
            (sin (if fwd_iterate (ONEPI * sin lat) (lat * 1.8) 10 < 0 then -HALFPI else HALFPI)
              + lat * TWO_D_PI))) ∧
    ((fwd_loop (ONEPI * sin lat) MAX_ITER (lat * 1.8)).2 ≠ 0 →
      fwd m_proj_parm lon lat =
        .ok (0.5 * lon *
            (cos ((fwd_loop (ONEPI * sin lat) MAX_ITER (lat * 1.8)).1 * 0.5)
              + m_proj_parm.cosphi1),
          FORTPI *
            (sin ((fwd_loop (ONEPI * sin lat) MAX_ITER (lat * 1.8)).1 * 0.5)
              + lat * TWO_D_PI))) ∧
    (∃ xy, fwd m_proj_parm lon lat = .ok xy) ∧
    ∀ code, fwd m_proj_parm lon lat ≠ .error code := by
  refine ⟨⟨rfl, rfl⟩, (fwd_loop_value _ MAX_ITER _).1,
    fwd_loop_counter_zero_iff _ MAX_ITER _, fun h => ?_, fun h => ?_, ⟨_, rfl⟩, fun code hc => ?_⟩
  · have hv := (fwd_loop_value (ONEPI * sin lat) MAX_ITER (lat * 1.8)).2 h
    unfold fwd
    simp only [h, if_true, hv]
    rfl
  · unfold fwd
    simp only [h, if_false]
  · cases hc

end Generic

end wink2

/-! ### Exhaustion of the Winkel II iteration at the pole -/

namespace wink2

/-- The correction `V` at `π - δ` with `k = π`, for `0 < δ ≤ 0.32`: it lies
between `-δ/2` and `-δ/4`. -/
theorem fwd_V_near_pi (δ : ℝ) (h0 : 0 < δ) (h1 : δ ≤ 0.32) :
    -(δ / 2) ≤ fwd_V Real.pi (Real.pi - δ) ∧ fwd_V Real.pi (Real.pi - δ) ≤ -(δ / 4) := by
  have hV : fwd_V Real.pi (Real.pi - δ) = (Real.sin δ - δ) / (1 - Real.cos δ) := by
    simp only [fwd_V, real_add, real_sub, real_div, real_one, real_sin, real_cos,
      Real.sin_pi_sub, Real.cos_pi_sub]
    congr 1
    ring
  have habs : |δ| ≤ 1 := by
    rw [abs_of_pos h0]
    linarith
  have hs := abs_le.mp (Real.sin_bound habs)
  have hc := abs_le.mp (Real.cos_bound habs)
  rw [abs_of_pos h0] at hs hc
  have h2 : 0 < δ ^ 2 := by positivity
  have h3 : 0 < δ ^ 3 := by positivity
  have hδ2 : δ ^ 2 ≤ 0.1024 := by nlinarith
  have h4 : δ ^ 4 ≤ 0.1024 * δ ^ 2 := by nlinarith
  have h4' : δ ^ 4 ≤ 0.32 * δ ^ 3 := by nlinarith
  have hD : 0 < 1 - Real.cos δ := by nlinarith [hc.1, hc.2]
  rw [hV]
  constructor
  · rw [le_div_iff₀ hD]
    have q : 0 ≤ δ ^ 3 * (1 / 12 - 5 / 96 * δ - 5 / 192 * δ ^ 2) :=
      mul_nonneg h3.le (by nlinarith)
    have hprod : δ / 2 * (1 - Real.cos δ) ≥ δ / 2 * (δ ^ 2 / 2 - δ ^ 4 * (5 / 96)) :=
      mul_le_mul_of_nonneg_left (by linarith [hc.2]) (by positivity)
    nlinarith [hs.1, hprod, q]
  · rw [div_le_iff₀ hD]
    have q : 0 ≤ δ ^ 3 * (1 / 24 - 5 / 96 * δ - 5 / 384 * δ ^ 2) :=
      mul_nonneg h3.le (by nlinarith)
    have hprod : δ / 4 * (1 - Real.cos δ) ≤ δ / 4 * (δ ^ 2 / 2 + δ ^ 4 * (5 / 96)) :=
      mul_le_mul_of_nonneg_left (by linarith [hc.1]) (by positivity)
    nlinarith [hs.2, hprod, q]

/-- The iterates of the loop of `fwd` with `k = π` from `π - δ`,
`0 < δ ≤ 0.32`: after `j` steps the distance to `π` lies between `δ / 2^j`
and `δ`. -/
theorem fwd_iterate_near_pi :
    ∀ (j : Nat) (δ : ℝ), 0 < δ → δ ≤ 0.32 →
      δ / 2 ^ j ≤ Real.pi - fwd_iterate Real.pi (Real.pi - δ) j ∧
      Real.pi - fwd_iterate Real.pi (Real.pi - δ) j ≤ δ := by
  intro j
  induction j with
  | zero =>
    intro δ _ _
    simp [fwd_iterate]
  | succ j ih =>
    intro δ h0 h1
    obtain ⟨hlo, hhi⟩ := fwd_V_near_pi δ h0 h1
    have hstep : fwd_iterate Real.pi (Real.pi - δ) (j + 1)
        = fwd_iterate Real.pi (Real.pi - (δ + fwd_V Real.pi (Real.pi - δ))) j := by
      rw [fwd_iterate]
      congr 1
      simp only [real_sub]
      ring
    obtain ⟨ilo, ihi⟩ := ih (δ + fwd_V Real.pi (Real.pi - δ)) (by linarith) (by linarith)
    rw [hstep]
    refine ⟨le_trans ?_ ilo, by linarith⟩
    have hp : (0 : ℝ) < 2 ^ j := by positivity
    have hdiv : δ / 2 ^ (j + 1) = δ / 2 / 2 ^ j := by
      rw [pow_succ]
      ring
    rw [hdiv]
    exact div_le_div_of_nonneg_right (by linarith) hp.le

/-- Counterexample to C23 as stated: over the reals at `lat = π/2` (with
`lon = 1`, `cosphi1 = 1`) none of the 10 corrections meets the tolerance, the
counter is 0 on exit, and `fwd` returns the coordinates `(0.5, π/2)` instead
of failing. -/
theorem fwd_exhausted_returns_coordinates :
    (∀ j < 10, ¬ |fwd_V (Real.pi * Real.sin (Real.pi / 2))
      (fwd_iterate (Real.pi * Real.sin (Real.pi / 2)) (Real.pi / 2 * 1.8) j)| < (1e-7 : ℝ)) ∧
    (fwd_loop (Real.pi * Real.sin (Real.pi / 2)) MAX_ITER (Real.pi / 2 * 1.8)).2 = 0 ∧
    fwd { cosphi1 := (1 : ℝ) } 1 (Real.pi / 2) = .ok (0.5, Real.pi / 2) := by
  have hpi3 := Real.pi_gt_three
  have hpi4 := Real.pi_lt_d2
  have hk : Real.pi * Real.sin (Real.pi / 2) = Real.pi := by
    rw [Real.sin_pi_div_two, mul_one]
  have hθ : Real.pi / 2 * 1.8 = Real.pi - Real.pi / 10 := by
    norm_num
    ring
  have hδ0 : 0 < Real.pi / 10 := by positivity
  have hδ1 : Real.pi / 10 ≤ 0.32 := by
    norm_num
    linarith
  have hall : ∀ j < 10, ¬ |fwd_V Real.pi (fwd_iterate Real.pi (Real.pi - Real.pi / 10) j)|
      < (1e-7 : ℝ) := by
    intro j hj
    obtain ⟨ilo, ihi⟩ := fwd_iterate_near_pi j (Real.pi / 10) hδ0 hδ1
    have hp : (0 : ℝ) < 2 ^ j := by positivity
    have hpow : (2 : ℝ) ^ j ≤ 2 ^ 10 := pow_le_pow_right₀ (by norm_num) hj.le
    have hlow : Real.pi / 10 / 2 ^ 10 ≤ Real.pi / 10 / 2 ^ j :=
      div_le_div_of_nonneg_left hδ0.le hp hpow
    have hd0 : 0 < Real.pi - fwd_iterate Real.pi (Real.pi - Real.pi / 10) j :=
      lt_of_lt_of_le (by positivity) ilo
    have hV := (fwd_V_near_pi _ hd0 (le_trans ihi hδ1)).2
    rw [sub_sub_cancel] at hV
    rw [not_lt, abs_of_nonpos (by linarith)]
    have h3 : (3 : ℝ) / 10 / 2 ^ 10 ≤ Real.pi / 10 / 2 ^ 10 :=
      div_le_div_of_nonneg_right (by linarith) (by positivity)
    norm_num at h3 ⊢
    linarith
  have hcnt : (fwd_loop Real.pi MAX_ITER (Real.pi - Real.pi / 10)).2 = 0 :=
    (fwd_loop_counter_zero_iff Real.pi MAX_ITER _).mpr (by
      intro j hj
      simpa [LOOP_TOL] using hall j hj)
  have hval := (fwd_loop_value Real.pi MAX_ITER (Real.pi - Real.pi / 10)).2 hcnt
  have hlast : ¬ fwd_iterate Real.pi (Real.pi - Real.pi / 10) MAX_ITER < 0 := by
    have := (fwd_iterate_near_pi MAX_ITER (Real.pi / 10) hδ0 hδ1).2
    rw [not_lt]
    linarith
  have hpi0 : Real.pi ≠ 0 := Real.pi_ne_zero
  have hx : (0.5 : ℝ) * (0 + 1) = 0.5 := by norm_num
  have hy : Real.pi / 4 * (1 + Real.pi / 2 * (2 / Real.pi)) = Real.pi / 2 := by
    field_simp
    ring
  rw [hk, hθ]
  refine ⟨hall, hcnt, ?_⟩
  simp only [fwd, real_lt, real_zero, real_cos, real_sin, real_HALFPI, real_FORTPI,
    real_TWO_D_PI, real_ONEPI, real_mul, real_add, real_ofScientific, mul_one, hθ, hcnt, hval,
    if_true, hlast, if_false, Real.cos_pi_div_two, Real.sin_pi_div_two, hx, hy]

end wink2

/-! ## Degenerate points and hemisphere symmetry -/

namespace aea

/-- The apex branch of `inv`, for every calculation type: when the test
`rho != 0.0` fails, `inv` returns `lon = 0` with `lat = HALFPI` if `0 < n` and
`lat = -HALFPI` otherwise. -/
theorem inv_apex_generic {T : Type} [CalcType T] [ProjImpl T] (m_par : Parameters T)
    (m_proj_parm : par_aea T) (x y : T)
    (h : (hypot x (m_proj_parm.rho0 - y) == 0) = true) :
    inv m_par m_proj_parm x y =
      .ok (0, if 0 < m_proj_parm.n then HALFPI else -HALFPI) := by
  unfold inv
  simp only [bne, h, Bool.not_true, Bool.false_eq_true, if_false]

/-- C27: over the reals, `hypot(x, rho0 - y) = 0` holds exactly when `x = 0`
and `y = rho0`, and then `inv` does not fail and returns `lon = 0` with
`lat = π/2` if `n > 0` and `lat = -π/2` otherwise, for every block
(ellipsoidal or spherical) and every global state: the result does not depend
on `e`, `one_es` or any other input of the Newton solver `phi1_`. -/
theorem inv_apex_short_circuit (_ : ProjImpl ℝ) (m_par : Parameters ℝ)
    (m_proj_parm : par_aea ℝ) (x y : ℝ) :
    (CalcType.hypot x (m_proj_parm.rho0 - y) = 0 ↔ x = 0 ∧ y = m_proj_parm.rho0) ∧
    (CalcType.hypot x (m_proj_parm.rho0 - y) = 0 →
      inv m_par m_proj_parm x y =
        .ok (0, if 0 < m_proj_parm.n then Real.pi / 2 else -(Real.pi / 2))) := by
  constructor
  · rw [real_hypot, Real.sqrt_eq_zero (add_nonneg (mul_self_nonneg _) (mul_self_nonneg _))]
    constructor
    · intro h
      have h1 : x * x = 0 := by nlinarith [mul_self_nonneg x, mul_self_nonneg (m_proj_parm.rho0 - y)]
      have h2 : (m_proj_parm.rho0 - y) * (m_proj_parm.rho0 - y) = 0 := by
        nlinarith [mul_self_nonneg x, mul_self_nonneg (m_proj_parm.rho0 - y)]
      exact ⟨mul_self_eq_zero.mp h1, by linarith [mul_self_eq_zero.mp h2]⟩
    · rintro ⟨rfl, rfl⟩
      simp
  · intro h
    rw [inv_apex_generic m_par m_proj_parm x y (by simp [h])]
    simp

end aea

namespace stere

/-- C28: over the reals, for every spherical block with `akm1 != 0`,
`inv(0, 0)` does not fail and returns `lon = 0` with `lat = phi0` in the modes
`OBLIQ`, `N_POLE` and `S_POLE` and `lat = 0` in the mode `EQUIT`; and for
every `(x, y)` with `hypot(x, y) <= 1e-10` the inverse does not fail and its
latitude is that constant. -/
theorem spheroid_inv_origin (m_par : Parameters ℝ) (p : par_stere ℝ) (hk : p.akm1 ≠ 0) :
    spheroid_inv m_par p 0 0 = .ok (0, if p.mode = Mode.EQUIT then 0 else m_par.phi0) ∧
    ∀ x y : ℝ, CalcType.hypot x y ≤ 1e-10 →
      ∃ lon, spheroid_inv m_par p x y = .ok (lon, if p.mode = Mode.EQUIT then 0 else m_par.phi0) := by
  have h0 : (0 : ℝ) / p.akm1 = 0 := by rw [div_eq_iff hk, zero_mul]
  have harg : Complex.arg ⟨0, 0⟩ = 0 := Complex.arg_zero
  have hle : (0 : ℝ) ≤ 1e-10 := by norm_num
  constructor
  · unfold spheroid_inv
    cases hm : p.mode <;>
      simp [EPS10, h0, hm, harg, hle]
  · intro x y h
    have habs : |√(x * x + y * y)| ≤ 1e-10 := by
      rw [abs_of_nonneg (Real.sqrt_nonneg _)]
      simpa using h
    unfold spheroid_inv
    cases hm : p.mode <;>
      simp only [EPS10, real_hypot, real_fabs, real_le, real_ofScientific, habs, if_true,
        reduceCtorEq, if_false] <;>
      exact ⟨_, rfl⟩

/-- Witness of C28: the oblique block with `akm1 = 2` and `phi0 = 1`, where
`inv(0, 0)` is `(0, 1)`. -/
theorem spheroid_inv_origin_witness :
    spheroid_inv (Parameters.sphere (PjParams.ofList [] []) (0 : ℝ) 1)
      { par_stere.blank with akm1 := 2, mode := Mode.OBLIQ } 0 0 = .ok (0, 1) :=
  (spheroid_inv_origin (Parameters.sphere (PjParams.ofList [] []) (0 : ℝ) 1)
    { par_stere.blank with akm1 := 2, mode := Mode.OBLIQ } (by norm_num)).1

/-- C29: over the reals, for blocks that differ only in the mode,
(a) the spherical north-pole `fwd(lon, lat)` is the south-pole
`fwd(lon, -lat)` with `y` negated, failing exactly when that one fails;
(b) the ellipsoidal south-pole `fwd(lon, lat)` is the north-pole
`fwd(lon, -lat)` with `y` negated. -/
theorem polar_fwd_hemisphere_symmetry (_ : ProjImpl ℝ) (m_par : Parameters ℝ)
    (p : par_stere ℝ) (lon lat : ℝ) :
    spheroid_fwd { p with mode := Mode.N_POLE } lon lat =
      (spheroid_fwd { p with mode := Mode.S_POLE } lon (-lat)).map (fun xy => (xy.1, -xy.2)) ∧
    ((∃ code, spheroid_fwd { p with mode := Mode.N_POLE } lon lat = .error code) ↔
      ∃ code, spheroid_fwd { p with mode := Mode.S_POLE } lon (-lat) = .error code) ∧
    ellipsoid_fwd m_par { p with mode := Mode.S_POLE } lon lat =
      (ellipsoid_fwd m_par { p with mode := Mode.N_POLE } lon (-lat)).map
        (fun xy => (xy.1, -xy.2)) := by
  have hsph : spheroid_fwd { p with mode := Mode.N_POLE } lon lat =
      (spheroid_fwd { p with mode := Mode.S_POLE } lon (-lat)).map (fun xy => (xy.1, -xy.2)) := by
    rw [(spheroid_fwd_pole { p with mode := Mode.N_POLE } lon lat).1 rfl,
      (spheroid_fwd_pole { p with mode := Mode.S_POLE } lon (-lat)).2 rfl]
    by_cases h : |(-lat) - Real.pi / 2| < 1e-8
    · rw [if_pos h, if_pos h]
      rfl
    · rw [if_neg h, if_neg h]
      simp [Except.map]
  refine ⟨hsph, ?_, ?_⟩
  · rw [hsph]
    cases spheroid_fwd { p with mode := Mode.S_POLE } lon (-lat) <;> simp [Except.map]
  · unfold ellipsoid_fwd
    simp [Except.map]

end stere

/-! ## Winkel II: the inverse -/

namespace wink2

/-- C22: the entry `wink2_entry::create_new` instantiates the forward-only
wrapper `base_v_f`; for every parameter state, every block and every
`(x, y)`, an inverse request on that evaluator fails as
`UnsupportedOperation` and returns no coordinates. -/
theorem inverse_unsupported {T : Type} [CalcType T] (par : Parameters T)
    (proj_parm : par_wink2 T) (inv : T → T → Except Int (T × T)) (x y : T) :
    (create_new par proj_parm).1 = Wrapper.base_v_f ∧
    Wrapper.inverse (create_new par proj_parm).1 inv x y =
      .error EvalFailure.UnsupportedOperation ∧
    ∀ lp, Wrapper.inverse (create_new par proj_parm).1 inv x y ≠ .ok lp := by
  refine ⟨rfl, rfl, fun lp h => ?_⟩
  cases h

end wink2

/-! ## Factory entries -/

section Factory

/-- The test `if (par.es)` of the factory entries, for every calculation
type: the entries of `cea`, `stere` and `ups` construct the ellipsoidal
variant when `es != 0` holds and the spherical variant otherwise, and the
constructors leave `es` as it is (for `ups` only the ellipsoidal variant can
be constructed).  Over the reals, for `es ≥ 0` the test `es != 0` is
`es > 0`. -/
theorem create_new_by_test_of_es :
    (∀ (T : Type) (_ : CalcType T) (_ : ProjImpl T) (par : Parameters T)
        (pc : cea.par_cea T) (ps : stere.par_stere T),
      (cea.create_new par pc = (cea.setup_cea par pc).map
          (fun r => (if par.es != 0 then Variant.ellipsoid else Variant.spheroid, r)) ∧
        ∀ v p q, cea.create_new par pc = .ok (v, p, q) → p.es = par.es) ∧
      stere.stere_create_new par ps =
        .ok (if par.es != 0 then Variant.ellipsoid else Variant.spheroid, par,
          stere.setup_stere par ps) ∧
      (stere.ups_create_new par ps = (stere.setup_ups par ps).map
          (fun r => (if par.es != 0 then Variant.ellipsoid else Variant.spheroid, r)) ∧
        ∀ v p q, stere.ups_create_new par ps = .ok (v, p, q) →
          p.es = par.es ∧ v = Variant.ellipsoid ∧ (par.es != 0) = true)) ∧
    (∀ es : ℝ, 0 ≤ es → (((es != 0) = true ↔ 0 < es) ∧ ((es == 0) = true ↔ es = 0))) := by
  constructor
  · intro T _ _ par pc ps
    refine ⟨⟨?_, ?_⟩, ?_, ?_, ?_⟩
    · unfold cea.create_new
      split_ifs <;> cases cea.setup_cea par pc <;> rfl
    · intro v p q h
      have hs : ∀ r, cea.setup_cea par pc = .ok r → r.1.es = par.es := by
        intro r hr
        unfold cea.setup_cea at hr
        dsimp only at hr
        by_cases hg : par.params.t "lat_ts" = true
        · simp only [hg, if_true] at hr
          split_ifs at hr
          · split at hr <;> cases hr
            rfl
          · cases hr
            rfl
        · simp only [hg, if_false, Bool.false_eq_true] at hr
          split_ifs at hr
          · split at hr <;> cases hr
            rfl
          · cases hr
            rfl
      unfold cea.create_new at h
      split_ifs at h <;>
        cases hr : cea.setup_cea par pc <;> rw [hr] at h <;> cases h <;> exact hs _ hr
    · unfold stere.stere_create_new
      split_ifs <;> rfl
    · unfold stere.ups_create_new
      split_ifs <;> cases stere.setup_ups par ps <;> rfl
    · intro v p q h
      unfold stere.ups_create_new stere.setup_ups at h
      by_cases he : (par.es == 0) = true
      · simp [bne, he] at h
      · simp [bne, he] at h
        obtain ⟨rfl, rfl, -⟩ := h
        exact ⟨rfl, rfl, by simpa [bne] using he⟩
  · intro es hes
    simp only [bne, real_beq, real_zero, Bool.not_eq_true', decide_eq_false_iff_not,
      decide_eq_true_eq]
    exact ⟨⟨fun h => lt_of_le_of_ne hes (Ne.symm h), fun h => ne_of_gt h⟩, trivial⟩

/-- C26: over the reals, for a global state with `es >= 0` (as for every
`es = e^2`), the entries of `cea`, `stere` and `ups` construct the ellipsoidal
variant exactly when `es > 0` and the spherical variant otherwise, and
construction leaves `es` as it is; so every constructed spherical variant has
`es = 0` and every constructed ellipsoidal variant has `es > 0` (for `ups`
only the ellipsoidal variant can be constructed). -/
theorem create_new_variant_iff_es_pos [ProjImpl ℝ] (par : Parameters ℝ) (pc : cea.par_cea ℝ)
    (ps : stere.par_stere ℝ) (hes : 0 ≤ par.es) :
    (cea.create_new par pc = (cea.setup_cea par pc).map
        (fun r => (if 0 < par.es then Variant.ellipsoid else Variant.spheroid, r)) ∧
      ∀ v p q, cea.create_new par pc = .ok (v, p, q) →
        p.es = par.es ∧ (v = Variant.ellipsoid ↔ 0 < p.es) ∧ (v = Variant.spheroid ↔ p.es = 0)) ∧
    (stere.stere_create_new par ps =
        .ok (if 0 < par.es then Variant.ellipsoid else Variant.spheroid, par,
          stere.setup_stere par ps) ∧
      ∀ v p q, stere.stere_create_new par ps = .ok (v, p, q) →
        p.es = par.es ∧ (v = Variant.ellipsoid ↔ 0 < p.es) ∧ (v = Variant.spheroid ↔ p.es = 0)) ∧
    (stere.ups_create_new par ps = (stere.setup_ups par ps).map
        (fun r => (if 0 < par.es then Variant.ellipsoid else Variant.spheroid, r)) ∧
      ∀ v p q, stere.ups_create_new par ps = .ok (v, p, q) →
        p.es = par.es ∧ v = Variant.ellipsoid ∧ 0 < p.es) := by
  obtain ⟨⟨hc1, hc2⟩, hs, hu1, hu2⟩ := create_new_by_test_of_es.1 ℝ _ _ par pc ps
  have hiff : (par.es != 0) = true ↔ 0 < par.es := (create_new_by_test_of_es.2 par.es hes).1
  have hif : (if (par.es != 0) = true then Variant.ellipsoid else Variant.spheroid)
      = if 0 < par.es then Variant.ellipsoid else Variant.spheroid := by
    by_cases h : 0 < par.es
    · rw [if_pos h, if_pos (hiff.mpr h)]
    · rw [if_neg h, if_neg (mt hiff.mp h)]
  -- what the chosen variant says about `es`
  have hvar : ∀ v : Variant,
      v = (if 0 < par.es then Variant.ellipsoid else Variant.spheroid) →
      (v = Variant.ellipsoid ↔ 0 < par.es) ∧ (v = Variant.spheroid ↔ par.es = 0) := by
    intro v hv
    by_cases h : 0 < par.es
    · rw [if_pos h] at hv
      subst hv
      exact ⟨⟨fun _ => h, fun _ => rfl⟩, ⟨fun hh => (by cases hh), fun hh => absurd hh h.ne'⟩⟩
    · rw [if_neg h] at hv
      subst hv
      have h0 : par.es = 0 := le_antisymm (not_lt.mp h) hes
      exact ⟨⟨fun hh => (by cases hh), fun hh => absurd hh h⟩, ⟨fun _ => h0, fun _ => rfl⟩⟩
  rw [hif] at hc1 hs hu1
  refine ⟨⟨hc1, fun v p q h => ?_⟩, ⟨hs, fun v p q h => ?_⟩, ⟨hu1, fun v p q h => ?_⟩⟩
  · have hp := hc2 v p q h
    rw [hc1] at h
    cases hr : cea.setup_cea par pc with
    | error ex =>
      rw [hr] at h
      cases h
    | ok r =>
      rw [hr] at h
      simp only [Except.map, Except.ok.injEq, Prod.mk.injEq] at h
      rw [hp]
      exact ⟨rfl, hvar v h.1.symm⟩
  · rw [hs] at h
    simp only [Except.ok.injEq, Prod.mk.injEq] at h
    obtain ⟨hv, hp, -⟩ := h
    rw [← hp]
    exact ⟨rfl, hvar v hv.symm⟩
  · obtain ⟨hp, hv, hne⟩ := hu2 v p q h
    rw [hp]
    exact ⟨rfl, hv, hiff.mp hne⟩

/-- Witness of C26: on the unit sphere (`es = 0`) the entry of `stere`
constructs the spherical variant, and on an ellipsoid with `e = 0.1` the
ellipsoidal one. -/
theorem create_new_variant_iff_es_pos_witness :
    stere.stere_create_new (Parameters.sphere (PjParams.ofList [] []) (0 : ℝ) 0)
        stere.par_stere.blank =
      .ok (Variant.spheroid, Parameters.sphere (PjParams.ofList [] []) (0 : ℝ) 0,
        stere.setup_stere (Parameters.sphere (PjParams.ofList [] []) (0 : ℝ) 0)
          stere.par_stere.blank) ∧
    stere.stere_create_new (Parameters.ellipsoid (PjParams.ofList [] []) (0.1 : ℝ) 0 0)
        stere.par_stere.blank =
      .ok (Variant.ellipsoid, Parameters.ellipsoid (PjParams.ofList [] []) (0.1 : ℝ) 0 0,
        stere.setup_stere (Parameters.ellipsoid (PjParams.ofList [] []) (0.1 : ℝ) 0 0)
          stere.par_stere.blank) := by
  have h1 := (create_new_variant_iff_es_pos
    (Parameters.sphere (PjParams.ofList [] []) (0 : ℝ) 0)
    (cea.par_cea.blank ()) stere.par_stere.blank (by simp [Parameters.sphere])).2.1.1
  have h2 := (create_new_variant_iff_es_pos
    (Parameters.ellipsoid (PjParams.ofList [] []) (0.1 : ℝ) 0 0)
    (cea.par_cea.blank ()) stere.par_stere.blank
    (by simp only [Parameters.ellipsoid, real_mul]; norm_num)).2.1.1
  have e1 : ¬ (0 : ℝ) < (Parameters.sphere (PjParams.ofList [] []) (0 : ℝ) 0).es := by
    simp [Parameters.sphere]
  have e2 : (0 : ℝ) < (Parameters.ellipsoid (PjParams.ofList [] []) (0.1 : ℝ) 0 0).es := by
    simp only [Parameters.ellipsoid, real_mul]
    norm_num
  rw [if_neg e1] at h1
  rw [if_pos e2] at h2
  exact ⟨h1, h2⟩

end Factory

/-! ## Geodesic direct problem after Karney -/

namespace karney_direct

/-- C30: over the reals, for `SeriesOrder = 8` `evaluate_series_A1` returns
`(t + eps) / (1 - eps)` with
`t = eps^2/4 + eps^4/64 + eps^6/256 + 25 eps^8/16384`, which for `eps ≠ 1` is
`A1 - 1` with `A1 = (1 + t) / (1 - eps)`; for `SeriesOrder / 2 = k` in
`{0, 1, 2, 3}` the polynomial `t` is that series truncated after the
`eps^(2k)` term; and for every one of these orders the value at `eps = 0`
is 0. -/
theorem evaluate_series_A1_value (t0 eps : ℝ) :
    evaluate_series_A1 8 t0 eps =
      (eps ^ 2 / 4 + eps ^ 4 / 64 + eps ^ 6 / 256 + 25 * eps ^ 8 / 16384 + eps) / (1 - eps) ∧
    (eps ≠ 1 → evaluate_series_A1 8 t0 eps =
      (1 + eps ^ 2 / 4 + eps ^ 4 / 64 + eps ^ 6 / 256 + 25 * eps ^ 8 / 16384) / (1 - eps) - 1) ∧
    (∀ n, n / 2 = 0 → evaluate_series_A1 n t0 eps = (0 + eps) / (1 - eps)) ∧
    (∀ n, n / 2 = 1 → evaluate_series_A1 n t0 eps = (eps ^ 2 / 4 + eps) / (1 - eps)) ∧
    (∀ n, n / 2 = 2 → evaluate_series_A1 n t0 eps =
      (eps ^ 2 / 4 + eps ^ 4 / 64 + eps) / (1 - eps)) ∧
    (∀ n, n / 2 = 3 → evaluate_series_A1 n t0 eps =
      (eps ^ 2 / 4 + eps ^ 4 / 64 + eps ^ 6 / 256 + eps) / (1 - eps)) ∧
    (∀ n, n / 2 ≤ 4 → evaluate_series_A1 n t0 0 = 0) := by
  have h8 : evaluate_series_A1 8 t0 eps =
      (eps ^ 2 / 4 + eps ^ 4 / 64 + eps ^ 6 / 256 + 25 * eps ^ 8 / 16384 + eps) / (1 - eps) := by
    simp only [evaluate_series_A1, real_add, real_sub, real_mul, real_div, real_ofNat, real_one]
    congr 1
    ring
  refine ⟨h8, fun h => ?_, fun n h => ?_, fun n h => ?_, fun n h => ?_, fun n h => ?_,
    fun n h => ?_⟩
  · rw [h8]
    have h1 : (1 : ℝ) - eps ≠ 0 := fun hh => h (by linarith)
    field_simp
    ring
  · simp only [evaluate_series_A1, h, real_add, real_sub, real_mul, real_div, real_ofNat,
      real_one, real_zero]
  · simp only [evaluate_series_A1, h, real_add, real_sub, real_mul, real_div, real_ofNat,
      real_one, real_zero]
    congr 1
    ring
  · simp only [evaluate_series_A1, h, real_add, real_sub, real_mul, real_div, real_ofNat,
      real_one, real_zero]
    congr 1
    ring
  · simp only [evaluate_series_A1, h, real_add, real_sub, real_mul, real_div, real_ofNat,
      real_one, real_zero]
    congr 1
    ring
  · have hn : n / 2 = 0 ∨ n / 2 = 1 ∨ n / 2 = 2 ∨ n / 2 = 3 ∨ n / 2 = 4 := by omega
    rcases hn with h | h | h | h | h <;>
      simp [evaluate_series_A1, h]

end karney_direct

/-! ## Albers: the spherical cone constant and the forward domain -/

namespace aea

/-- What a successful `setup` leaves in the block in spherical mode (the test
`par.es > 0.` fails): the sum check has passed, the block is spherical, and
`n`, `n2`, `c`, `dd` and `rho0` are the values of the `else` branch. -/
theorem setup_spherical_values [ProjImpl ℝ] (par : Parameters ℝ) (p₀ p : par_aea ℝ)
    (hes : ¬ 0 < par.es) (h : setup par p₀ = .ok p) :
    ¬ |p₀.phi1 + p₀.phi2| < 1e-10 ∧ p.ellips = false ∧
    p.n = (if 1e-10 ≤ |p₀.phi1 - p₀.phi2| then 0.5 * (Real.sin p₀.phi1 + Real.sin p₀.phi2)
           else Real.sin p₀.phi1) ∧
    p.n2 = p.n + p.n ∧
    p.c = Real.cos p₀.phi1 * Real.cos p₀.phi1 + p.n2 * Real.sin p₀.phi1 ∧
    p.dd = 1 / p.n ∧
    p.rho0 = p.dd * √(p.c - p.n2 * Real.sin par.phi0) := by
  unfold setup at h
  simp only [real_zero, real_one, real_ofScientific, real_add, real_sub, real_mul,
    real_div, real_lt, real_le, real_sin, real_cos, real_fabs, real_sqrt, EPS10, hes,
    decide_False, decide_eq_true_eq, Bool.false_eq_true, if_false] at h
  split_ifs at h with h1 h2
  · simp only [Except.ok.injEq] at h
    subst h
    exact ⟨h1, rfl, (if_pos h2).symm, rfl, rfl, rfl, rfl⟩
  · simp only [Except.ok.injEq] at h
    subst h
    exact ⟨h1, rfl, (if_neg h2).symm, rfl, rfl, rfl, rfl⟩

/-- In exact real arithmetic (rounding, NaN and division by zero of a
floating-point run are outside this lemma): for every block `p` that `setup`
returns in
spherical mode (any real `phi1`, `phi2`, tangent or secant) and every `lat`:
`c - n2 * sin lat` is `1 + sin phi1 * sin phi2 - (sin phi1 + sin phi2) * sin lat`
in the secant case and `1 + sin phi1 ^ 2 - 2 * sin phi1 * sin lat` in the
tangent case, it is `>= 0`, so `fwd` returns coordinates and never takes its
failure branch; and the square root that defines `rho0` is taken of the
non-negative number `c - n2 * sin phi0`. -/
theorem spherical_fwd_radicand_exact [ProjImpl ℝ] (par : Parameters ℝ) (p₀ p : par_aea ℝ)
    (hes : ¬ 0 < par.es) (h : setup par p₀ = .ok p) :
    (p.rho0 = p.dd * √(p.c - p.n2 * Real.sin par.phi0) ∧
      0 ≤ p.c - p.n2 * Real.sin par.phi0) ∧
    ∀ lon lat : ℝ,
      p.c - p.n2 * Real.sin lat =
        (if 1e-10 ≤ |p₀.phi1 - p₀.phi2| then
          1 + Real.sin p₀.phi1 * Real.sin p₀.phi2
            - (Real.sin p₀.phi1 + Real.sin p₀.phi2) * Real.sin lat
         else 1 + Real.sin p₀.phi1 ^ 2 - 2 * Real.sin p₀.phi1 * Real.sin lat) ∧
      0 ≤ p.c - p.n2 * Real.sin lat ∧
      fwd par p lon lat =
        .ok (p.dd * √(p.c - p.n2 * Real.sin lat) * Real.sin (lon * p.n),
          p.rho0 - p.dd * √(p.c - p.n2 * Real.sin lat) * Real.cos (lon * p.n)) ∧
      ∀ code, fwd par p lon lat ≠ .error code := by
  obtain ⟨_, hell, hn, hn2, hc, _, hrho⟩ := setup_spherical_values par p₀ p hes h
  have hval : ∀ lat : ℝ,
      p.c - p.n2 * Real.sin lat =
        (if 1e-10 ≤ |p₀.phi1 - p₀.phi2| then
          1 + Real.sin p₀.phi1 * Real.sin p₀.phi2
            - (Real.sin p₀.phi1 + Real.sin p₀.phi2) * Real.sin lat
         else 1 + Real.sin p₀.phi1 ^ 2 - 2 * Real.sin p₀.phi1 * Real.sin lat) := by
    intro lat
    have hsc := Real.sin_sq_add_cos_sq p₀.phi1
    rw [hc, hn2, hn]
    split_ifs
    · linear_combination hsc
    · linear_combination hsc
  have hnn : ∀ lat : ℝ, 0 ≤ p.c - p.n2 * Real.sin lat := by
    intro lat
    have a1 := Real.sin_le_one p₀.phi1
    have a2 := Real.neg_one_le_sin p₀.phi1
    have b1 := Real.sin_le_one p₀.phi2
    have b2 := Real.neg_one_le_sin p₀.phi2
    have c1 := Real.sin_le_one lat
    have c2 := Real.neg_one_le_sin lat
    rw [hval]
    split_ifs
    · have u1 := mul_nonneg (mul_nonneg (by linarith : (0 : ℝ) ≤ 1 + Real.sin p₀.phi1)
        (by linarith : (0 : ℝ) ≤ 1 + Real.sin p₀.phi2)) (by linarith : (0 : ℝ) ≤ 1 - Real.sin lat)
      have u2 := mul_nonneg (mul_nonneg (by linarith : (0 : ℝ) ≤ 1 - Real.sin p₀.phi1)
        (by linarith : (0 : ℝ) ≤ 1 - Real.sin p₀.phi2)) (by linarith : (0 : ℝ) ≤ 1 + Real.sin lat)
      linarith
    · nlinarith [mul_self_nonneg (Real.sin p₀.phi1 - Real.sin lat),
        mul_nonneg (sub_nonneg.mpr c1) (sub_nonneg.mpr c2)]
  have hfwd : ∀ lon lat : ℝ, fwd par p lon lat =
      .ok (p.dd * √(p.c - p.n2 * Real.sin lat) * Real.sin (lon * p.n),
        p.rho0 - p.dd * √(p.c - p.n2 * Real.sin lat) * Real.cos (lon * p.n)) := by
    intro lon lat
    unfold fwd
    simp only [hell, Bool.false_eq_true, if_false, real_zero, real_sub, real_mul, real_lt,
      real_sin, real_cos, real_sqrt, not_lt.mpr (hnn lat)]
  refine ⟨⟨hrho, hnn _⟩, fun lon lat => ⟨hval lat, hnn lat, hfwd lon lat, fun code hc => ?_⟩⟩
  rw [hfwd] at hc
  cases hc

/-- An instance of the lemma above: the sphere with standard parallels -0.5 and -1, at
`lon = 1` and the pole `lat = π/2`. -/
theorem spherical_fwd_radicand_exact_example :
    ∃ p xy,
      setup (Parameters.sphere (PjParams.ofList [] []) (0 : ℝ) 0)
        { par_aea.blank with phi1 := -0.5, phi2 := -1 } = .ok p ∧
      fwd (Parameters.sphere (PjParams.ofList [] []) (0 : ℝ) 0) p 1 (Real.pi / 2) = .ok xy := by
  obtain ⟨p, hp⟩ := setup_spherical_ok
    (Parameters.sphere (PjParams.ofList [] []) (0 : ℝ) 0)
    { par_aea.blank with phi1 := -0.5, phi2 := -1 } rfl (by norm_num [abs_of_pos])
  exact ⟨p, _, hp,
    ((spherical_fwd_radicand_exact (Parameters.sphere (PjParams.ofList [] []) (0 : ℝ) 0)
      { par_aea.blank with phi1 := -0.5, phi2 := -1 } p (by simp [Parameters.sphere]) hp).2
        1 (Real.pi / 2)).2.2.1⟩

/-- In exact real arithmetic (rounding, NaN and division by zero of a
floating-point run are outside this lemma): for standard parallels `phi1`,
`phi2` in
`[-π/2, π/2]`, every block `p` that `setup` returns in spherical mode (so
`|phi1 + phi2| >= 1e-10`) has a cone constant `n != 0`, in the tangent case
(`n = sin phi1`) and in the secant case (`n = (sin phi1 + sin phi2) / 2`);
hence `dd = 1 / n` and the divisors `n` and `n2 = 2 n` of `inv` are not 0. -/
theorem spherical_cone_constant_exact [ProjImpl ℝ] (par : Parameters ℝ) (p₀ p : par_aea ℝ)
    (hes : ¬ 0 < par.es)
    (h11 : -(Real.pi / 2) ≤ p₀.phi1) (h12 : p₀.phi1 ≤ Real.pi / 2)
    (h21 : -(Real.pi / 2) ≤ p₀.phi2) (h22 : p₀.phi2 ≤ Real.pi / 2)
    (h : setup par p₀ = .ok p) :
    1e-10 ≤ |p₀.phi1 + p₀.phi2| ∧
    (|p₀.phi1 - p₀.phi2| < 1e-10 → p.n = Real.sin p₀.phi1) ∧
    (1e-10 ≤ |p₀.phi1 - p₀.phi2| → p.n = (Real.sin p₀.phi1 + Real.sin p₀.phi2) / 2) ∧
    p.n ≠ 0 ∧ p.dd = 1 / p.n ∧ p.n2 = 2 * p.n ∧ p.n2 ≠ 0 := by
  obtain ⟨hsum, _, hn, hn2, _, hdd, _⟩ := setup_spherical_values par p₀ p hes h
  have hsum' : (1e-10 : ℝ) ≤ |p₀.phi1 + p₀.phi2| := not_lt.mp hsum
  have htan : |p₀.phi1 - p₀.phi2| < 1e-10 → p.n = Real.sin p₀.phi1 := by
    intro ht
    rw [hn, if_neg (not_le.mpr ht)]
  have hsec : 1e-10 ≤ |p₀.phi1 - p₀.phi2| →
      p.n = (Real.sin p₀.phi1 + Real.sin p₀.phi2) / 2 := by
    intro hs
    rw [hn, if_pos hs]
    ring
  have hne : p.n ≠ 0 := by
    intro h0
    by_cases hs : 1e-10 ≤ |p₀.phi1 - p₀.phi2|
    · -- secant: `sin phi1 = sin (-phi2)` forces `phi1 = -phi2`
      have hsin : Real.sin p₀.phi1 = Real.sin (-p₀.phi2) := by
        rw [Real.sin_neg]
        have := hsec hs
        rw [h0] at this
        linarith
      have heq : p₀.phi1 = -p₀.phi2 :=
        Real.injOn_sin ⟨h11, h12⟩ ⟨by linarith, by linarith⟩ hsin
      rw [heq, neg_add_cancel, abs_zero] at hsum'
      norm_num at hsum'
    · -- tangent: `sin phi1 = 0` forces `phi1 = 0`, so `|phi2| < 1e-10`
      have ht := not_le.mp hs
      have hsin : Real.sin p₀.phi1 = Real.sin 0 := by
        rw [Real.sin_zero, ← htan ht, h0]
      have heq : p₀.phi1 = 0 :=
        Real.injOn_sin ⟨h11, h12⟩ ⟨by linarith [Real.pi_pos], by linarith [Real.pi_pos]⟩ hsin
      rw [heq] at ht hsum'
      rw [zero_sub, abs_neg] at ht
      rw [zero_add] at hsum'
      linarith
  have hn2' : p.n2 = 2 * p.n := by
    rw [hn2]
    ring
  refine ⟨hsum', htan, hsec, hne, hdd, hn2', ?_⟩
  rw [hn2']
  exact mul_ne_zero two_ne_zero hne

/-- An instance of the lemma above: the sphere with standard parallels 0.5 and 1. -/
theorem spherical_cone_constant_exact_example :
    ∃ p,
      setup (Parameters.sphere (PjParams.ofList [] []) (0 : ℝ) 0)
        { par_aea.blank with phi1 := 0.5, phi2 := 1 } = .ok p ∧ p.n ≠ 0 := by
  have hpi := Real.pi_gt_three
  obtain ⟨p, hp⟩ := setup_spherical_ok
    (Parameters.sphere (PjParams.ofList [] []) (0 : ℝ) 0)
    { par_aea.blank with phi1 := 0.5, phi2 := 1 } rfl (by norm_num [abs_of_pos])
  exact ⟨p, hp,
    (spherical_cone_constant_exact (Parameters.sphere (PjParams.ofList [] []) (0 : ℝ) 0)
      { par_aea.blank with phi1 := 0.5, phi2 := 1 } p (by simp [Parameters.sphere])
      (by show -(Real.pi / 2) ≤ (0.5 : ℝ); linarith)
      (by show (0.5 : ℝ) ≤ Real.pi / 2; linarith)
      (by show -(Real.pi / 2) ≤ (1 : ℝ); linarith)
      (by show (1 : ℝ) ≤ Real.pi / 2; linarith) hp).2.2.2.1⟩

end aea

/-! ## Albers: the true latitude is a fixed point of the Newton step -/

namespace aea

end aea

/-! ## Oblique Cylindrical Equal Area: invariants of the setup -/

namespace ocea

/-- In exact real arithmetic (rounding, NaN and division by zero of a
floating-point run are outside this lemma): every block that `setup_ocea`
produces, in either
convention and for every parameter value, has `sinphi^2 + cosphi^2 = 1`,
`singam^2 + cosgam^2 = 1` and `cosphi >= 0`, the pole latitude angle being an
`asin` or `atan` value in `[-π/2, π/2]`; with `alpha` given, `sinphi = sin alpha`
and `cosphi = |cos alpha|`.  So for every `(lon, lat)` the forward returns
`y = rok * Y` with `|Y| <= 1`, where
`Y = sinphi * sin lat - cosphi * cos lat * sin lon`; for `k0 != 0` this gives
`|y * k0| <= 1` and a non-negative square-root argument `1 - (y / rok)^2` in
the inverse. -/
theorem setup_ocea_unit_constants_exact (par : Parameters ℝ) (p₀ : par_ocea ℝ) :
    ((setup_ocea par p₀).2.sinphi ^ 2 + (setup_ocea par p₀).2.cosphi ^ 2 = 1 ∧
      (setup_ocea par p₀).2.singam ^ 2 + (setup_ocea par p₀).2.cosgam ^ 2 = 1 ∧
      0 ≤ (setup_ocea par p₀).2.cosphi) ∧
    ((setup_ocea par p₀).2.sinphi = Real.sin (setup_pole par.params).2 ∧
      (setup_ocea par p₀).2.cosphi = Real.cos (setup_pole par.params).2 ∧
      -(Real.pi / 2) ≤ (setup_pole par.params).2 ∧ (setup_pole par.params).2 ≤ Real.pi / 2) ∧
    (par.params.t "alpha" = true →
      (setup_ocea par p₀).2.sinphi = Real.sin (par.params.f "alpha") ∧
      (setup_ocea par p₀).2.cosphi = |Real.cos (par.params.f "alpha")|) ∧
    ∀ lon lat : ℝ,
      |(setup_ocea par p₀).2.sinphi * Real.sin lat
        - (setup_ocea par p₀).2.cosphi * Real.cos lat * Real.sin lon| ≤ 1 ∧
      ∃ x y, fwd (setup_ocea par p₀).2 lon lat = .ok (x, y) ∧
        y = (setup_ocea par p₀).2.rok *
          ((setup_ocea par p₀).2.sinphi * Real.sin lat
            - (setup_ocea par p₀).2.cosphi * Real.cos lat * Real.sin lon) ∧
        (par.k0 ≠ 0 →
          |y * par.k0| ≤ 1 ∧
          0 ≤ 1 - y / (setup_ocea par p₀).2.rok * (y / (setup_ocea par p₀).2.rok)) := by
  have hs : (setup_ocea par p₀).2.sinphi = Real.sin (setup_pole par.params).2 := rfl
  have hc : (setup_ocea par p₀).2.cosphi = Real.cos (setup_pole par.params).2 := rfl
  have hsg : (setup_ocea par p₀).2.singam = Real.sin (setup_pole par.params).1 := rfl
  have hcg : (setup_ocea par p₀).2.cosgam = Real.cos (setup_pole par.params).1 := rfl
  have hrok : (setup_ocea par p₀).2.rok = 1 / par.k0 := rfl
  have hrange : -(Real.pi / 2) ≤ (setup_pole par.params).2 ∧
      (setup_pole par.params).2 ≤ Real.pi / 2 := by
    unfold setup_pole
    split_ifs
    · exact ⟨Real.neg_pi_div_two_le_arcsin _, Real.arcsin_le_pi_div_two _⟩
    · exact ⟨(Real.neg_pi_div_two_lt_arctan _).le, (Real.arctan_lt_pi_div_two _).le⟩
  have hunit : (setup_ocea par p₀).2.sinphi ^ 2 + (setup_ocea par p₀).2.cosphi ^ 2 = 1 := by
    rw [hs, hc]
    exact Real.sin_sq_add_cos_sq _
  have hY : ∀ lon lat : ℝ,
      |(setup_ocea par p₀).2.sinphi * Real.sin lat
        - (setup_ocea par p₀).2.cosphi * Real.cos lat * Real.sin lon| ≤ 1 := by
    intro lon lat
    have hla := Real.sin_sq_add_cos_sq lat
    have hlo := Real.sin_sq_add_cos_sq lon
    generalize (setup_ocea par p₀).2.sinphi = sp at hunit ⊢
    generalize (setup_ocea par p₀).2.cosphi = cp at hunit ⊢
    rw [abs_le_one_iff_mul_self_le_one]
    have hid : 1 - (sp * Real.sin lat - cp * Real.cos lat * Real.sin lon)
          * (sp * Real.sin lat - cp * Real.cos lat * Real.sin lon)
        = (Real.sin lat * cp + sp * Real.cos lat * Real.sin lon) ^ 2
          + (Real.cos lat * Real.cos lon) ^ 2 := by
      linear_combination (-(Real.sin lat ^ 2 + Real.cos lat ^ 2 * Real.sin lon ^ 2)) * hunit
        - Real.cos lat ^ 2 * hlo - hla
    nlinarith [sq_nonneg (Real.sin lat * cp + sp * Real.cos lat * Real.sin lon),
      sq_nonneg (Real.cos lat * Real.cos lon)]
  refine ⟨⟨hunit, ?_, ?_⟩, ⟨hs, hc, hrange⟩, fun ha => ?_, fun lon lat => ⟨hY lon lat, ?_⟩⟩
  · rw [hsg, hcg]
    exact Real.sin_sq_add_cos_sq _
  · rw [hc]
    exact Real.cos_nonneg_of_neg_pi_div_two_le_of_le hrange.1 hrange.2
  · have hp : (setup_pole par.params).2 = Real.arcsin (Real.sin (par.params.f "alpha")) := by
      simp only [setup_pole, ha, if_true, real_asin, real_cos, real_sin, real_mul, real_zero,
        Real.cos_zero, one_mul]
    rw [hs, hc, hp, Real.sin_arcsin (Real.neg_one_le_sin _) (Real.sin_le_one _),
      Real.cos_arcsin, ← Real.sqrt_sq_eq_abs]
    refine ⟨rfl, ?_⟩
    congr 1
    linear_combination -(Real.sin_sq_add_cos_sq (par.params.f "alpha"))
  · refine ⟨_, _, rfl, rfl, fun hk => ?_⟩
    have h1 : (setup_ocea par p₀).2.rok *
        ((setup_ocea par p₀).2.sinphi * Real.sin lat
          - (setup_ocea par p₀).2.cosphi * Real.cos lat * Real.sin lon) * par.k0
        = (setup_ocea par p₀).2.sinphi * Real.sin lat
          - (setup_ocea par p₀).2.cosphi * Real.cos lat * Real.sin lon := by
      rw [hrok]
      field_simp
    have h2 : (setup_ocea par p₀).2.rok *
        ((setup_ocea par p₀).2.sinphi * Real.sin lat
          - (setup_ocea par p₀).2.cosphi * Real.cos lat * Real.sin lon)
          / (setup_ocea par p₀).2.rok
        = (setup_ocea par p₀).2.sinphi * Real.sin lat
          - (setup_ocea par p₀).2.cosphi * Real.cos lat * Real.sin lon := by
      rw [hrok]
      field_simp
    have hsq := abs_le_one_iff_mul_self_le_one.mp (hY lon lat)
    constructor
    · simp only [real_mul, real_sub, real_sin, real_cos]
      rw [h1]
      exact hY lon lat
    · simp only [real_mul, real_sub, real_sin, real_cos]
      rw [h2]
      linarith

end ocea

/-! ## Stereographic: polar scale and equatorial arm -/

namespace stere

/-- The polar constant of the spherical setup in closed form:
`cos(phits) / tan(π/4 - phits/2) = 1 + sin(phits)` where `cos(phits) != 0`. -/
theorem polar_akm1_eq (ph : ℝ) (hc : Real.cos ph ≠ 0) :
    Real.cos ph / Real.tan (Real.pi / 4 - 0.5 * ph) = 1 + Real.sin ph := by
  have hcos : Real.cos ph = 2 * Real.sin (Real.pi / 4 - 0.5 * ph)
      * Real.cos (Real.pi / 4 - 0.5 * ph) := by
    rw [← Real.sin_two_mul, ← Real.sin_pi_div_two_sub]
    congr 1
    ring
  have hsin : Real.sin ph = 2 * Real.cos (Real.pi / 4 - 0.5 * ph) ^ 2 - 1 := by
    rw [← Real.cos_two_mul, ← Real.cos_pi_div_two_sub]
    congr 1
    ring
  have hs : Real.sin (Real.pi / 4 - 0.5 * ph) ≠ 0 := by
    intro h0
    rw [hcos, h0] at hc
    simp at hc
  have hcu : Real.cos (Real.pi / 4 - 0.5 * ph) ≠ 0 := by
    intro h0
    rw [hcos, h0] at hc
    simp at hc
  rw [Real.tan_eq_sin_div_cos, hsin, hcos]
  generalize Real.sin (Real.pi / 4 - 0.5 * ph) = a at hs ⊢
  generalize Real.cos (Real.pi / 4 - 0.5 * ph) = b at hcu ⊢
  field_simp
  ring

/-- C35: over the reals, in a polar mode of the spherical setup
(`es = 0`, `|phi0|` within `1e-10` of `π/2`): when `lat_ts` is given with
`|lat_ts| < π/2` and `||lat_ts| - π/2| >= 1e-10`, `setup_stere` yields
`akm1 = cos(phits) / tan(π/4 - phits/2) = 1 + sin(phits)` with
`phits = |lat_ts|`, a value in `[1, 2)` that is the same for every `k0`; when
`lat_ts` is absent, or given with `||lat_ts| - π/2| < 1e-10`, `akm1 = 2 * k0`. -/
theorem setup_stere_polar_akm1 [ProjImpl ℝ] (par : Parameters ℝ) (p₀ : par_stere ℝ)
    (hes : par.es = 0) (hpolar : |(|par.phi0| - Real.pi / 2)| < 1e-10) :
    ((setup_stere par p₀).mode = Mode.N_POLE ∨ (setup_stere par p₀).mode = Mode.S_POLE) ∧
    (par.params.t "lat_ts" = true → |par.params.f "lat_ts"| < Real.pi / 2 →
      1e-10 ≤ |(|par.params.f "lat_ts"| - Real.pi / 2)| →
      (setup_stere par p₀).akm1 =
        Real.cos |par.params.f "lat_ts"| / Real.tan (Real.pi / 4 - 0.5 * |par.params.f "lat_ts"|) ∧
      (setup_stere par p₀).akm1 = 1 + Real.sin |par.params.f "lat_ts"| ∧
      1 ≤ (setup_stere par p₀).akm1 ∧ (setup_stere par p₀).akm1 < 2 ∧
      ∀ k0 : ℝ, (setup_stere { par with k0 := k0 } p₀).akm1 = (setup_stere par p₀).akm1) ∧
    (par.params.t "lat_ts" = false → (setup_stere par p₀).akm1 = 2 * par.k0) ∧
    (par.params.t "lat_ts" = true → |(|par.params.f "lat_ts"| - Real.pi / 2)| < 1e-10 →
      (setup_stere par p₀).akm1 = 2 * par.k0) := by
  have key : ∀ k0 : ℝ,
      ((setup_stere { par with k0 := k0 } p₀).mode = Mode.N_POLE ∨
        (setup_stere { par with k0 := k0 } p₀).mode = Mode.S_POLE) ∧
      (setup_stere { par with k0 := k0 } p₀).akm1 =
        if (1e-10 : ℝ) ≤
            |(|(if par.params.t "lat_ts" = true then par.params.f "lat_ts" else Real.pi / 2)|
              - Real.pi / 2)| then
          Real.cos |(if par.params.t "lat_ts" = true then par.params.f "lat_ts" else Real.pi / 2)|
            / Real.tan (Real.pi / 4
              - 0.5 * |(if par.params.t "lat_ts" = true then par.params.f "lat_ts"
                  else Real.pi / 2)|)
        else 2 * k0 := by
    intro k0
    unfold setup_stere setup
    simp only [real_zero, real_ofScientific, real_sub, real_mul, real_div, real_lt, real_le,
      real_cos, real_tan, real_fabs, real_HALFPI, real_FORTPI, real_ofNat, real_beq, bne, EPS10,
      hes, hpolar, if_true, decide_True, Bool.not_true, Bool.false_eq_true, if_false]
    by_cases hneg : par.phi0 < 0
    · simp only [hneg, if_true]
      exact ⟨by simp, trivial⟩
    · simp only [hneg, if_false]
      exact ⟨by simp, trivial⟩
  have key0 := key par.k0
  have hpar : ({ par with k0 := par.k0 } : Parameters ℝ) = par := rfl
  rw [hpar] at key0
  refine ⟨key0.1, fun ht hlt hfar => ?_, fun ht => ?_, fun ht hnear => ?_⟩
  · have hval : (setup_stere par p₀).akm1 =
        Real.cos |par.params.f "lat_ts"|
          / Real.tan (Real.pi / 4 - 0.5 * |par.params.f "lat_ts"|) := by
      rw [key0.2]
      simp only [ht, if_true, if_pos hfar]
    have hcos : 0 < Real.cos |par.params.f "lat_ts"| :=
      Real.cos_pos_of_mem_Ioo ⟨by linarith [abs_nonneg (par.params.f "lat_ts"), Real.pi_pos], hlt⟩
    have hsum : (setup_stere par p₀).akm1 = 1 + Real.sin |par.params.f "lat_ts"| := by
      rw [hval, polar_akm1_eq _ hcos.ne']
    have hs0 : 0 ≤ Real.sin |par.params.f "lat_ts"| :=
      Real.sin_nonneg_of_nonneg_of_le_pi (abs_nonneg _) (by linarith [Real.pi_pos])
    have hs1 : Real.sin |par.params.f "lat_ts"| < 1 := by
      rw [← Real.sin_pi_div_two]
      exact Real.sin_lt_sin_of_lt_of_le_pi_div_two
        (by linarith [abs_nonneg (par.params.f "lat_ts"), Real.pi_pos]) (le_refl _) hlt
    refine ⟨hval, hsum, by linarith, by linarith, fun k0 => ?_⟩
    rw [(key k0).2, hval]
    simp only [ht, if_true, if_pos hfar]
  · rw [key0.2]
    have h0 : ¬ (1e-10 : ℝ) ≤ |(|Real.pi / 2| - Real.pi / 2)| := by
      rw [abs_of_pos (by positivity : (0 : ℝ) < Real.pi / 2), sub_self, abs_zero]
      norm_num
    simp only [ht, Bool.false_eq_true, if_false, if_neg h0]
  · rw [key0.2]
    simp only [ht, if_true, if_neg (not_le.mpr hnear)]

/-- Witness of C35: the sphere with `phi0 = π/2`, `k0 = 1` and `lat_ts = 1`,
where `akm1 = 1 + sin 1`. -/
theorem setup_stere_polar_akm1_witness :
    (setup_stere (Parameters.sphere (PjParams.ofList [("lat_ts", (1 : ℝ))] []) 0 (Real.pi / 2))
      par_stere.blank).akm1 = 1 + Real.sin |(1 : ℝ)| := by
  have hpi := Real.pi_gt_three
  have hpi2 := Real.pi_lt_d2
  have h := (setup_stere_polar_akm1
    (Parameters.sphere (PjParams.ofList [("lat_ts", (1 : ℝ))] []) 0 (Real.pi / 2))
    par_stere.blank rfl (by
      show |(|Real.pi / 2| - Real.pi / 2)| < (1e-10 : ℝ)
      rw [abs_of_pos (by positivity : (0 : ℝ) < Real.pi / 2), sub_self, abs_zero]
      norm_num)).2.1
    (by simp [Parameters.sphere, PjParams.ofList, List.lookup])
    (by
      show |(1 : ℝ)| < Real.pi / 2
      rw [abs_one]
      linarith)
    (by
      show (1e-10 : ℝ) ≤ |(|(1 : ℝ)| - Real.pi / 2)|
      rw [abs_one, abs_of_neg (by linarith)]
      norm_num
      linarith)
  exact h.2.1

/-- C36: over the reals, for every block and every input, the spherical
forward in `OBLIQ` mode with `sinX1 = 0`, `cosX1 = 1` is the forward in
`EQUIT` mode (the same failure, the same coordinates), and the spherical
inverse in `OBLIQ` mode with `sinX1 = 0`, `cosX1 = 1`, `phi0 = 0` is the
inverse in `EQUIT` mode. -/
theorem equit_is_obliq_at_zero (par : Parameters ℝ) (p : par_stere ℝ) (lon lat x y : ℝ) :
    spheroid_fwd { p with mode := Mode.OBLIQ, sinX1 := 0, cosX1 := 1 } lon lat =
      spheroid_fwd { p with mode := Mode.EQUIT } lon lat ∧
    ((∃ code, spheroid_fwd { p with mode := Mode.OBLIQ, sinX1 := 0, cosX1 := 1 } lon lat
        = .error code) ↔
      ∃ code, spheroid_fwd { p with mode := Mode.EQUIT } lon lat = .error code) ∧
    spheroid_inv { par with phi0 := 0 } { p with mode := Mode.OBLIQ, sinX1 := 0, cosX1 := 1 } x y =
      spheroid_inv par { p with mode := Mode.EQUIT } x y := by
  have hf : spheroid_fwd { p with mode := Mode.OBLIQ, sinX1 := 0, cosX1 := 1 } lon lat =
      spheroid_fwd { p with mode := Mode.EQUIT } lon lat := by
    rw [(spheroid_fwd_oblcon_real _ lon lat).2 rfl, (spheroid_fwd_oblcon_real _ lon lat).1 rfl]
    simp only [zero_mul, add_zero, one_mul, sub_zero]
  refine ⟨hf, by rw [hf], ?_⟩
  unfold spheroid_inv
  simp only [real_zero, real_one, real_ofNat, real_ofScientific, real_add, real_sub, real_mul,
    real_div, real_le, real_beq, bne, real_sin, real_cos, real_asin, real_atan, real_atan2,
    real_hypot, real_fabs, EPS10, mul_zero, zero_mul, add_zero, zero_add, mul_one, sub_zero]

end stere

/-! ## Stereographic: the ellipsoidal formulas at zero eccentricity -/

namespace stere

/-- The conformal latitude at zero eccentricity: for `cos φ != 0` the angle
`X = 2 atan(tan(0.5 (π/2 + φ))) - π/2` has the sine and the cosine of `φ`. -/
theorem conformal_zero_eccentricity (φ : ℝ) (hc : Real.cos φ ≠ 0) :
    Real.sin (2 * Real.arctan (Real.tan (0.5 * (Real.pi / 2 + φ))) - Real.pi / 2) = Real.sin φ ∧
    Real.cos (2 * Real.arctan (Real.tan (0.5 * (Real.pi / 2 + φ))) - Real.pi / 2) = Real.cos φ := by
  have hcos : Real.cos φ = 2 * Real.sin (0.5 * (Real.pi / 2 + φ))
      * Real.cos (0.5 * (Real.pi / 2 + φ)) := by
    rw [← Real.sin_two_mul, ← Real.sin_add_pi_div_two]
    congr 1
    ring
  have hsin : Real.sin φ = 1 - 2 * Real.cos (0.5 * (Real.pi / 2 + φ)) ^ 2 := by
    have h2 : Real.cos (2 * (0.5 * (Real.pi / 2 + φ))) = -Real.sin φ := by
      rw [← Real.cos_add_pi_div_two]
      congr 1
      ring
    rw [Real.cos_two_mul] at h2
    linarith
  have hcu : Real.cos (0.5 * (Real.pi / 2 + φ)) ≠ 0 := by
    intro h0
    rw [hcos, h0] at hc
    simp at hc
  have hsq := Real.sin_sq_add_cos_sq (0.5 * (Real.pi / 2 + φ))
  obtain ⟨h1, h2⟩ := cos_sin_two_arctan (Real.tan (0.5 * (Real.pi / 2 + φ)))
  rw [Real.sin_sub_pi_div_two, Real.cos_sub_pi_div_two, h1, h2, Real.tan_eq_sin_div_cos, hsin,
    hcos]
  generalize Real.sin (0.5 * (Real.pi / 2 + φ)) = a at hsq ⊢
  generalize Real.cos (0.5 * (Real.pi / 2 + φ)) = b at hcu hsq ⊢
  have hab : b ^ 2 + a ^ 2 ≠ 0 := by
    rw [add_comm, hsq]
    exact one_ne_zero
  constructor
  · field_simp
    linear_combination (2 * b ^ 2) * hsq
  · field_simp
    linear_combination (-2 * a * b ^ 2) * hsq

/-- C37: over the reals, at zero eccentricity `ssfn_(φ, sin φ, 0)` is
`tan(0.5 (π/2 + φ)) = tan(π/4 + φ/2)`; so in `OBLIQ` mode, for `cos phi0 > 0`,
the ellipsoidal branch of `setup` (taken when `es != 0`; its formulas read `e`
only) with `e = 0` leaves `sinX1 = sin phi0`, `cosX1 = cos phi0` and
`akm1 = 2 k0 cos phi0`, the spherical branch leaves the same `sinX1`, `cosX1`
and `akm1 = 2 k0`, and for every `lat` in `(-π/2, π/2)` and every `lon` at
which the spherical forward returns `(x, y)`, the ellipsoidal forward returns
the same `(x, y)`. -/
theorem ellipsoid_reduces_to_sphere_obliq [ProjImpl ℝ] (par : Parameters ℝ) (p₀ : par_stere ℝ)
    (he : par.e = 0) (hes : par.es ≠ 0) (hmode : (setup par p₀).mode = Mode.OBLIQ)
    (hcos : 0 < Real.cos par.phi0) :
    (∀ φ : ℝ, ssfn_ φ (Real.sin φ) (0 : ℝ) = Real.tan (0.5 * (Real.pi / 2 + φ)) ∧
      ssfn_ φ (Real.sin φ) (0 : ℝ) = Real.tan (Real.pi / 4 + φ / 2)) ∧
    ((setup par p₀).sinX1 = Real.sin par.phi0 ∧ (setup par p₀).cosX1 = Real.cos par.phi0 ∧
      (setup par p₀).akm1 = 2 * par.k0 * Real.cos par.phi0) ∧
    ((setup { par with es := 0 } p₀).mode = Mode.OBLIQ ∧
      (setup { par with es := 0 } p₀).sinX1 = Real.sin par.phi0 ∧
      (setup { par with es := 0 } p₀).cosX1 = Real.cos par.phi0 ∧
      (setup { par with es := 0 } p₀).akm1 = 2 * par.k0) ∧
    ∀ lon lat : ℝ, -(Real.pi / 2) < lat → lat < Real.pi / 2 → ∀ xy : ℝ × ℝ,
      spheroid_fwd (setup { par with es := 0 } p₀) lon lat = .ok xy →
      ellipsoid_fwd par (setup par p₀) lon lat = .ok xy := by
  have hssfn : ∀ φ : ℝ, ssfn_ φ (Real.sin φ) (0 : ℝ) = Real.tan (0.5 * (Real.pi / 2 + φ)) := by
    intro φ
    simp only [ssfn_, real_zero, real_one, real_ofScientific, real_add, real_sub, real_mul,
      real_div, real_tan, real_pow, real_HALFPI, mul_zero, sub_zero, add_zero, div_one,
      Real.rpow_zero, mul_one]
  -- the mode does not depend on `es`
  have hmode0 : (setup { par with es := 0 } p₀).mode = (setup par p₀).mode := by
    unfold setup
    simp only [real_beq, bne, real_zero]
    split_ifs <;> rfl
  -- the constants of the ellipsoidal branch
  have hE : (setup par p₀).sinX1 =
        Real.sin (2 * Real.arctan (ssfn_ par.phi0 (Real.sin par.phi0) par.e) - Real.pi / 2) ∧
      (setup par p₀).cosX1 =
        Real.cos (2 * Real.arctan (ssfn_ par.phi0 (Real.sin par.phi0) par.e) - Real.pi / 2) ∧
      (setup par p₀).akm1 = 2 * par.k0 * Real.cos par.phi0
        / √(1 - Real.sin par.phi0 * par.e * (Real.sin par.phi0 * par.e)) := by
    by_cases h1 : |(|par.phi0| - Real.pi / 2)| < 1e-10
    · exfalso
      by_cases h3 : par.phi0 < 0 <;>
        simp [setup, EPS10, h1, h3, hes] at hmode <;>
        split_ifs at hmode
    · by_cases h2 : (1e-10 : ℝ) < |par.phi0|
      · unfold setup
        simp only [real_beq, bne, real_zero, real_lt, real_fabs, real_sub, real_HALFPI,
          real_ofScientific, EPS10, hes, h1, h2, decide_False, Bool.not_false, if_true,
          if_false, real_sin, real_cos, real_atan, real_sqrt, real_mul, real_div, real_one,
          real_ofNat, and_self]
      · exfalso
        simp [setup, EPS10, h1, h2, hes] at hmode
  obtain ⟨hcs, hsn⟩ := conformal_zero_eccentricity par.phi0 hcos.ne'
  have hconst : (setup par p₀).sinX1 = Real.sin par.phi0 ∧
      (setup par p₀).cosX1 = Real.cos par.phi0 ∧
      (setup par p₀).akm1 = 2 * par.k0 * Real.cos par.phi0 := by
    obtain ⟨h1, h2, h3⟩ := hE
    rw [he, hssfn] at h1 h2
    rw [he] at h3
    refine ⟨h1.trans hcs, h2.trans hsn, ?_⟩
    rw [h3]
    simp
  have hS := (setup_spherical_constants { par with es := 0 } p₀ rfl).1 (hmode0.trans hmode)
  refine ⟨fun φ => ⟨hssfn φ, ?_⟩, hconst, ⟨hmode0.trans hmode, hS.1, hS.2.1, hS.2.2.1⟩, ?_⟩
  · rw [hssfn]
    congr 1
    ring
  · intro lon lat hl1 hl2 xy hxy
    rw [(spheroid_fwd_oblcon_real _ lon lat).2 (hmode0.trans hmode), hS.1, hS.2.1, hS.2.2.1] at hxy
    split_ifs at hxy with hd
    have hd' : 1 + Real.sin par.phi0 * Real.sin lat
        + Real.cos par.phi0 * Real.cos lat * Real.cos lon ≠ 0 := by
      intro h0
      rw [h0] at hd
      norm_num at hd
    have hX : 2 * Real.arctan (Real.tan (0.5 * (Real.pi / 2 + lat))) - Real.pi / 2 = lat := by
      rw [Real.arctan_tan (by linarith [Real.pi_pos]) (by linarith [Real.pi_pos])]
      ring
    cases hxy
    unfold ellipsoid_fwd
    simp only [hmode, hconst.1, hconst.2.1, hconst.2.2, he, hssfn, hX, real_sin, real_cos,
      real_atan, real_mul, real_sub, real_add, real_div, real_one, real_ofNat, real_HALFPI]
    congr 1
    refine Prod.ext ?_ ?_
    · show 2 * par.k0 * Real.cos par.phi0 / (Real.cos par.phi0 *
          (1 + Real.sin par.phi0 * Real.sin lat + Real.cos par.phi0 * Real.cos lat * Real.cos lon))
          * Real.cos lat * Real.sin lon = _
      field_simp
      ring
    · show 2 * par.k0 * Real.cos par.phi0 / (Real.cos par.phi0 *
          (1 + Real.sin par.phi0 * Real.sin lat + Real.cos par.phi0 * Real.cos lat * Real.cos lon))
          * (Real.cos par.phi0 * Real.sin lat - Real.sin par.phi0 * Real.cos lat * Real.cos lon)
          = _
      field_simp
      ring

/-- Witness of C37: `phi0 = 0.5`, `k0 = 1`, `e = 0` on the branch `es != 0`
(`es = 1`), where the ellipsoidal `akm1` is `2 cos 0.5`. -/
theorem ellipsoid_reduces_to_sphere_obliq_witness :
    (setup { Parameters.sphere (PjParams.ofList [] []) (0 : ℝ) 0.5 with es := 1 }
      par_stere.blank).akm1 = 2 * 1 * Real.cos 0.5 := by
  have hpi := Real.pi_gt_three
  have h1 : ¬ |(|(0.5 : ℝ)| - Real.pi / 2)| < 1e-10 := by
    rw [abs_of_pos (by norm_num : (0 : ℝ) < 0.5), abs_of_neg (by linarith)]
    norm_num
    linarith
  have h2 : (1e-10 : ℝ) < |(0.5 : ℝ)| := by
    rw [abs_of_pos (by norm_num : (0 : ℝ) < 0.5)]
    norm_num
  exact (ellipsoid_reduces_to_sphere_obliq
    { Parameters.sphere (PjParams.ofList [] []) (0 : ℝ) 0.5 with es := 1 } par_stere.blank
    rfl (by simp [Parameters.sphere])
    (by simp [setup, EPS10, Parameters.sphere, h1, h2])
    (Real.cos_pos_of_mem_Ioo ⟨by
      show -(Real.pi / 2) < (0.5 : ℝ)
      linarith, by
      show (0.5 : ℝ) < Real.pi / 2
      linarith⟩)).2.1.2.2

end stere

end Geometry
